import Mathlib

set_option maxHeartbeats 1000000
set_option autoImplicit false

namespace MoonSpec

/-!
Verification development for the layout and paint core of the moon rendering
engine.  The first half embeds the layout tree builder
(src/components/layout/src/tree_builder.rs); the second half embeds the paint
request builder (src/components/painting/src/request_builder.rs).

Helpers that live in repository files not present under src (layout_box.rs and
the painting utils module) are modelled from the specification; each such
definition carries a doc comment starting with the words Modelled from the
spec.
-/

/-!  Display values, from src/components/style/src/values/display.rs.  -/

inductive OuterDisplayType where
  | Block
  | Inline
  | RunIn
deriving DecidableEq, Repr

inductive InnerDisplayType where
  | Flow
  | FlowRoot
  | Table
  | Flex
  | Grid
  | Ruby
deriving DecidableEq, Repr

inductive DisplayBox where
  | Contents
  | None
deriving DecidableEq, Repr

inductive Display where
  | Full (outer : OuterDisplayType) (inner : InnerDisplayType)
  | Box (b : DisplayBox)
deriving DecidableEq, Repr

/-- True exactly for the box suppressing value display none, the value matched
by the builder in tree_builder.rs lines 29 to 34 and 48 to 53. -/
def Display.isNoneDisplay : Display → Bool
  | .Box .None => true
  | _ => false

/-- Modelled from the spec: layout_box.rs is not under src.  A generated box is
inline level exactly when the outer display type of its node is Inline;
anonymous boxes are always block level in this design. -/
def Display.isInlineLevel : Display → Bool
  | .Full .Inline _ => true
  | _ => false

/-!  The styled document tree consumed by the tree builder.  Only the resolved
display value of each node is consulted by tree_builder.rs, so a node carries
its identifier, its display value and its children. -/

mutual
inductive DNode where
  | mk (nid : Nat) (disp : Display) (kids : DForest)
inductive DForest where
  | nil
  | cons (hd : DNode) (tl : DForest)
end

def DNode.nid : DNode → Nat
  | .mk n _ _ => n

def DNode.disp : DNode → Display
  | .mk _ d _ => d

def DNode.kids : DNode → DForest
  | .mk _ _ k => k

/-!  The layout box tree.  The Rust tree is a pointer structure mutated in
place through a parent stack, so the embedding keeps an explicit heap of boxes
addressed by allocation index, exactly mirroring allocation order. -/

/-- A layout box: the backing document node (absent for anonymous boxes), the
inline flag of its kind, and the ordered children as heap indices. -/
structure LBox where
  node : Option Nat
  isInline : Bool
  children : List Nat
deriving DecidableEq, Repr

instance : Inhabited LBox := ⟨⟨none, false, []⟩⟩

def getBox (h : List LBox) (i : Nat) : LBox := h.getD i default

/-- Modelled from the spec: layout_box.rs is not under src.  A box is anonymous
exactly when it has no backing document node. -/
def LBox.isAnon (b : LBox) : Bool := b.node.isNone

/-- Modelled from the spec: layout_box.rs is not under src.  A box has inline
children when every direct child is inline level, which matches the two unit
tests shipped with tree_builder.rs. -/
def childrenAreInline (h : List LBox) (i : Nat) : Bool :=
  (getBox h i).children.all (fun c => (getBox h c).isInline)

/-- Modelled from the spec: can_have_children excludes nothing in the current
kind set of boxes. -/
def canHaveChildren (_h : List LBox) (_i : Nat) : Bool := true

def appendChild (h : List LBox) (p c : Nat) : List LBox :=
  h.set p { getBox h p with children := (getBox h p).children ++ [c] }

/-- The condition under which get_parent_for_inline synthesizes a new trailing
anonymous block: there is no last child, or the last child is not an anonymous
block holding inline children; mirrors the require_anonymous_box computation
of tree_builder.rs lines 121 to 124. -/
def requireAnonFor (h : List LBox) (p : Nat) : Bool :=
  match (getBox h p).children.getLast? with
  | some l => !((getBox h l).isAnon && childrenAreInline h l)
  | none => true

/-- The number of anonymous boxes in a heap. -/
def anonCount (h : List LBox) : Nat := (h.filter (fun b => b.isAnon)).length

/-- The builder state: the box heap and the parent stack.  The stack stores the
innermost parent first, so the rfind of the Rust code is a plain find here. -/
structure BState where
  heap : List LBox
  stack : List Nat
deriving DecidableEq, Repr

/-- TreeBuilder get_parent_for_block, tree_builder.rs lines 83 to 98.  Returns
none when the expect would abort (no qualifying ancestor on the stack). -/
def getParentForBlock (s : BState) : Option (BState × Nat) :=
  match s.stack.find? (fun i => !(getBox s.heap i).isInline && canHaveChildren s.heap i) with
  | none => none
  | some p =>
    if !(getBox s.heap p).children.isEmpty && childrenAreInline s.heap p then
      let anonId := s.heap.length
      let anon : LBox := { node := none, isInline := false, children := (getBox s.heap p).children }
      let heap1 := s.heap ++ [anon]
      let heap2 := heap1.set p { getBox heap1 p with children := [anonId] }
      some ({ s with heap := heap2 }, p)
    else
      some (s, p)

/-- TreeBuilder get_parent_for_inline, tree_builder.rs lines 110 to 132.
Returns none when one of the two unwraps of the Rust code would abort. -/
def getParentForInline (s : BState) : Option (BState × Nat) :=
  match s.stack with
  | [] => none
  | p :: _ =>
    if childrenAreInline s.heap p then
      some (s, p)
    else
      let requireAnon :=
        match (getBox s.heap p).children.getLast? with
        | some l => !((getBox s.heap l).isAnon && childrenAreInline s.heap l)
        | none => true
      let s1 :=
        if requireAnon then
          let anon : LBox := { node := none, isInline := false, children := [] }
          { s with heap := appendChild (s.heap ++ [anon]) p s.heap.length }
        else s
      match (getBox s1.heap p).children.getLast? with
      | none => none
      | some t => some (s1, t)

/-!  TreeBuilder build_layout_tree, tree_builder.rs lines 48 to 69.  A result
of none models an aborted build (a panic of the Rust code). -/

mutual
def buildNode (s : BState) (n : DNode) : Option BState :=
  match n with
  | .mk nid disp kids =>
    if disp.isNoneDisplay then some s
    else
      let boxId := s.heap.length
      let s1 : BState :=
        { s with heap := s.heap ++ [{ node := some nid, isInline := disp.isInlineLevel, children := [] }] }
      match (if disp.isInlineLevel then getParentForInline s1 else getParentForBlock s1) with
      | none => none
      | some (s2, p) =>
        let s3 : BState := { s2 with heap := appendChild s2.heap p boxId }
        let s4 : BState := { s3 with stack := boxId :: s3.stack }
        match buildForest s4 kids with
        | none => none
        | some s5 => some { s5 with stack := s5.stack.tail }

def buildForest (s : BState) (f : DForest) : Option BState :=
  match f with
  | .nil => some s
  | .cons hd tl =>
    match buildNode s hd with
    | none => none
    | some s1 => buildForest s1 tl
end

/-- Result of TreeBuilder build: an aborted build, no layout tree, or a heap
together with the index of the root box. -/
inductive BuildResult where
  | fatal
  | noTree
  | tree (heap : List LBox) (rootId : Nat)
deriving DecidableEq, Repr

/-- The input of TreeBuilder build: a document node (whose first child is the
effective root) or a plain element node. -/
inductive InputRoot where
  | document (children : DForest)
  | element (n : DNode)

def DForest.headOpt : DForest → Option DNode
  | .nil => none
  | .cons hd _ => some hd

/-- TreeBuilder build, tree_builder.rs lines 21 to 46. -/
def TreeBuilder.build (root : InputRoot) : BuildResult :=
  let rootNode : Option DNode :=
    match root with
    | .document cs => cs.headOpt
    | .element n => some n
  match rootNode with
  | none => .noTree
  | some rn =>
    if rn.disp.isNoneDisplay then .noTree
    else
      let s : BState :=
        { heap := [{ node := some rn.nid, isInline := rn.disp.isInlineLevel, children := [] }]
          stack := [0] }
      match buildForest s rn.kids with
      | none => .fatal
      | some s1 => .tree s1.heap 0

/-!  Shorthand display values matching the values produced by Display parse. -/

def dBlock : Display := .Full .Block .Flow
def dInline : Display := .Full .Inline .Flow
def dNone : Display := .Box .None

/-!  Readout of the direct children of a box, used to state the anonymous run
grouping property. -/

/-- Abstract shape of one direct child of a block container: either a box
generated for a document node, or an anonymous block wrapping the boxes of the
listed document nodes. -/
inductive GChild where
  | blockChild (nid : Nat)
  | anonRun (nids : List Nat)
deriving DecidableEq, Repr

/-- The document children of a container that generate boxes, as pairs of node
identifier and inline flag; display none children generate nothing. -/
def cssList : DForest → List (Nat × Bool)
  | .nil => []
  | .cons hd tl =>
    if hd.disp.isNoneDisplay then cssList tl
    else (hd.nid, hd.disp.isInlineLevel) :: cssList tl

/-- The grouping claimed by the spec: every maximal run of consecutive inline
level children becomes one anonymous block wrapping exactly that run, in
order, while block level children stay direct children. -/
def groupRuns : List (Nat × Bool) → List GChild
  | [] => []
  | (nid, true) :: rest =>
    match groupRuns rest with
    | .anonRun nids :: out => .anonRun (nid :: nids) :: out
    | out => .anonRun [nid] :: out
  | (nid, false) :: rest => .blockChild nid :: groupRuns rest

/-- Reads the shape of one direct child box back out of the heap. -/
def readChild (h : List LBox) (i : Nat) : GChild :=
  match (getBox h i).node with
  | some nid => .blockChild nid
  | none => .anonRun ((getBox h i).children.map (fun j => ((getBox h j).node).getD 0))

/-- Reads the shapes of the direct children of a box out of the heap. -/
def readChildren (h : List LBox) (i : Nat) : List GChild :=
  (getBox h i).children.map (readChild h)

mutual
/-- A document node whose every box generating descendant, itself included, is
inline level: its subtree contains no block level box. -/
def inlinePure : DNode → Bool
  | .mk _ disp kids => disp.isInlineLevel && inlinePureForest kids

/-- Every box generating child of the forest has an inline pure subtree. -/
def inlinePureForest : DForest → Bool
  | .nil => true
  | .cons hd tl =>
    (hd.disp.isNoneDisplay || inlinePure hd) && inlinePureForest tl

end

/-- Every inline level child of the forest has an inline pure subtree; block
level children are unconstrained. -/
def inlineKidsPure : DForest → Bool
  | .nil => true
  | .cons hd tl =>
    (!hd.disp.isInlineLevel || inlinePure hd) && inlineKidsPure tl

/-!  Identifier sets used to state the display none exclusion property. -/

mutual
/-- All node identifiers of a document subtree. -/
def allIds : DNode → List Nat
  | .mk nid _ kids => nid :: allIdsForest kids

/-- All node identifiers of a document forest. -/
def allIdsForest : DForest → List Nat
  | .nil => []
  | .cons hd tl => allIds hd ++ allIdsForest tl

end

mutual
/-- The node identifiers the tree builder may visit: a display none node hides
its whole subtree. -/
def visibleIds : DNode → List Nat
  | .mk nid disp kids =>
    if disp.isNoneDisplay then [] else nid :: visibleIdsForest kids

/-- The visitable identifiers of a document forest. -/
def visibleIdsForest : DForest → List Nat
  | .nil => []
  | .cons hd tl => visibleIds hd ++ visibleIdsForest tl

end

mutual
/-- True when the identifier m sits inside the subtree of some display none
node of t. -/
def underNone (t : DNode) (m : Nat) : Bool :=
  match t with
  | .mk _ disp kids =>
    if disp.isNoneDisplay then m ∈ allIds t else underNoneForest kids m

/-- True when the identifier m sits inside a display none subtree of the
forest. -/
def underNoneForest (f : DForest) (m : Nat) : Bool :=
  match f with
  | .nil => false
  | .cons hd tl => underNone hd m || underNoneForest tl m

end

/-- The node identifiers referenced by the boxes of a heap. -/
def heapNodeIds (h : List LBox) : List Nat := h.filterMap (fun b => b.node)

/-!  Paint stage.  Embedding of src/components/painting/src/request_builder.rs.
The geometry of the Rust code uses f32; the embedding uses exact rationals,
since every claim here is about structure and additive composition of offsets,
not about rounding. -/

structure Point where
  x : Rat
  y : Rat
deriving DecidableEq, Repr

structure Size where
  width : Rat
  height : Rat
deriving DecidableEq, Repr

structure Rect where
  x : Rat
  y : Rat
  width : Rat
  height : Rat
deriving DecidableEq, Repr

/-- Rect translate from the shared primitives: shifts the origin. -/
def Rect.translate (r : Rect) (dx dy : Rat) : Rect :=
  { r with x := r.x + dx, y := r.y + dy }

/-- Rect built from a location and a size, as used by process_lines. -/
def Rect.fromPointSize (p : Point) (s : Size) : Rect :=
  ⟨p.x, p.y, s.width, s.height⟩

structure Radii where
  h : Rat
  v : Rat
deriving DecidableEq, Repr

structure Corners where
  tl : Radii
  tr : Radii
  bl : Radii
  br : Radii
deriving DecidableEq, Repr

def Corners.new (tl tr bl br : Radii) : Corners := ⟨tl, tr, bl, br⟩

structure RRect where
  rect : Rect
  corners : Corners
deriving DecidableEq, Repr

inductive RectOrRRect where
  | rect (r : Rect)
  | rrect (r : RRect)
deriving DecidableEq, Repr

/-- The fill rectangle carried by either geometry tag. -/
def RectOrRRect.fillRect : RectOrRRect → Rect
  | .rect r => r
  | .rrect rr => rr.rect

/-- True for the plain rectangle geometry tag. -/
def RectOrRRect.isPlainRect : RectOrRRect → Bool
  | .rect _ => true
  | .rrect _ => false

structure Color where
  r : Nat
  g : Nat
  b : Nat
  a : Nat
deriving DecidableEq, Repr

/-!  Typed style values, the closed set of variants the paint stage consumes. -/

inductive CSSColor where
  | transparent
  | rgba (r g b a : Nat)
deriving DecidableEq, Repr

inductive BorderStyle where
  | None
  | Hidden
  | Dotted
  | Dashed
  | Solid
  | Double
deriving DecidableEq, Repr

inductive LengthPercent where
  | px (v : Rat)
  | percent (v : Rat)
  | em (v : Rat)
deriving DecidableEq, Repr

inductive Property where
  | BackgroundColor
  | Color
  | FontSize
  | BorderTopStyle
  | BorderRightStyle
  | BorderBottomStyle
  | BorderLeftStyle
  | BorderTopColor
  | BorderRightColor
  | BorderBottomColor
  | BorderLeftColor
  | BorderTopLeftRadius
  | BorderTopRightRadius
  | BorderBottomLeftRadius
  | BorderBottomRightRadius
deriving DecidableEq, Repr

inductive Value where
  | Color (c : CSSColor)
  | BorderStyle (b : BorderStyle)
  | BorderRadius (horizontal vertical : LengthPercent)
  | Length (px : Rat)
  | Other
deriving DecidableEq, Repr

/-- Modelled from the spec: the style value component is not under src.  The
absolute pixel amount of a value; non length values give zero. -/
def Value.toAbsolutePx : Value → Rat
  | .Length v => v
  | _ => 0

/-- Modelled from the spec: the painting utils module is not under src.
Resolves a CSS color value to a concrete color; the transparent sentinel and
non color values resolve to the fully transparent color. -/
def color_from_value : Value → Color
  | .Color (.rgba r g b a) => ⟨r, g, b, a⟩
  | _ => ⟨0, 0, 0, 0⟩

def LengthPercent.isZeroLen : LengthPercent → Bool
  | .px v => v == 0
  | .percent v => v == 0
  | .em v => v == 0

/-- Modelled from the spec: the painting utils module is not under src.  A
border radius value is zero when both of its components are zero. -/
def is_zero : Value → Bool
  | .BorderRadius hr vr => hr.isZeroLen && vr.isZeroLen
  | _ => true

/-- Resolves one length percent component: pixels are absolute, percentages
resolve against the given base, em values resolve against the font size. -/
def LengthPercent.resolveAgainst (l : LengthPercent) (base fontSize : Rat) : Rat :=
  match l with
  | .px v => v
  | .percent v => base * v / 100
  | .em v => v * fontSize

/-- Modelled from the spec: the painting utils module is not under src.  The
horizontal radius is resolved and clamped against the given width, the
vertical radius is resolved independently of the width. -/
def to_radii (value : Value) (width fontSize : Rat) : Radii :=
  match value with
  | .BorderRadius hr vr =>
    ⟨min (hr.resolveAgainst width fontSize) width, vr.resolveAgainst 0 fontSize⟩
  | _ => ⟨0, 0⟩

/-!  The positioned layout tree consumed by the paint request builder.  The
builder reads, for each box, its backing styled node, the geometry the
external layout pass stored, its line fragments and its children. -/

/-- A styled document node as the paint stage sees it: resolved style lookup
plus the root and body element tests. -/
structure SNode where
  sid : Nat
  isRootElement : Bool
  isBodyElement : Bool
  style : Property → Value

/-- The per box data build_paint_box reads: backing node (absent for anonymous
boxes) and the absolute geometry computed by the external layout pass. -/
structure BoxRef where
  node : Option SNode
  paddingBoxAbsolute : Rect
  borderBoxAbsolute : Rect
  absoluteLocation : Point

inductive LineFragmentData where
  | box (b : BoxRef)
  | text (b : BoxRef) (content : String)

structure LineFragment where
  data : LineFragmentData
  offset : Point
  size : Size

structure Line where
  fragments : List LineFragment

mutual
inductive PBox where
  | mk (ref : BoxRef) (isInline : Bool) (lines : List Line) (children : PForest)
inductive PForest where
  | pnil
  | pcons (hd : PBox) (tl : PForest)
end

def PBox.ref : PBox → BoxRef
  | .mk r _ _ _ => r

def PBox.isInlineLevel : PBox → Bool
  | .mk _ i _ _ => i

def PBox.lines : PBox → List Line
  | .mk _ _ l _ => l

def PBox.children : PBox → PForest
  | .mk _ _ _ c => c

/-- Modelled from the spec: layout_box.rs is not under src.  In the current
kind set a box is block level exactly when it is not inline level. -/
def PBox.isBlock (b : PBox) : Bool := !b.isInlineLevel

/-- Modelled from the spec: layout_box.rs is not under src.  Children are
classified as an inline run when every direct child is inline level. -/
def PForest.allInline : PForest → Bool
  | .pnil => true
  | .pcons hd tl => hd.isInlineLevel && tl.allInline

/-!  The output data of the paint request builder. -/

structure PaintBoxBorder where
  style : BorderStyle
  color : Color
deriving DecidableEq, Repr

structure PaintBoxBorders where
  top : Option PaintBoxBorder
  right : Option PaintBoxBorder
  bottom : Option PaintBoxBorder
  left : Option PaintBoxBorder
deriving DecidableEq, Repr

structure PaintBox where
  rect : RectOrRRect
  background_color : Color
  borders : PaintBoxBorders
  border_rect : Rect
deriving DecidableEq, Repr

structure PaintText where
  content : String
  font_size : Rat
  color : Color
  rect : Rect
deriving DecidableEq, Repr

structure PaintRequest where
  boxes : List PaintBox
  texts : List PaintText
deriving DecidableEq, Repr

/-- The mutable fields of RequestBuilder during a build. -/
structure RBState where
  boxes : List PaintBox
  texts : List PaintText
  root_element_use_body_background : Bool

/-- One border edge of compute_borders, request_builder.rs lines 181 to 212:
a border style of None omits the edge, any other border style value pairs the
style with the resolved edge color. -/
def computeBorder (nd : SNode) (styleProp colorProp : Property) : Option PaintBoxBorder :=
  match nd.style styleProp with
  | .BorderStyle .None => none
  | .BorderStyle st => some ⟨st, color_from_value (nd.style colorProp)⟩
  | _ => none

/-- RequestBuilder compute_borders, request_builder.rs lines 181 to 212. -/
def compute_borders (ref : BoxRef) : PaintBoxBorders :=
  match ref.node with
  | none => ⟨none, none, none, none⟩
  | some nd =>
    ⟨computeBorder nd .BorderTopStyle .BorderTopColor,
     computeBorder nd .BorderRightStyle .BorderRightColor,
     computeBorder nd .BorderBottomStyle .BorderBottomColor,
     computeBorder nd .BorderLeftStyle .BorderLeftColor⟩

/-- RequestBuilder compute_border_radius_corner, request_builder.rs lines 214
to 243. -/
def compute_border_radius_corner (ref : BoxRef) : Option Corners :=
  match ref.node with
  | none => none
  | some nd =>
    let btl := nd.style .BorderTopLeftRadius
    let bbl := nd.style .BorderBottomLeftRadius
    let btr := nd.style .BorderTopRightRadius
    let bbr := nd.style .BorderBottomRightRadius
    if is_zero btl && is_zero bbl && is_zero btr && is_zero bbr then none
    else
      let border_box := ref.borderBoxAbsolute
      let font_size := (nd.style .FontSize).toAbsolutePx
      some (Corners.new
        (to_radii btl border_box.width font_size)
        (to_radii btr border_box.width font_size)
        (to_radii bbl border_box.width font_size)
        (to_radii bbr border_box.width font_size))

/-- RequestBuilder build_paint_box, request_builder.rs lines 126 to 179.  The
state is returned because the root delegation flag is written here. -/
def build_paint_box (canvasSize : Size) (st : RBState) (ref : BoxRef)
    (overrideRect : Option Rect) : RBState × Option PaintBox :=
  match ref.node with
  | none => (st, none)
  | some nd =>
    let rect0 := overrideRect.getD ref.paddingBoxAbsolute
    let bg := color_from_value (nd.style .BackgroundColor)
    let st1 :=
      if nd.isRootElement then
        { st with root_element_use_body_background :=
            nd.style .BackgroundColor == .Color .transparent }
      else st
    if nd.isRootElement && st1.root_element_use_body_background then (st1, none)
    else
      let rect1 :=
        if nd.isBodyElement && st1.root_element_use_body_background then
          Rect.mk 0 0 canvasSize.width canvasSize.height
        else rect0
      let rectOr :=
        match compute_border_radius_corner ref with
        | some corners => RectOrRRect.rrect ⟨rect1, corners⟩
        | none => RectOrRRect.rect rect1
      (st1, some ⟨rectOr, bg, compute_borders ref, ref.borderBoxAbsolute⟩)

/-- One fragment of process_lines, request_builder.rs lines 93 to 120.  A
result of none models the node unwrap panic in the text branch.  As in the
Rust code, the paint box built for an element fragment is dropped on the
floor: only the state (the delegation flag) survives the call. -/
def processFragment (canvasSize : Size) (containingLoc : Point) (st : RBState)
    (frag : LineFragment) : Option RBState :=
  match frag.data with
  | .box fragBox =>
    if !fragBox.node.isNone then
      let rect := (Rect.fromPointSize containingLoc frag.size).translate frag.offset.x frag.offset.y
      let (st1, _) := build_paint_box canvasSize st fragBox (some rect)
      some st1
    else some st
  | .text fragBox content =>
    match fragBox.node with
    | none => none
    | some nd =>
      let rect := (Rect.fromPointSize containingLoc frag.size).translate frag.offset.x frag.offset.y
      let color := color_from_value (nd.style .Color)
      let font_size := (nd.style .FontSize).toAbsolutePx
      some { st with texts := st.texts ++ [⟨content, font_size, color, rect⟩] }

def processFragList (canvasSize : Size) (containingLoc : Point) (st : RBState) :
    List LineFragment → Option RBState
  | [] => some st
  | f :: rest =>
    match processFragment canvasSize containingLoc st f with
    | none => none
    | some st1 => processFragList canvasSize containingLoc st1 rest

def processLineList (canvasSize : Size) (containingLoc : Point) (st : RBState) :
    List Line → Option RBState
  | [] => some st
  | l :: rest =>
    match processFragList canvasSize containingLoc st l.fragments with
    | none => none
    | some st1 => processLineList canvasSize containingLoc st1 rest

/-- RequestBuilder process_lines, request_builder.rs lines 89 to 124. -/
def process_lines (canvasSize : Size) (st : RBState) (b : PBox) : Option RBState :=
  processLineList canvasSize b.ref.absoluteLocation st b.lines

mutual
/-- RequestBuilder process, request_builder.rs lines 77 to 87: push the paint
box of the node if any, walk the line fragments of a block with inline
children, then recurse into every child. -/
def process (canvasSize : Size) (st : RBState) (b : PBox) : Option RBState :=
  match b with
  | .mk ref isInl lines kids =>
    let bp := build_paint_box canvasSize st ref none
    let st2 :=
      match bp.2 with
      | some pb => { bp.1 with boxes := bp.1.boxes ++ [pb] }
      | none => bp.1
    match (if !isInl && kids.allInline then
            processLineList canvasSize ref.absoluteLocation st2 lines
           else some st2) with
    | none => none
    | some st3 => processForest canvasSize st3 kids

def processForest (canvasSize : Size) (st : RBState) (f : PForest) : Option RBState :=
  match f with
  | .pnil => some st
  | .pcons hd tl =>
    match process canvasSize st hd with
    | none => none
    | some st1 => processForest canvasSize st1 tl
end

/-- RequestBuilder build, request_builder.rs lines 68 to 75.  A result of none
models an aborted build (a panic inside the traversal). -/
def RequestBuilder.build (canvasSize : Size) (layoutBox : PBox) : Option PaintRequest :=
  match process canvasSize ⟨[], [], false⟩ layoutBox with
  | none => none
  | some st => some ⟨st.boxes, st.texts⟩

/-!  Derived notions used in the statements about the paint stage. -/

mutual
/-- The pre order sequence of the box data of a layout tree: the box itself
first, then its children left to right. -/
def preorderRefs : PBox → List BoxRef
  | .mk r _ _ kids => r :: preorderForestRefs kids

/-- The pre order sequence of the box data of a forest of layout trees. -/
def preorderForestRefs : PForest → List BoxRef
  | .pnil => []
  | .pcons hd tl => preorderRefs hd ++ preorderForestRefs tl

end

/-- True when processing this box pushes a paint box: the box is not anonymous
and is not a root element whose background resolves to the transparent
sentinel.  This decision does not depend on the builder state. -/
def emitsPaintBox (ref : BoxRef) : Bool :=
  match ref.node with
  | none => false
  | some nd => !(nd.isRootElement && (nd.style .BackgroundColor == .Color .transparent))

mutual
/-- True when every text fragment anywhere in the tree references a box with a
backing document node, the well formedness condition for the line walk. -/
def textFragsHaveNodes : PBox → Bool
  | .mk _ _ lines kids =>
    lines.all (fun l => l.fragments.all (fun f =>
      match f.data with
      | .text b _ => !b.node.isNone
      | _ => true)) && textFragsForest kids

/-- Forest version of textFragsHaveNodes. -/
def textFragsForest : PForest → Bool
  | .pnil => true
  | .pcons hd tl => textFragsHaveNodes hd && textFragsForest tl

end

/-- The geometry tag build_paint_box puts on a rectangle: rounded exactly when
some border radius corner survives. -/
def tagRect (ref : BoxRef) (r : Rect) : RectOrRRect :=
  match compute_border_radius_corner ref with
  | some corners => RectOrRRect.rrect ⟨r, corners⟩
  | none => RectOrRRect.rect r

/-!  Concrete fixtures used by the closed instance theorems below. -/

/-- A style assigning no interesting value to any property. -/
def styOther : Property → Value := fun _ => .Other

/-- A style whose background color is the transparent sentinel. -/
def styTransparentBg : Property → Value := fun p =>
  match p with
  | .BackgroundColor => .Color .transparent
  | _ => .Other

/-- A style with an opaque background color. -/
def styOpaqueBg : Property → Value := fun p =>
  match p with
  | .BackgroundColor => .Color (.rgba 1 2 3 255)
  | _ => .Other

/-- A style with one nonzero border radius corner. -/
def styRadius : Property → Value := fun p =>
  match p with
  | .BorderTopLeftRadius => .BorderRadius (.px 5) (.px 7)
  | _ => .Other

/-- Fixture: the root element box with transparent background. -/
def refRootT : BoxRef :=
  ⟨some ⟨1, true, false, styTransparentBg⟩, ⟨0, 0, 100, 100⟩, ⟨0, 0, 100, 100⟩, ⟨0, 0⟩⟩

/-- Fixture: the root element box with opaque background. -/
def refRootO : BoxRef :=
  ⟨some ⟨1, true, false, styOpaqueBg⟩, ⟨0, 0, 100, 100⟩, ⟨0, 0, 100, 100⟩, ⟨0, 0⟩⟩

/-- Fixture: a box with one nonzero corner radius. -/
def refRadius : BoxRef :=
  ⟨some ⟨3, false, false, styRadius⟩, ⟨0, 0, 40, 40⟩, ⟨0, 0, 40, 40⟩, ⟨0, 0⟩⟩

/-- Fixture: the body element box. -/
def refBody : BoxRef :=
  ⟨some ⟨2, false, true, styOther⟩, ⟨3, 4, 50, 60⟩, ⟨3, 4, 50, 60⟩, ⟨3, 4⟩⟩

/-- Fixture: a plain element box used as an inline child. -/
def refInlineChild : BoxRef :=
  ⟨some ⟨11, false, false, styOther⟩, ⟨0, 0, 30, 10⟩, ⟨0, 0, 30, 10⟩, ⟨0, 0⟩⟩

/-- Fixture: a plain block container at absolute location ten twenty. -/
def refContainer : BoxRef :=
  ⟨some ⟨10, false, false, styOther⟩, ⟨10, 20, 100, 50⟩, ⟨10, 20, 100, 50⟩, ⟨10, 20⟩⟩

/-- Fixture: a block whose single child is inline and whose single line holds
one element fragment for that child at offset five seven. -/
def c2tree : PBox :=
  .mk refContainer false
    [⟨[⟨.box refInlineChild, ⟨5, 7⟩, ⟨30, 10⟩⟩]⟩]
    (.pcons (.mk refInlineChild true [] .pnil) .pnil)

/-- Fixture: transparent root with a body child. -/
def treeRootTBody : PBox :=
  .mk refRootT false [] (.pcons (.mk refBody false [] .pnil) .pnil)

/-- True when the input has no visitable root: an empty document, or an
effective root whose display is the box suppressing value. -/
def noVisitableRoot : InputRoot → Bool
  | .document .nil => true
  | .document (.cons n _) => n.disp.isNoneDisplay
  | .element n => n.disp.isNoneDisplay

/-- The effective root node of a build input: a document delegates to its
first child. -/
def effectiveRoot : InputRoot → Option DNode
  | .document cs => cs.headOpt
  | .element n => some n

/-- Fixture: a box reference with no backing node, as an anonymous box. -/
def refAnon : BoxRef := ⟨none, ⟨0, 0, 0, 0⟩, ⟨0, 0, 0, 0⟩, ⟨0, 0⟩⟩

/-- Fixture: a block with one text fragment referencing a non anonymous box. -/
def goodTextTree : PBox :=
  .mk refContainer false
    [⟨[⟨.text refInlineChild "hello", ⟨5, 7⟩, ⟨30, 10⟩⟩]⟩]
    (.pcons (.mk refInlineChild true [] .pnil) .pnil)

/-- Fixture: a block with one text fragment referencing an anonymous box, the
input on which the text branch unwrap aborts. -/
def badTextTree : PBox :=
  .mk refContainer false
    [⟨[⟨.text refAnon "x", ⟨0, 0⟩, ⟨1, 1⟩⟩]⟩]
    (.pcons (.mk refInlineChild true [] .pnil) .pnil)

/-- Fixture: a block root with an inline child and a block child. -/
def mixFixTree : DNode :=
  .mk 0 dBlock (.cons (.mk 1 dInline .nil) (.cons (.mk 2 dBlock .nil) .nil))

/-- Fixture: an inline root with a block child, on which the block parent
search aborts. -/
def fatalTree : DNode :=
  .mk 0 dInline (.cons (.mk 1 dBlock .nil) .nil)

/-- Fixture: an inline root with an inline child holding a block grandchild,
on which the block parent search also aborts. -/
def fatalDeepTree : DNode :=
  .mk 0 dInline (.cons (.mk 1 dInline (.cons (.mk 2 dBlock .nil) .nil)) .nil)

/-- Fixture: a block root whose first child suppresses its subtree through
display none. -/
def c6tree : DNode :=
  .mk 0 dBlock
    (.cons (.mk 1 dNone (.cons (.mk 4 dInline .nil) .nil))
      (.cons (.mk 2 dInline .nil) .nil))

/-- Fixture: opaque root with a body child. -/
def treeRootOBody : PBox :=
  .mk refRootO false [] (.pcons (.mk refBody false [] .pnil) .pnil)

/-!  Additional notions used to state the anonymous run grouping claim about
the tree builder. -/

/-- Appends one more inline node identifier to a run readout: it merges into a
trailing anonymous run and otherwise opens a fresh singleton run. -/
def snocInline : List GChild → Nat → List GChild
  | [], n => [.anonRun [n]]
  | [.anonRun r], n => [.anonRun (r ++ [n])]
  | g :: rest, n => g :: snocInline rest n

/-- True when a run readout ends in an anonymous run. -/
def endsAnon (gs : List GChild) : Bool :=
  match gs.getLast? with
  | some (.anonRun _) => true
  | _ => false

/-- Every child reference of every box of the heap stays inside the heap. -/
def heapClosed (h : List LBox) : Prop :=
  ∀ k, k < h.length → ∀ c, c ∈ (getBox h k).children → c < h.length

/-- The running invariant of the container readout while the tree builder
walks the children of a block container sitting alone on the parent stack.
Either every child processed so far was inline level and the container holds
their boxes directly, in document order, or a block level child has already
appeared and the direct children decode exactly to the claimed run grouping of
the processed prefix, with the trailing anonymous status of the last direct
child matching the trailing run of the readout. -/
def containerInv (h : List LBox) (done : List (Nat × Bool)) : Prop :=
  1 ≤ h.length ∧
  heapClosed h ∧
  (getBox h 0).isInline = false ∧
  (∀ c, c ∈ (getBox h 0).children → 0 < c) ∧
  (getBox h 0).children.Nodup ∧
  (((∀ e, e ∈ done → e.2 = true) ∧
      (getBox h 0).children.map (fun c => (getBox h c).node) =
        done.map (fun e => some e.1) ∧
      (∀ c, c ∈ (getBox h 0).children → (getBox h c).isInline = true)) ∨
    ((∃ e, e ∈ done ∧ e.2 = false) ∧
      readChildren h 0 = groupRuns done ∧
      (∀ c, c ∈ (getBox h 0).children → (getBox h c).isInline = false) ∧
      (match (getBox h 0).children.getLast? with
        | some l => ((getBox h l).isAnon && childrenAreInline h l) = endsAnon (groupRuns done)
        | none => False)))

/-- The box generating entries contributed by one document child: none for a
display none child, otherwise its identifier and inline flag. -/
def cssEntry (n : DNode) : List (Nat × Bool) :=
  if n.disp.isNoneDisplay then [] else [(n.nid, n.disp.isInlineLevel)]

/-- Fixture: mixed container children whose third child is inline level but
holds a block level grandchild, the shape on which the run grouping claim
fails. -/
def c1kids : DForest :=
  .cons (.mk 1 dInline .nil) (.cons (.mk 2 dBlock .nil)
    (.cons (.mk 3 dInline (.cons (.mk 4 dBlock .nil) .nil))
      (.cons (.mk 5 dInline .nil) .nil)))

/-- Fixture: a block container over the mixed children of the grouping
counterexample. -/
def c1tree : DNode := .mk 0 dBlock c1kids

/-- The heap the tree builder produces on the grouping counterexample. -/
def c1heap : List LBox :=
  [{ node := some 0, isInline := false, children := [3, 2, 5, 6, 8] },
   { node := some 1, isInline := true, children := [] },
   { node := some 2, isInline := false, children := [] },
   { node := none, isInline := false, children := [1] },
   { node := some 3, isInline := true, children := [] },
   { node := none, isInline := false, children := [4] },
   { node := some 4, isInline := false, children := [] },
   { node := some 5, isInline := true, children := [] },
   { node := none, isInline := false, children := [7] }]

/-- Fixture: mixed container children with a leading inline run, a block
child and a trailing inline child, all of them leaves. -/
def c1okKids : DForest :=
  .cons (.mk 1 dInline .nil) (.cons (.mk 2 dInline .nil)
    (.cons (.mk 3 dBlock .nil) (.cons (.mk 4 dInline .nil) .nil)))

/-!  Lemmas about build_paint_box. -/

theorem bpb_boxes_eq (c : Size) (st : RBState) (ref : BoxRef) (o : Option Rect) :
    (build_paint_box c st ref o).1.boxes = st.boxes := by
  unfold build_paint_box
  cases h : ref.node with
  | none => rfl
  | some nd =>
    by_cases hr : nd.isRootElement <;> simp [hr] <;> split <;> simp

theorem bpb_texts_eq (c : Size) (st : RBState) (ref : BoxRef) (o : Option Rect) :
    (build_paint_box c st ref o).1.texts = st.texts := by
  unfold build_paint_box
  cases h : ref.node with
  | none => rfl
  | some nd =>
    by_cases hr : nd.isRootElement <;> simp [hr] <;> split <;> simp

theorem bpb_isSome_eq_emits (c : Size) (st : RBState) (ref : BoxRef) (o : Option Rect) :
    ((build_paint_box c st ref o).2).isSome = emitsPaintBox ref := by
  unfold build_paint_box emitsPaintBox
  cases h : ref.node with
  | none => rfl
  | some nd =>
    by_cases hr : nd.isRootElement
    · by_cases ht : (nd.style .BackgroundColor == .Color .transparent) <;>
        simp [hr, ht]
    · simp [hr]

theorem bpb_border_rect (c : Size) (st : RBState) (ref : BoxRef) (o : Option Rect)
    (pb : PaintBox) (hp : (build_paint_box c st ref o).2 = some pb) :
    pb.border_rect = ref.borderBoxAbsolute := by
  unfold build_paint_box at hp
  cases h : ref.node with
  | none => rw [h] at hp; exact Option.noConfusion hp
  | some nd =>
    rw [h] at hp
    dsimp only at hp
    by_cases hr : nd.isRootElement <;>
      by_cases ht : nd.style Property.BackgroundColor == Value.Color CSSColor.transparent <;>
        simp only [hr, ht, Bool.true_and, Bool.false_and, if_true, if_false,
          Bool.and_self, ite_true, ite_false, reduceIte] at hp <;>
      first
      | exact Option.noConfusion hp
      | (cases hp; rfl)

/-!  The line walk never touches the boxes sequence: element fragment paint
boxes are dropped and text fragments only extend the texts sequence. -/

theorem processFragment_boxes (c : Size) (loc : Point) (st : RBState) (f : LineFragment)
    (st' : RBState) (h : processFragment c loc st f = some st') : st'.boxes = st.boxes := by
  unfold processFragment at h
  cases hd : f.data with
  | box fb =>
    rw [hd] at h
    by_cases hn : fb.node.isNone
    · simp [hn] at h
      rw [← h]
    · simp [hn] at h
      rw [← h, bpb_boxes_eq]
  | text fb content =>
    rw [hd] at h
    dsimp only at h
    cases hn : fb.node with
    | none => rw [hn] at h; exact Option.noConfusion h
    | some nd =>
      rw [hn] at h
      dsimp only at h
      cases h
      rfl

theorem processFragList_boxes (c : Size) (loc : Point) :
    ∀ (fs : List LineFragment) (st st' : RBState),
      processFragList c loc st fs = some st' → st'.boxes = st.boxes := by
  intro fs
  induction fs with
  | nil => intro st st' h; cases h; rfl
  | cons f rest ih =>
    intro st st' h
    unfold processFragList at h
    cases hf : processFragment c loc st f with
    | none => rw [hf] at h; exact Option.noConfusion h
    | some st1 =>
      rw [hf] at h
      rw [ih st1 st' h, processFragment_boxes c loc st f st1 hf]

theorem processLineList_boxes (c : Size) (loc : Point) :
    ∀ (ls : List Line) (st st' : RBState),
      processLineList c loc st ls = some st' → st'.boxes = st.boxes := by
  intro ls
  induction ls with
  | nil => intro st st' h; cases h; rfl
  | cons l rest ih =>
    intro st st' h
    unfold processLineList at h
    cases hf : processFragList c loc st l.fragments with
    | none => rw [hf] at h; exact Option.noConfusion h
    | some st1 =>
      rw [hf] at h
      rw [ih st1 st' h, processFragList_boxes c loc l.fragments st st1 hf]

/-!  The boxes sequence is the pre order sequence of the tree, restricted to
the boxes whose processing pushes a paint box, with each paint box carrying
the absolute border box of its source. -/

mutual
theorem process_boxes_key (c : Size) (st : RBState) (b : PBox) (st' : RBState)
    (h : process c st b = some st') :
    st'.boxes.map (fun pb => pb.border_rect) =
      st.boxes.map (fun pb => pb.border_rect) ++
        ((preorderRefs b).filter emitsPaintBox).map (fun r => r.borderBoxAbsolute) := by
  cases b with
  | mk ref isInl lines kids =>
    unfold process at h
    dsimp only at h
    cases hb : (build_paint_box c st ref none).2 with
    | none =>
      rw [hb] at h
      have hem : emitsPaintBox ref = false := by
        rw [← bpb_isSome_eq_emits c st ref none, hb]; rfl
      have hst1 : (build_paint_box c st ref none).1.boxes = st.boxes := bpb_boxes_eq c st ref none
      cases hlines : (if (!isInl && kids.allInline) = true then
          processLineList c ref.absoluteLocation (build_paint_box c st ref none).1 lines
        else some (build_paint_box c st ref none).1) with
      | none => rw [hlines] at h; exact Option.noConfusion h
      | some st3 =>
        rw [hlines] at h
        have hst3 : st3.boxes = st.boxes := by
          by_cases hc : (!isInl && kids.allInline) = true
          · rw [if_pos hc] at hlines
            rw [processLineList_boxes c ref.absoluteLocation lines _ st3 hlines, hst1]
          · rw [if_neg hc] at hlines
            cases hlines
            exact hst1
        have := processForest_boxes_key c st3 kids st' h
        rw [this, hst3, preorderRefs]
        simp [List.filter_cons, hem]
    | some pb =>
      rw [hb] at h
      have hem : emitsPaintBox ref = true := by
        rw [← bpb_isSome_eq_emits c st ref none, hb]; rfl
      have hbr : pb.border_rect = ref.borderBoxAbsolute := bpb_border_rect c st ref none pb hb
      have hst1 : (build_paint_box c st ref none).1.boxes = st.boxes := bpb_boxes_eq c st ref none
      cases hlines : (if (!isInl && kids.allInline) = true then
          processLineList c ref.absoluteLocation
            { (build_paint_box c st ref none).1 with
                boxes := (build_paint_box c st ref none).1.boxes ++ [pb] } lines
        else some { (build_paint_box c st ref none).1 with
                boxes := (build_paint_box c st ref none).1.boxes ++ [pb] }) with
      | none => rw [hlines] at h; exact Option.noConfusion h
      | some st3 =>
        rw [hlines] at h
        have hst3 : st3.boxes = st.boxes ++ [pb] := by
          by_cases hc : (!isInl && kids.allInline) = true
          · rw [if_pos hc] at hlines
            rw [processLineList_boxes c ref.absoluteLocation lines _ st3 hlines]
            dsimp only
            rw [hst1]
          · rw [if_neg hc] at hlines
            cases hlines
            dsimp only
            rw [hst1]
        have := processForest_boxes_key c st3 kids st' h
        rw [this, hst3, preorderRefs]
        simp [List.filter_cons, hem, hbr]

theorem processForest_boxes_key (c : Size) (st : RBState) (f : PForest) (st' : RBState)
    (h : processForest c st f = some st') :
    st'.boxes.map (fun pb => pb.border_rect) =
      st.boxes.map (fun pb => pb.border_rect) ++
        ((preorderForestRefs f).filter emitsPaintBox).map (fun r => r.borderBoxAbsolute) := by
  cases f with
  | pnil =>
    unfold processForest at h
    cases h
    simp [preorderForestRefs]
  | pcons hd tl =>
    unfold processForest at h
    cases hh : process c st hd with
    | none => rw [hh] at h; exact Option.noConfusion h
    | some st1 =>
      rw [hh] at h
      have h1 := process_boxes_key c st hd st1 hh
      have h2 := processForest_boxes_key c st1 tl st' h
      rw [h2, h1, preorderForestRefs]
      simp [List.filter_append]
end

/-!  Shape of the build_paint_box result in the three relevant situations:
a non root box, a root with transparent background, a root with any other
background. -/

theorem tagRect_fillRect (ref : BoxRef) (r : Rect) : (tagRect ref r).fillRect = r := by
  unfold tagRect
  cases compute_border_radius_corner ref <;> rfl

theorem bpb_nonroot_eq (c : Size) (st : RBState) (b : BoxRef) (o : Option Rect) (nb : SNode)
    (hb : b.node = some nb) (hroot : nb.isRootElement = false) :
    build_paint_box c st b o =
      (st, some
        ⟨tagRect b
            (if nb.isBodyElement && st.root_element_use_body_background then
              Rect.mk 0 0 c.width c.height
            else o.getD b.paddingBoxAbsolute),
          color_from_value (nb.style .BackgroundColor),
          compute_borders b,
          b.borderBoxAbsolute⟩) := by
  unfold build_paint_box
  rw [hb]
  dsimp only
  simp only [hroot, Bool.false_and, Bool.false_eq_true, reduceIte]
  rfl

theorem bpb_root_transparent_eq (c : Size) (st : RBState) (r : BoxRef) (o : Option Rect)
    (nr : SNode) (hr : r.node = some nr) (hroot : nr.isRootElement = true)
    (ht : nr.style .BackgroundColor = .Color .transparent) :
    build_paint_box c st r o =
      ({ st with root_element_use_body_background := true }, none) := by
  unfold build_paint_box
  rw [hr]
  dsimp only
  rw [hroot, ht]
  simp

theorem bpb_root_opaque_eq (c : Size) (st : RBState) (r : BoxRef) (o : Option Rect)
    (nr : SNode) (hr : r.node = some nr) (hroot : nr.isRootElement = true)
    (ht : nr.style .BackgroundColor ≠ .Color .transparent) :
    build_paint_box c st r o =
      ({ st with root_element_use_body_background := false }, some
        ⟨tagRect r (o.getD r.paddingBoxAbsolute),
          color_from_value (nr.style .BackgroundColor),
          compute_borders r,
          r.borderBoxAbsolute⟩) := by
  unfold build_paint_box
  rw [hr]
  dsimp only
  have hbe : (nr.style Property.BackgroundColor == Value.Color CSSColor.transparent) = false := by
    simp [ht]
  simp only [hroot, hbe, Bool.true_and, Bool.and_false, Bool.false_eq_true, reduceIte]
  rfl

theorem bpb_rect_tag (c : Size) (st : RBState) (ref : BoxRef) (o : Option Rect)
    (pb : PaintBox) (hp : (build_paint_box c st ref o).2 = some pb) :
    ∃ r, pb.rect = tagRect ref r := by
  unfold build_paint_box at hp
  cases h : ref.node with
  | none => rw [h] at hp; exact Option.noConfusion hp
  | some nd =>
    rw [h] at hp
    dsimp only at hp
    by_cases hr : nd.isRootElement <;>
      by_cases ht : nd.style Property.BackgroundColor == Value.Color CSSColor.transparent <;>
        simp only [hr, ht, Bool.true_and, Bool.false_and, if_true, if_false,
          Bool.and_self, ite_true, ite_false, reduceIte] at hp <;>
      first
      | exact Option.noConfusion hp
      | (cases hp; exact ⟨_, rfl⟩)

theorem cbrc_eq (ref : BoxRef) (nd : SNode) (hb : ref.node = some nd) :
    compute_border_radius_corner ref =
      (if is_zero (nd.style .BorderTopLeftRadius) && is_zero (nd.style .BorderBottomLeftRadius) &&
          is_zero (nd.style .BorderTopRightRadius) && is_zero (nd.style .BorderBottomRightRadius) then
        none
      else
        some (Corners.new
          (to_radii (nd.style .BorderTopLeftRadius) ref.borderBoxAbsolute.width
            ((nd.style .FontSize).toAbsolutePx))
          (to_radii (nd.style .BorderTopRightRadius) ref.borderBoxAbsolute.width
            ((nd.style .FontSize).toAbsolutePx))
          (to_radii (nd.style .BorderBottomLeftRadius) ref.borderBoxAbsolute.width
            ((nd.style .FontSize).toAbsolutePx))
          (to_radii (nd.style .BorderBottomRightRadius) ref.borderBoxAbsolute.width
            ((nd.style .FontSize).toAbsolutePx)))) := by
  unfold compute_border_radius_corner
  rw [hb]

/-- C5.  For every non anonymous layout box, the emitted paint box carries the
plain rectangle tag exactly when all four corner radius values are zero;
otherwise it carries the rounded rectangle tag whose corners are the four
to_radii values against the border box width, where the horizontal radius is
clamped by the width and the vertical radius does not depend on the width. -/
theorem C5_rounded_threshold (c : Size) (st : RBState) (ref : BoxRef) (o : Option Rect)
    (nd : SNode) (hb : ref.node = some nd) :
    (∀ pb, (build_paint_box c st ref o).2 = some pb →
      pb.rect.isPlainRect =
        (is_zero (nd.style .BorderTopLeftRadius) && is_zero (nd.style .BorderBottomLeftRadius) &&
         is_zero (nd.style .BorderTopRightRadius) && is_zero (nd.style .BorderBottomRightRadius)) ∧
      ((is_zero (nd.style .BorderTopLeftRadius) && is_zero (nd.style .BorderBottomLeftRadius) &&
        is_zero (nd.style .BorderTopRightRadius) && is_zero (nd.style .BorderBottomRightRadius))
          = false →
        ∃ rr, pb.rect = RectOrRRect.rrect rr ∧
          rr.corners = Corners.new
            (to_radii (nd.style .BorderTopLeftRadius) ref.borderBoxAbsolute.width
              ((nd.style .FontSize).toAbsolutePx))
            (to_radii (nd.style .BorderTopRightRadius) ref.borderBoxAbsolute.width
              ((nd.style .FontSize).toAbsolutePx))
            (to_radii (nd.style .BorderBottomLeftRadius) ref.borderBoxAbsolute.width
              ((nd.style .FontSize).toAbsolutePx))
            (to_radii (nd.style .BorderBottomRightRadius) ref.borderBoxAbsolute.width
              ((nd.style .FontSize).toAbsolutePx)))) ∧
    (∀ (hrad vrad : LengthPercent) (w w2 fs : Rat),
      (to_radii (.BorderRadius hrad vrad) w fs).h ≤ w ∧
      (to_radii (.BorderRadius hrad vrad) w fs).v = (to_radii (.BorderRadius hrad vrad) w2 fs).v) := by
  constructor
  · intro pb hp
    obtain ⟨r, hrect⟩ := bpb_rect_tag c st ref o pb hp
    rw [hrect]
    unfold tagRect
    rw [cbrc_eq ref nd hb]
    by_cases hz : (is_zero (nd.style .BorderTopLeftRadius) && is_zero (nd.style .BorderBottomLeftRadius) &&
        is_zero (nd.style .BorderTopRightRadius) && is_zero (nd.style .BorderBottomRightRadius)) = true
    · rw [if_pos hz]
      exact ⟨by rw [hz]; rfl, by intro hfalse; rw [hz] at hfalse; exact Bool.noConfusion hfalse⟩
    · rw [if_neg hz]
      refine ⟨by rw [Bool.eq_false_iff.mpr hz]; rfl, fun _ => ⟨_, rfl, rfl⟩⟩
  · intro hrad vrad w w2 fs
    exact ⟨min_le_right _ _, rfl⟩

/-- Witness for C5 at a concrete box with one nonzero corner radius. -/
theorem C5_witness :
    ∃ pb, (build_paint_box ⟨800, 600⟩ ⟨[], [], false⟩ refRadius none).2 = some pb ∧
      pb.rect.isPlainRect = false := by
  have h := C5_rounded_threshold ⟨800, 600⟩ ⟨[], [], false⟩ refRadius none
    ⟨3, false, false, styRadius⟩ rfl
  cases hp : (build_paint_box ⟨800, 600⟩ ⟨[], [], false⟩ refRadius none).2 with
  | none =>
    have : (build_paint_box ⟨800, 600⟩ ⟨[], [], false⟩ refRadius none).2.isSome = true := by decide
    rw [hp] at this
    exact Bool.noConfusion this
  | some pb =>
    refine ⟨pb, rfl, ?_⟩
    rw [(h.1 pb hp).1]
    decide

/-- C10.  When delegation is active, building the paint box of the body
replaces only the fill rectangle with the full canvas rectangle; background
color, borders and border rectangle are computed from the body itself exactly
as without delegation. -/
theorem C10_delegation_replaces_only_rect (c : Size) (st : RBState) (b : BoxRef) (nb : SNode)
    (hb : b.node = some nb) (hroot : nb.isRootElement = false) (hbody : nb.isBodyElement = true) :
    ∃ pbT pbF,
      build_paint_box c { st with root_element_use_body_background := true } b none =
        ({ st with root_element_use_body_background := true }, some pbT) ∧
      build_paint_box c { st with root_element_use_body_background := false } b none =
        ({ st with root_element_use_body_background := false }, some pbF) ∧
      pbT.rect.fillRect = Rect.mk 0 0 c.width c.height ∧
      pbF.rect.fillRect = b.paddingBoxAbsolute ∧
      pbT.background_color = color_from_value (nb.style .BackgroundColor) ∧
      pbF.background_color = pbT.background_color ∧
      pbT.borders = compute_borders b ∧
      pbF.borders = pbT.borders ∧
      pbT.border_rect = b.borderBoxAbsolute ∧
      pbF.border_rect = pbT.border_rect := by
  have h1 := bpb_nonroot_eq c { st with root_element_use_body_background := true } b none nb hb hroot
  have h2 := bpb_nonroot_eq c { st with root_element_use_body_background := false } b none nb hb hroot
  dsimp only at h1 h2
  simp only [hbody, Bool.true_and, Bool.and_false, Bool.and_true, reduceIte,
    Option.getD_none, Option.getD] at h1 h2
  exact ⟨_, _, h1, h2, tagRect_fillRect _ _, tagRect_fillRect _ _, rfl, rfl, rfl, rfl, rfl, rfl⟩

/-- Witness for C10 at the body fixture. -/
theorem C10_witness :
    ∃ pbT pbF,
      build_paint_box ⟨800, 600⟩ ⟨[], [], true⟩ refBody none = (⟨[], [], true⟩, some pbT) ∧
      build_paint_box ⟨800, 600⟩ ⟨[], [], false⟩ refBody none = (⟨[], [], false⟩, some pbF) ∧
      pbT.rect.fillRect = Rect.mk 0 0 800 600 ∧
      pbF.rect.fillRect = refBody.paddingBoxAbsolute ∧
      pbF.background_color = pbT.background_color ∧
      pbF.borders = pbT.borders ∧
      pbT.border_rect = refBody.borderBoxAbsolute := by
  obtain ⟨pbT, pbF, h1, h2, h3, h4, h5, h6, h7, h8, h9, h10⟩ :=
    C10_delegation_replaces_only_rect ⟨800, 600⟩ ⟨[], [], false⟩ refBody
      ⟨2, false, true, styOther⟩ rfl rfl rfl
  exact ⟨pbT, pbF, h1, h2, h3, h4, h6, h8, h9⟩

/-- C3.  Root to body background delegation: a transparent root emits no paint
box and the body paint box fills the whole canvas regardless of the body
geometry; any other root background emits the root paint box at its own
rectangle and leaves the body rectangle equal to its own geometry. -/
theorem C3_root_body_delegation (canvas : Size) (r b : BoxRef) (nr nb : SNode)
    (hr : r.node = some nr) (hroot : nr.isRootElement = true)
    (hb : b.node = some nb) (hbroot : nb.isRootElement = false)
    (hbbody : nb.isBodyElement = true) :
    (nr.style .BackgroundColor = .Color .transparent →
      ∃ req, RequestBuilder.build canvas
          (PBox.mk r false [] (.pcons (PBox.mk b false [] .pnil) .pnil)) = some req ∧
        req.boxes.map (fun pb => pb.rect.fillRect) =
          [Rect.mk 0 0 canvas.width canvas.height]) ∧
    (nr.style .BackgroundColor ≠ .Color .transparent →
      ∃ req, RequestBuilder.build canvas
          (PBox.mk r false [] (.pcons (PBox.mk b false [] .pnil) .pnil)) = some req ∧
        req.boxes.map (fun pb => pb.rect.fillRect) =
          [r.paddingBoxAbsolute, b.paddingBoxAbsolute]) := by
  constructor
  · intro ht
    have h1 := bpb_root_transparent_eq canvas ⟨[], [], false⟩ r none nr hr hroot ht
    have h2 := bpb_nonroot_eq canvas ⟨[], [], true⟩ b none nb hb hbroot
    dsimp only at h1 h2
    simp only [hbbody, Bool.true_and, reduceIte] at h2
    have hbuild : RequestBuilder.build canvas
        (PBox.mk r false [] (.pcons (PBox.mk b false [] .pnil) .pnil)) =
        some ⟨[⟨tagRect b (Rect.mk 0 0 canvas.width canvas.height),
                color_from_value (nb.style .BackgroundColor),
                compute_borders b, b.borderBoxAbsolute⟩], []⟩ := by
      unfold RequestBuilder.build
      simp only [process, processForest, h1, h2, PForest.allInline, PBox.isInlineLevel,
        Bool.not_false, Bool.false_and, Bool.and_false, Bool.true_and, Bool.and_true,
        Bool.and_self, reduceIte, processLineList, List.nil_append, ite_self,
        Bool.false_eq_true]
    exact ⟨_, hbuild, by simp [tagRect_fillRect]⟩
  · intro ht
    have h1 := bpb_root_opaque_eq canvas ⟨[], [], false⟩ r none nr hr hroot ht
    have h2 := bpb_nonroot_eq canvas
      ⟨[⟨tagRect r r.paddingBoxAbsolute, color_from_value (nr.style .BackgroundColor),
         compute_borders r, r.borderBoxAbsolute⟩], [], false⟩ b none nb hb hbroot
    dsimp only at h1 h2
    simp only [Option.getD_none] at h1
    simp only [hbbody, Bool.true_and, Bool.and_false, reduceIte, Option.getD_none,
      Bool.false_eq_true] at h2
    have hbuild : RequestBuilder.build canvas
        (PBox.mk r false [] (.pcons (PBox.mk b false [] .pnil) .pnil)) =
        some ⟨[⟨tagRect r r.paddingBoxAbsolute,
                color_from_value (nr.style .BackgroundColor),
                compute_borders r, r.borderBoxAbsolute⟩,
               ⟨tagRect b b.paddingBoxAbsolute,
                color_from_value (nb.style .BackgroundColor),
                compute_borders b, b.borderBoxAbsolute⟩], []⟩ := by
      unfold RequestBuilder.build
      simp only [process, processForest, h1, h2, PForest.allInline, PBox.isInlineLevel,
        Bool.not_false, Bool.false_and, Bool.and_false, Bool.true_and, Bool.and_true,
        Bool.and_self, reduceIte, processLineList, List.nil_append, ite_self,
        Bool.false_eq_true, List.cons_append]
    exact ⟨_, hbuild, by simp [tagRect_fillRect]⟩

/-- Witness for C3 at the concrete root and body fixtures, in both the
transparent and the opaque situation. -/
theorem C3_witness :
    (∃ req, RequestBuilder.build ⟨800, 600⟩ treeRootTBody = some req ∧
      req.boxes.map (fun pb => pb.rect.fillRect) = [Rect.mk 0 0 800 600]) ∧
    (∃ req, RequestBuilder.build ⟨800, 600⟩ treeRootOBody = some req ∧
      req.boxes.map (fun pb => pb.rect.fillRect) =
        [refRootO.paddingBoxAbsolute, refBody.paddingBoxAbsolute]) := by
  constructor
  · have h := C3_root_body_delegation ⟨800, 600⟩ refRootT refBody
      ⟨1, true, false, styTransparentBg⟩ ⟨2, false, true, styOther⟩ rfl rfl rfl rfl rfl
    exact h.1 rfl
  · have h := C3_root_body_delegation ⟨800, 600⟩ refRootO refBody
      ⟨1, true, false, styOpaqueBg⟩ ⟨2, false, true, styOther⟩ rfl rfl rfl rfl rfl
    exact h.2 (by decide)

/-- C2 at the failing input: the containing block has one line with one element
fragment for its inline child, at offset five seven from the containing block
location ten twenty.  The paint box built for that fragment is dropped, no box
at the composed position fifteen twenty seven appears, and the builder still
recurses into the children, painting the inline child at its own padding box
instead. -/
theorem C2_code_eval :
    ∃ req, RequestBuilder.build ⟨800, 600⟩ c2tree = some req ∧
      req.boxes.map (fun pb => pb.rect.fillRect) =
        [Rect.mk 10 20 100 50, Rect.mk 0 0 30 10] ∧
      Rect.mk 15 27 30 10 ∉ req.boxes.map (fun pb => pb.rect.fillRect) := by
  have h1 : (RequestBuilder.build ⟨800, 600⟩ c2tree).map
      (fun req => req.boxes.map (fun pb => pb.rect.fillRect)) =
      some [Rect.mk 10 20 100 50, Rect.mk 0 0 30 10] := by decide
  cases hreq : RequestBuilder.build ⟨800, 600⟩ c2tree with
  | none => rw [hreq] at h1; exact Option.noConfusion h1
  | some req =>
    rw [hreq] at h1
    simp only [Option.map_some', Option.some.injEq] at h1
    refine ⟨req, rfl, h1, ?_⟩
    rw [h1]
    decide

/-- C4 counterexample: with a transparent background on the root element the
boxes sequence is not a pre order linearization of the tree excluding only
anonymous boxes, because the non anonymous root is missing as well. -/
theorem C4_counterexample :
    ∃ req, RequestBuilder.build ⟨800, 600⟩ treeRootTBody = some req ∧
      req.boxes.length = 1 ∧
      ((preorderRefs treeRootTBody).filter (fun ref => ref.node.isSome)).length = 2 := by
  have h1 : (RequestBuilder.build ⟨800, 600⟩ treeRootTBody).map
      (fun req => req.boxes.length) = some 1 := by decide
  cases hreq : RequestBuilder.build ⟨800, 600⟩ treeRootTBody with
  | none => rw [hreq] at h1; exact Option.noConfusion h1
  | some req =>
    rw [hreq] at h1
    simp only [Option.map_some', Option.some.injEq] at h1
    exact ⟨req, rfl, h1, by decide⟩

/-- C4 amended: the boxes sequence of a successful build is the pre order
sequence of the tree (parent first, siblings left to right) restricted to the
boxes that push a paint box, which excludes anonymous boxes and a root element
with transparent background; each paint box carries the absolute border box of
its source box. -/
theorem C4_preorder_linearization (c : Size) (t : PBox) (req : PaintRequest)
    (h : RequestBuilder.build c t = some req) :
    req.boxes.map (fun pb => pb.border_rect) =
      ((preorderRefs t).filter emitsPaintBox).map (fun ref => ref.borderBoxAbsolute) := by
  unfold RequestBuilder.build at h
  cases hp : process c ⟨[], [], false⟩ t with
  | none => rw [hp] at h; exact Option.noConfusion h
  | some st =>
    rw [hp] at h
    cases h
    have hkey := process_boxes_key c ⟨[], [], false⟩ t st hp
    simpa using hkey

/-- Witness for C4 at a concrete tree with an anonymous free container and an
inline child. -/
theorem C4_witness :
    ∃ req, RequestBuilder.build ⟨800, 600⟩ c2tree = some req ∧
      req.boxes.map (fun pb => pb.border_rect) =
        ((preorderRefs c2tree).filter emitsPaintBox).map (fun ref => ref.borderBoxAbsolute) := by
  cases hreq : RequestBuilder.build ⟨800, 600⟩ c2tree with
  | none => exact absurd hreq (by decide)
  | some req => exact ⟨req, rfl, C4_preorder_linearization ⟨800, 600⟩ c2tree req hreq⟩

/-!  Heap access lemmas for the layout tree builder. -/

theorem getBox_append_lt (h bs : List LBox) (i : Nat) (hi : i < h.length) :
    getBox (h ++ bs) i = getBox h i := by
  unfold getBox
  rw [List.getD_eq_getElem?_getD, List.getD_eq_getElem?_getD,
    List.getElem?_append_left hi]

theorem getBox_append_self (h : List LBox) (b : LBox) :
    getBox (h ++ [b]) h.length = b := by
  unfold getBox
  rw [List.getD_eq_getElem?_getD, List.getElem?_append_right (Nat.le_refl _)]
  simp

theorem getBox_set_ne (h : List LBox) (p : Nat) (b : LBox) (i : Nat) (hne : i ≠ p) :
    getBox (h.set p b) i = getBox h i := by
  unfold getBox
  rw [List.getD_eq_getElem?_getD, List.getD_eq_getElem?_getD,
    List.getElem?_set_ne (fun hpi => hne hpi.symm)]

theorem getBox_set_self (h : List LBox) (p : Nat) (b : LBox) (hp : p < h.length) :
    getBox (h.set p b) p = b := by
  unfold getBox
  rw [List.getD_eq_getElem?_getD, List.getElem?_set_self hp]
  rfl

theorem length_appendChild (h : List LBox) (p c : Nat) :
    (appendChild h p c).length = h.length := by
  unfold appendChild
  exact List.length_set h _ _

theorem getBox_appendChild_self (h : List LBox) (p c : Nat) (hp : p < h.length) :
    getBox (appendChild h p c) p =
      { getBox h p with children := (getBox h p).children ++ [c] } := by
  unfold appendChild
  exact getBox_set_self h p _ hp

theorem getBox_appendChild_ne (h : List LBox) (p c i : Nat) (hne : i ≠ p) :
    getBox (appendChild h p c) i = getBox h i := by
  unfold appendChild
  exact getBox_set_ne h p _ i hne

theorem heapNodeIds_append (h : List LBox) (b : LBox) :
    heapNodeIds (h ++ [b]) = heapNodeIds h ++ b.node.toList := by
  unfold heapNodeIds
  rw [List.filterMap_append]
  cases hb : b.node <;> simp [List.filterMap_cons, hb]

theorem heapNodeIds_set_same_node (h : List LBox) (p : Nat) (b : LBox)
    (hn : b.node = (getBox h p).node) :
    heapNodeIds (h.set p b) = heapNodeIds h := by
  induction h generalizing p with
  | nil => rfl
  | cons x t ih =>
    cases p with
    | zero =>
      unfold heapNodeIds
      rw [List.set_cons_zero, List.filterMap_cons, List.filterMap_cons]
      have : b.node = x.node := hn
      rw [this]
    | succ q =>
      unfold heapNodeIds
      rw [List.set_cons_succ, List.filterMap_cons, List.filterMap_cons]
      have ht := ih q hn
      unfold heapNodeIds at ht
      rw [ht]

theorem heapNodeIds_appendChild (h : List LBox) (p c : Nat) :
    heapNodeIds (appendChild h p c) = heapNodeIds h := by
  unfold appendChild
  exact heapNodeIds_set_same_node h p _ rfl

/-- Heap evolution facts preserved by every step of the tree builder: the heap
only grows, the node reference and inline flag of every existing box are
stable, children lists of existing boxes only gain entries at or beyond the
low watermark L, and every node identifier of the new heap comes from the old
heap or from the allowed set V. -/
structure HPres (L : Nat) (V : List Nat) (h h2 : List LBox) : Prop where
  len_le : h.length ≤ h2.length
  node_eq : ∀ k, k < h.length → (getBox h2 k).node = (getBox h k).node
  inline_eq : ∀ k, k < h.length → (getBox h2 k).isInline = (getBox h k).isInline
  child_growth : ∀ k, k < h.length → ∀ c, c ∈ (getBox h2 k).children →
    c ∈ (getBox h k).children ∨ L ≤ c
  ids_sub : ∀ m, m ∈ heapNodeIds h2 → m ∈ heapNodeIds h ∨ m ∈ V

theorem HPres.refl (L : Nat) (V : List Nat) (h : List LBox) : HPres L V h h :=
  ⟨Nat.le_refl _, fun _ _ => rfl, fun _ _ => rfl,
   fun _ _ c hc => Or.inl hc, fun _ hm => Or.inl hm⟩

theorem HPres.comp {L : Nat} {V W : List Nat} {h1 h2 h3 : List LBox}
    (a : HPres L V h1 h2) (b : HPres L W h2 h3) : HPres L (V ++ W) h1 h3 := by
  refine ⟨Nat.le_trans a.len_le b.len_le, ?_, ?_, ?_, ?_⟩
  · intro k hk
    rw [b.node_eq k (Nat.lt_of_lt_of_le hk a.len_le), a.node_eq k hk]
  · intro k hk
    rw [b.inline_eq k (Nat.lt_of_lt_of_le hk a.len_le), a.inline_eq k hk]
  · intro k hk c hc
    rcases b.child_growth k (Nat.lt_of_lt_of_le hk a.len_le) c hc with hin | hge
    · exact a.child_growth k hk c hin
    · exact Or.inr hge
  · intro m hm
    rcases b.ids_sub m hm with hin | hw
    · rcases a.ids_sub m hin with hold | hv
      · exact Or.inl hold
      · exact Or.inr (List.mem_append_left _ hv)
    · exact Or.inr (List.mem_append_right _ hw)

theorem HPres.mono {L L2 : Nat} {V W : List Nat} {h h2 : List LBox}
    (a : HPres L V h h2) (hL : L2 ≤ L) (hV : ∀ m, m ∈ V → m ∈ W) :
    HPres L2 W h h2 := by
  refine ⟨a.len_le, a.node_eq, a.inline_eq, ?_, ?_⟩
  · intro k hk c hc
    rcases a.child_growth k hk c hc with hin | hge
    · exact Or.inl hin
    · exact Or.inr (Nat.le_trans hL hge)
  · intro m hm
    rcases a.ids_sub m hm with hold | hv
    · exact Or.inl hold
    · exact Or.inr (hV m hv)

theorem HPres.alloc (L : Nat) (h : List LBox) (b : LBox) (hL : L ≤ h.length) :
    HPres L b.node.toList h (h ++ [b]) := by
  refine ⟨by simp, ?_, ?_, ?_, ?_⟩
  · intro k hk; rw [getBox_append_lt h [b] k hk]
  · intro k hk; rw [getBox_append_lt h [b] k hk]
  · intro k hk c hc
    rw [getBox_append_lt h [b] k hk] at hc
    exact Or.inl hc
  · intro m hm
    rw [heapNodeIds_append] at hm
    rcases List.mem_append.mp hm with hold | hnew
    · exact Or.inl hold
    · exact Or.inr hnew

theorem HPres.append_child (L : Nat) (h : List LBox) (p c : Nat) (hL : L ≤ c) :
    HPres L [] h (appendChild h p c) := by
  by_cases hp : p < h.length
  · refine ⟨by rw [length_appendChild], ?_, ?_, ?_, ?_⟩
    · intro k hk
      by_cases hkp : k = p
      · subst hkp; rw [getBox_appendChild_self h k c hp]
      · rw [getBox_appendChild_ne h p c k hkp]
    · intro k hk
      by_cases hkp : k = p
      · subst hkp; rw [getBox_appendChild_self h k c hp]
      · rw [getBox_appendChild_ne h p c k hkp]
    · intro k hk d hd
      by_cases hkp : k = p
      · subst hkp
        rw [getBox_appendChild_self h k c hp] at hd
        rcases List.mem_append.mp hd with hin | hsing
        · exact Or.inl hin
        · rw [List.mem_singleton.mp hsing]
          exact Or.inr hL
      · rw [getBox_appendChild_ne h p c k hkp] at hd
        exact Or.inl hd
    · intro m hm
      rw [heapNodeIds_appendChild] at hm
      exact Or.inl hm
  · have : appendChild h p c = h := by
      unfold appendChild
      exact List.set_eq_of_length_le (Nat.le_of_not_lt hp)
    rw [this]
    exact HPres.refl L [] h

theorem HPres.set_children (L : Nat) (h : List LBox) (p : Nat) (cs : List Nat)
    (hcs : ∀ c, c ∈ cs → L ≤ c) (hp : p < h.length) :
    HPres L [] h (h.set p { getBox h p with children := cs }) := by
  refine ⟨by rw [List.length_set], ?_, ?_, ?_, ?_⟩
  · intro k hk
    by_cases hkp : k = p
    · subst hkp; rw [getBox_set_self h k _ hp]
    · rw [getBox_set_ne h p _ k hkp]
  · intro k hk
    by_cases hkp : k = p
    · subst hkp; rw [getBox_set_self h k _ hp]
    · rw [getBox_set_ne h p _ k hkp]
  · intro k hk d hd
    by_cases hkp : k = p
    · subst hkp
      rw [getBox_set_self h k _ hp] at hd
      exact Or.inr (hcs d hd)
    · rw [getBox_set_ne h p _ k hkp] at hd
      exact Or.inl hd
  · intro m hm
    rw [heapNodeIds_set_same_node h p { getBox h p with children := cs } rfl] at hm
    exact Or.inl hm

theorem HPres.compV {L : Nat} {V : List Nat} {h1 h2 h3 : List LBox}
    (a : HPres L V h1 h2) (b : HPres L V h2 h3) : HPres L V h1 h3 :=
  (a.comp b).mono (Nat.le_refl _) (fun m hm => by
    rcases List.mem_append.mp hm with hl | hr
    · exact hl
    · exact hr)

/-!  Both parent selection helpers only allocate fresh boxes and extend
children lists with fresh identifiers; they never touch node references or
inline flags and they leave the stack alone. -/

theorem gpi_pres (s s2 : BState) (p : Nat) (h : getParentForInline s = some (s2, p)) :
    s2.stack = s.stack ∧ HPres s.heap.length [] s.heap s2.heap := by
  unfold getParentForInline at h
  cases hst : s.stack with
  | nil => rw [hst] at h; exact Option.noConfusion h
  | cons p0 rest =>
    rw [hst] at h
    dsimp only at h
    by_cases hci : childrenAreInline s.heap p0 = true
    · rw [if_pos hci] at h
      cases h
      exact ⟨hst, HPres.refl _ _ _⟩
    · rw [if_neg hci] at h
      by_cases hra : (match (getBox s.heap p0).children.getLast? with
          | some l => !((getBox s.heap l).isAnon && childrenAreInline s.heap l)
          | none => true) = true
      · rw [if_pos hra] at h
        try dsimp only at h
        cases hlast : (getBox (appendChild (s.heap ++ [{ node := none, isInline := false, children := [] }])
            p0 s.heap.length) p0).children.getLast? with
        | none => rw [hlast] at h; exact Option.noConfusion h
        | some t =>
          rw [hlast] at h
          cases h
          refine ⟨rfl, ?_⟩
          have ha : HPres s.heap.length [] s.heap
              (s.heap ++ [{ node := none, isInline := false, children := [] }]) :=
            (HPres.alloc s.heap.length s.heap _ (Nat.le_refl _)).mono (Nat.le_refl _)
              (fun m hm => by simp at hm)
          have hb : HPres s.heap.length [] _ _ :=
            HPres.append_child s.heap.length
              (s.heap ++ [{ node := none, isInline := false, children := [] }])
              p0 s.heap.length (Nat.le_refl _)
          exact ha.compV hb
      · rw [if_neg hra] at h
        try dsimp only at h
        cases hlast : (getBox s.heap p0).children.getLast? with
        | none => rw [hlast] at h; exact Option.noConfusion h
        | some t =>
          rw [hlast] at h
          cases h
          exact ⟨hst, HPres.refl _ _ _⟩

theorem gpb_pres (s s2 : BState) (p : Nat) (h : getParentForBlock s = some (s2, p)) :
    s2.stack = s.stack ∧ HPres s.heap.length [] s.heap s2.heap := by
  unfold getParentForBlock at h
  cases hfind : s.stack.find? (fun i => !(getBox s.heap i).isInline && canHaveChildren s.heap i) with
  | none => rw [hfind] at h; exact Option.noConfusion h
  | some p0 =>
    rw [hfind] at h
    dsimp only at h
    by_cases hcond : (!(getBox s.heap p0).children.isEmpty && childrenAreInline s.heap p0) = true
    · rw [if_pos hcond] at h
      cases h
      refine ⟨rfl, ?_⟩
      have ha : HPres s.heap.length [] s.heap (s.heap ++ [({ node := none, isInline := false, children := (getBox s.heap p).children } : LBox)]) :=
        (HPres.alloc s.heap.length s.heap ({ node := none, isInline := false, children := (getBox s.heap p).children } : LBox) (Nat.le_refl _)).mono (Nat.le_refl _)
          (fun m hm => by simp at hm)
      by_cases hp : p < (s.heap ++ [({ node := none, isInline := false, children := (getBox s.heap p).children } : LBox)]).length
      · have hb := HPres.set_children s.heap.length (s.heap ++ [({ node := none, isInline := false, children := (getBox s.heap p).children } : LBox)])
          p [s.heap.length] (fun c hc => by rw [List.mem_singleton.mp hc]) hp
        exact ha.compV hb
      · have hnoop : (s.heap ++ [({ node := none, isInline := false, children := (getBox s.heap p).children } : LBox)]).set p
            { getBox (s.heap ++ [({ node := none, isInline := false, children := (getBox s.heap p).children } : LBox)]) p with children := [s.heap.length] } =
            s.heap ++ [({ node := none, isInline := false, children := (getBox s.heap p).children } : LBox)] :=
          List.set_eq_of_length_le (Nat.le_of_not_lt hp)
        rw [hnoop]
        exact ha
    · rw [if_neg hcond] at h
      cases h
      exact ⟨rfl, HPres.refl _ _ _⟩

/-!  Every successful builder step restores the stack, only grows the heap,
keeps the node reference and the inline flag of every pre existing box, adds
only fresh children to pre existing boxes, and only references visitable
document nodes. -/

mutual
theorem buildNode_pres (n : DNode) : ∀ (s s' : BState), buildNode s n = some s' →
    s'.stack = s.stack ∧ HPres s.heap.length (visibleIds n) s.heap s'.heap := by
  cases n with
  | mk nid disp kids =>
    intro s s' hb
    unfold buildNode at hb
    by_cases hnone : disp.isNoneDisplay = true
    · rw [if_pos hnone] at hb
      cases hb
      exact ⟨rfl, (HPres.refl _ [] _).mono (Nat.le_refl _) (fun m hm => by simp at hm)⟩
    · rw [if_neg hnone] at hb
      dsimp only at hb
      have hvis : visibleIds (.mk nid disp kids) = nid :: visibleIdsForest kids := by
        unfold visibleIds
        rw [if_neg hnone]
      cases hgp : (if disp.isInlineLevel = true then
          getParentForInline { s with heap := s.heap ++
            [{ node := some nid, isInline := disp.isInlineLevel, children := [] }] }
        else
          getParentForBlock { s with heap := s.heap ++
            [{ node := some nid, isInline := disp.isInlineLevel, children := [] }] }) with
      | none => rw [hgp] at hb; exact Option.noConfusion hb
      | some s2p =>
        rw [hgp] at hb
        obtain ⟨s2, p⟩ := s2p
        dsimp only at hb
        cases hforest : buildForest
            { heap := appendChild s2.heap p s.heap.length, stack := s.heap.length :: s2.stack }
            kids with
        | none => rw [hforest] at hb; exact Option.noConfusion hb
        | some s5 =>
          rw [hforest] at hb
          cases hb
          have halloc : HPres s.heap.length (visibleIds (.mk nid disp kids)) s.heap
              (s.heap ++ [{ node := some nid, isInline := disp.isInlineLevel, children := [] }]) := by
            refine (HPres.alloc s.heap.length s.heap _ (Nat.le_refl _)).mono (Nat.le_refl _) ?_
            intro m hm
            simp only [Option.toList_some, List.mem_singleton] at hm
            rw [hvis, hm]
            exact List.mem_cons_self _ _
          have hgpres : s2.stack = s.stack ∧
              HPres s.heap.length []
                (s.heap ++ [{ node := some nid, isInline := disp.isInlineLevel, children := [] }])
                s2.heap := by
            by_cases hinl : disp.isInlineLevel = true
            · rw [if_pos hinl] at hgp
              have hg := gpi_pres _ s2 p hgp
              exact ⟨hg.1, hg.2.mono (by simp) (fun m hm => hm)⟩
            · rw [if_neg hinl] at hgp
              have hg := gpb_pres _ s2 p hgp
              exact ⟨hg.1, hg.2.mono (by simp) (fun m hm => hm)⟩
          have happ : HPres s.heap.length [] s2.heap (appendChild s2.heap p s.heap.length) :=
            HPres.append_child s.heap.length s2.heap p s.heap.length (Nat.le_refl _)
          have hfor := buildForest_pres kids
            { heap := appendChild s2.heap p s.heap.length, stack := s.heap.length :: s2.stack }
            s5 hforest
          refine ⟨?_, ?_⟩
          · rw [hfor.1]
            dsimp only
            rw [hgpres.1]
            rfl
          · have hchain1 : HPres s.heap.length (visibleIds (.mk nid disp kids)) s.heap s2.heap :=
              halloc.compV (hgpres.2.mono (by simp) (fun m hm => by simp at hm))
            have hchain2 : HPres s.heap.length (visibleIds (.mk nid disp kids)) s.heap
                (appendChild s2.heap p s.heap.length) :=
              hchain1.compV (happ.mono (Nat.le_refl _) (fun m hm => by simp at hm))
            have hlen4 : s.heap.length ≤ (appendChild s2.heap p s.heap.length).length :=
              hchain2.len_le
            have hforestPres : HPres s.heap.length (visibleIds (.mk nid disp kids))
                (appendChild s2.heap p s.heap.length) s5.heap := by
              refine (hfor.2.mono hlen4 ?_)
              intro m hm
              rw [hvis]
              exact List.mem_cons_of_mem _ hm
            exact hchain2.compV hforestPres

theorem buildForest_pres (f : DForest) : ∀ (s s' : BState), buildForest s f = some s' →
    s'.stack = s.stack ∧ HPres s.heap.length (visibleIdsForest f) s.heap s'.heap := by
  cases f with
  | nil =>
    intro s s' hb
    unfold buildForest at hb
    cases hb
    exact ⟨rfl, (HPres.refl _ [] _).mono (Nat.le_refl _) (fun m hm => by simp at hm)⟩
  | cons hd tl =>
    intro s s' hb
    unfold buildForest at hb
    cases hh : buildNode s hd with
    | none => rw [hh] at hb; exact Option.noConfusion hb
    | some s1 =>
      rw [hh] at hb
      have h1 := buildNode_pres hd s s1 hh
      have h2 := buildForest_pres tl s1 s' hb
      refine ⟨by rw [h2.1, h1.1], ?_⟩
      have hv : visibleIdsForest (.cons hd tl) = visibleIds hd ++ visibleIdsForest tl := rfl
      rw [hv]
      refine (h1.2.mono (Nat.le_refl _) (fun m hm => List.mem_append_left _ hm)).compV ?_
      refine (h2.2.mono h1.2.len_le (fun m hm => List.mem_append_right _ hm))
end

/-!  Totality: the two unwraps of get_parent_for_inline never abort, and the
expect of get_parent_for_block never aborts while the stack holds a block
level box.  From these, a build with a block level root box never aborts. -/

theorem gpi_total (s : BState) (p0 : Nat) (rest : List Nat) (hst : s.stack = p0 :: rest)
    (hp0 : p0 < s.heap.length) : ∃ s2 p, getParentForInline s = some (s2, p) := by
  unfold getParentForInline
  rw [hst]
  dsimp only
  by_cases hci : childrenAreInline s.heap p0 = true
  · rw [if_pos hci]
    exact ⟨s, p0, rfl⟩
  · rw [if_neg hci]
    by_cases hra : (match (getBox s.heap p0).children.getLast? with
        | some l => !((getBox s.heap l).isAnon && childrenAreInline s.heap l)
        | none => true) = true
    · rw [if_pos hra]
      try dsimp only
      have hp0a : p0 < (s.heap ++ [({ node := none, isInline := false, children := [] } : LBox)]).length := by
        rw [List.length_append]
        exact Nat.lt_of_lt_of_le hp0 (Nat.le_add_right _ _)
      rw [getBox_appendChild_self _ p0 s.heap.length hp0a]
      dsimp only
      rw [List.getLast?_concat]
      exact ⟨_, _, rfl⟩
    · rw [if_neg hra]
      try dsimp only
      cases hlast : (getBox s.heap p0).children.getLast? with
      | none =>
        rw [hlast] at hra
        exact absurd rfl hra
      | some t =>
        exact ⟨s, t, rfl⟩

theorem gpb_total (s : BState) (j : Nat) (hj : j ∈ s.stack)
    (hjinl : (getBox s.heap j).isInline = false) :
    ∃ s2 p, getParentForBlock s = some (s2, p) := by
  unfold getParentForBlock
  cases hfind : s.stack.find? (fun i => !(getBox s.heap i).isInline && canHaveChildren s.heap i) with
  | none =>
    have := List.find?_eq_none.mp hfind j hj
    rw [hjinl] at this
    simp [canHaveChildren] at this
  | some p0 =>
    dsimp only
    by_cases hcond : (!(getBox s.heap p0).children.isEmpty && childrenAreInline s.heap p0) = true
    · rw [if_pos hcond]
      exact ⟨_, _, rfl⟩
    · rw [if_neg hcond]
      exact ⟨_, _, rfl⟩

theorem getBox_appendChild_isInline (h : List LBox) (p c i : Nat) (hi : i < h.length) :
    (getBox (appendChild h p c) i).isInline = (getBox h i).isInline :=
  (HPres.append_child 0 h p c (Nat.zero_le _)).inline_eq i hi

mutual
theorem buildNode_total (n : DNode) : ∀ (s : BState),
    (∀ j, j ∈ s.stack → j < s.heap.length) →
    (∃ j, j ∈ s.stack ∧ (getBox s.heap j).isInline = false) →
    ∃ s', buildNode s n = some s' := by
  cases n with
  | mk nid disp kids =>
    intro s hbound hblock
    by_cases hnone : disp.isNoneDisplay = true
    · exact ⟨s, by unfold buildNode; rw [if_pos hnone]⟩
    · obtain ⟨j, hjmem, hjinl⟩ := hblock
      have hstackne : s.stack ≠ [] := fun he => by rw [he] at hjmem; exact absurd hjmem (List.not_mem_nil j)
      obtain ⟨p0, rest, hst⟩ : ∃ p0 rest, s.stack = p0 :: rest := by
        cases hc : s.stack with
        | nil => exact absurd hc hstackne
        | cons a b => exact ⟨a, b, rfl⟩
      have hs1bound : ∀ i, i ∈ s.stack → i <
          (s.heap ++ [({ node := some nid, isInline := disp.isInlineLevel, children := [] } : LBox)]).length := by
        intro i hi
        rw [List.length_append]
        exact Nat.lt_of_lt_of_le (hbound i hi) (Nat.le_add_right _ _)
      have hs1inl : (getBox (s.heap ++ [({ node := some nid, isInline := disp.isInlineLevel, children := [] } : LBox)]) j).isInline = false := by
        rw [getBox_append_lt s.heap _ j (hbound j hjmem)]
        exact hjinl
      have hgp : ∃ s2 p, (if disp.isInlineLevel = true then
          getParentForInline { heap := s.heap ++ [({ node := some nid, isInline := disp.isInlineLevel, children := [] } : LBox)], stack := s.stack }
        else
          getParentForBlock { heap := s.heap ++ [({ node := some nid, isInline := disp.isInlineLevel, children := [] } : LBox)], stack := s.stack }) = some (s2, p) := by
        by_cases hinl : disp.isInlineLevel = true
        · rw [if_pos hinl]
          exact gpi_total _ p0 rest hst (hs1bound p0 (by rw [hst]; exact List.mem_cons_self _ _))
        · rw [if_neg hinl]
          exact gpb_total _ j hjmem hs1inl
      obtain ⟨s2, p, hgpe⟩ := hgp
      have hgpres : s2.stack = s.stack ∧ HPres (s.heap.length + 1) []
          (s.heap ++ [({ node := some nid, isInline := disp.isInlineLevel, children := [] } : LBox)]) s2.heap := by
        by_cases hinl : disp.isInlineLevel = true
        · rw [if_pos hinl] at hgpe
          have hg := gpi_pres _ s2 p hgpe
          exact ⟨hg.1, hg.2.mono (by simp) (fun m hm => hm)⟩
        · rw [if_neg hinl] at hgpe
          have hg := gpb_pres _ s2 p hgpe
          exact ⟨hg.1, hg.2.mono (by simp) (fun m hm => hm)⟩
      have hs2len : s.heap.length + 1 ≤ s2.heap.length := by
        have := hgpres.2.len_le
        rw [List.length_append] at this
        exact this
      have hs4bound : ∀ i, i ∈ s.heap.length :: s2.stack →
          i < (appendChild s2.heap p s.heap.length).length := by
        intro i hi
        rw [length_appendChild]
        rcases List.mem_cons.mp hi with hhd | htl
        · rw [hhd]; exact Nat.lt_of_lt_of_le (Nat.lt_succ_self _) hs2len
        · rw [hgpres.1] at htl
          exact Nat.lt_of_lt_of_le (Nat.lt_of_lt_of_le (hbound i htl)
            (Nat.le_succ _)) hs2len
      have hs4block : ∃ i, i ∈ s.heap.length :: s2.stack ∧
          (getBox (appendChild s2.heap p s.heap.length) i).isInline = false := by
        by_cases hinl : disp.isInlineLevel = true
        · refine ⟨j, List.mem_cons_of_mem _ (by rw [hgpres.1]; exact hjmem), ?_⟩
          rw [getBox_appendChild_isInline s2.heap p _ j
            (Nat.lt_of_lt_of_le (Nat.lt_of_lt_of_le (hbound j hjmem) (Nat.le_succ _)) hs2len)]
          rw [hgpres.2.inline_eq j (by
            rw [List.length_append]
            exact Nat.lt_of_lt_of_le (hbound j hjmem) (Nat.le_add_right _ _))]
          exact hs1inl
        · refine ⟨s.heap.length, List.mem_cons_self _ _, ?_⟩
          rw [getBox_appendChild_isInline s2.heap p _ s.heap.length
            (Nat.lt_of_lt_of_le (Nat.lt_succ_self _) hs2len)]
          rw [hgpres.2.inline_eq s.heap.length (by
            rw [List.length_append]
            exact Nat.lt_succ_self _)]
          rw [getBox_append_self]
          cases hdflag : disp.isInlineLevel with
          | false => rfl
          | true => exact absurd hdflag hinl
      obtain ⟨s5, hf⟩ := buildForest_total kids
        { heap := appendChild s2.heap p s.heap.length, stack := s.heap.length :: s2.stack }
        hs4bound hs4block
      refine ⟨{ s5 with stack := s5.stack.tail }, ?_⟩
      unfold buildNode
      rw [if_neg hnone]
      dsimp only
      rw [hgpe]
      dsimp only
      rw [hf]

theorem buildForest_total (f : DForest) : ∀ (s : BState),
    (∀ j, j ∈ s.stack → j < s.heap.length) →
    (∃ j, j ∈ s.stack ∧ (getBox s.heap j).isInline = false) →
    ∃ s', buildForest s f = some s' := by
  cases f with
  | nil => intro s _ _; exact ⟨s, rfl⟩
  | cons hd tl =>
    intro s hbound hblock
    obtain ⟨s1, h1⟩ := buildNode_total hd s hbound hblock
    have hpres := buildNode_pres hd s s1 h1
    have hbound1 : ∀ j, j ∈ s1.stack → j < s1.heap.length := by
      intro j hj
      rw [hpres.1] at hj
      exact Nat.lt_of_lt_of_le (hbound j hj) hpres.2.len_le
    have hblock1 : ∃ j, j ∈ s1.stack ∧ (getBox s1.heap j).isInline = false := by
      obtain ⟨j, hjmem, hjinl⟩ := hblock
      refine ⟨j, by rw [hpres.1]; exact hjmem, ?_⟩
      rw [hpres.2.inline_eq j (hbound j hjmem)]
      exact hjinl
    obtain ⟨s', h2⟩ := buildForest_total tl s1 hbound1 hblock1
    refine ⟨s', ?_⟩
    unfold buildForest
    rw [h1]
    dsimp only
    exact h2
end

/-!  Identifier bookkeeping for the display none exclusion property. -/

mutual
theorem visible_sub_all (t : DNode) : ∀ m, m ∈ visibleIds t → m ∈ allIds t := by
  cases t with
  | mk nid disp kids =>
    intro m hm
    unfold visibleIds at hm
    unfold allIds
    by_cases hn : disp.isNoneDisplay = true
    · rw [if_pos hn] at hm
      exact absurd hm (List.not_mem_nil m)
    · rw [if_neg hn] at hm
      rcases List.mem_cons.mp hm with hh | ht
      · rw [hh]; exact List.mem_cons_self _ _
      · exact List.mem_cons_of_mem _ (visible_sub_all_forest kids m ht)

theorem visible_sub_all_forest (f : DForest) : ∀ m, m ∈ visibleIdsForest f → m ∈ allIdsForest f := by
  cases f with
  | nil => intro m hm; exact absurd hm (List.not_mem_nil m)
  | cons hd tl =>
    intro m hm
    unfold visibleIdsForest at hm
    unfold allIdsForest
    rcases List.mem_append.mp hm with hh | ht
    · exact List.mem_append_left _ (visible_sub_all hd m hh)
    · exact List.mem_append_right _ (visible_sub_all_forest tl m ht)
end

mutual
theorem underNone_mem_all (t : DNode) : ∀ m, underNone t m = true → m ∈ allIds t := by
  cases t with
  | mk nid disp kids =>
    intro m hm
    unfold underNone at hm
    by_cases hn : disp.isNoneDisplay = true
    · rw [if_pos hn] at hm
      exact of_decide_eq_true hm
    · rw [if_neg hn] at hm
      unfold allIds
      exact List.mem_cons_of_mem _ (underNone_mem_all_forest kids m hm)

theorem underNone_mem_all_forest (f : DForest) : ∀ m, underNoneForest f m = true → m ∈ allIdsForest f := by
  cases f with
  | nil => intro m hm; exact Bool.noConfusion hm
  | cons hd tl =>
    intro m hm
    unfold underNoneForest at hm
    unfold allIdsForest
    rcases Bool.or_eq_true_iff.mp hm with hh | ht
    · exact List.mem_append_left _ (underNone_mem_all hd m hh)
    · exact List.mem_append_right _ (underNone_mem_all_forest tl m ht)
end

mutual
theorem underNone_not_visible (t : DNode) : ∀ m, underNone t m = true →
    (allIds t).Nodup → m ∉ visibleIds t := by
  cases t with
  | mk nid disp kids =>
    intro m hm hnd hvis
    unfold visibleIds at hvis
    by_cases hn : disp.isNoneDisplay = true
    · rw [if_pos hn] at hvis
      exact absurd hvis (List.not_mem_nil m)
    · rw [if_neg hn] at hvis
      unfold underNone at hm
      rw [if_neg hn] at hm
      have hall : allIds (.mk nid disp kids) = nid :: allIdsForest kids := rfl
      rw [hall] at hnd
      have hndtl := List.Nodup.of_cons hnd
      have hnidnot : nid ∉ allIdsForest kids := (List.nodup_cons.mp hnd).1
      rcases List.mem_cons.mp hvis with hh | ht
      · exact (hh ▸ hnidnot) (underNone_mem_all_forest kids m hm)
      · exact underNone_not_visible_forest kids m hm hndtl ht

theorem underNone_not_visible_forest (f : DForest) : ∀ m, underNoneForest f m = true →
    (allIdsForest f).Nodup → m ∉ visibleIdsForest f := by
  cases f with
  | nil => intro m hm; exact absurd hm Bool.noConfusion
  | cons hd tl =>
    intro m hm hnd hvis
    have hall : allIdsForest (.cons hd tl) = allIds hd ++ allIdsForest tl := rfl
    rw [hall] at hnd
    have hdisj := List.disjoint_of_nodup_append hnd
    have hnd1 := hnd.of_append_left
    have hnd2 := hnd.of_append_right
    unfold underNoneForest at hm
    unfold visibleIdsForest at hvis
    rcases Bool.or_eq_true_iff.mp hm with hh | ht
    · rcases List.mem_append.mp hvis with hv1 | hv2
      · exact underNone_not_visible hd m hh hnd1 hv1
      · exact hdisj (underNone_mem_all hd m hh) (visible_sub_all_forest tl m hv2)
    · rcases List.mem_append.mp hvis with hv1 | hv2
      · exact hdisj (visible_sub_all hd m hv1) (underNone_mem_all_forest tl m ht)
      · exact underNone_not_visible_forest tl m ht hnd2 hv2
end

/-- Every node identifier referenced by a built layout tree is a visitable
identifier of the input. -/
theorem build_ids (t : DNode) (h : List LBox) (i : Nat)
    (hb : TreeBuilder.build (.element t) = .tree h i) :
    ∀ m, m ∈ heapNodeIds h → m ∈ visibleIds t := by
  cases t with
  | mk nid disp kids =>
    intro m hm
    unfold TreeBuilder.build at hb
    dsimp only [DNode.nid, DNode.disp, DNode.kids] at hb
    by_cases hn : disp.isNoneDisplay = true
    · rw [if_pos hn] at hb
      exact BuildResult.noConfusion hb
    · rw [if_neg hn] at hb
      cases hf : buildForest { heap := [({ node := some nid, isInline := disp.isInlineLevel, children := [] } : LBox)], stack := [0] } kids with
      | none => rw [hf] at hb; exact BuildResult.noConfusion hb
      | some s1 =>
        rw [hf] at hb
        cases hb
        have hpres := buildForest_pres kids
          { heap := [({ node := some nid, isInline := disp.isInlineLevel, children := [] } : LBox)], stack := [0] } s1 hf
        rcases hpres.2.ids_sub m hm with hold | hnew
        · unfold heapNodeIds at hold
          simp only [List.filterMap_cons, List.filterMap_nil] at hold
          have hmn : m = nid := by
            rcases List.mem_singleton.mp hold with hmm
            exact hmm
          unfold visibleIds
          rw [if_neg hn, hmn]
          exact List.mem_cons_self _ _
        · unfold visibleIds
          rw [if_neg hn]
          exact List.mem_cons_of_mem _ hnew

/-- C6.  A node inside a display none subtree of the input, together with all
of its descendants, is referenced by no box of the built layout tree. -/
theorem C6_display_none_exclusion (t : DNode) (m : Nat) (h : List LBox) (i : Nat)
    (hu : underNone t m = true) (hnd : (allIds t).Nodup)
    (hb : TreeBuilder.build (.element t) = .tree h i) :
    m ∉ heapNodeIds h := by
  intro hmem
  exact underNone_not_visible t m hu hnd (build_ids t h i hb m hmem)

/-- Witness for C6: in the fixture tree the node four sits under the display
none node one and is absent from the heap of the built tree. -/
theorem C6_witness :
    underNone c6tree 4 = true ∧ (allIds c6tree).Nodup ∧
    ∃ h i, TreeBuilder.build (.element c6tree) = .tree h i ∧ 4 ∉ heapNodeIds h := by
  refine ⟨by decide, by decide, ?_⟩
  cases hb : TreeBuilder.build (.element c6tree) with
  | fatal => exact absurd hb (by decide)
  | noTree => exact absurd hb (by decide)
  | tree h i =>
    exact ⟨h, i, rfl, C6_display_none_exclusion c6tree 4 h i (by decide) (by decide) hb⟩

/-!  The paint walk never aborts when every text fragment references a box
with a backing node. -/

theorem processFragList_total (c : Size) (loc : Point) :
    ∀ (fs : List LineFragment) (st : RBState),
      (fs.all (fun f => match f.data with
        | .text b _ => !b.node.isNone
        | _ => true)) = true →
      ∃ st', processFragList c loc st fs = some st' := by
  intro fs
  induction fs with
  | nil => intro st _; exact ⟨st, rfl⟩
  | cons f rest ih =>
    intro st hok
    rw [List.all_cons, Bool.and_eq_true] at hok
    have hfrag : ∃ st1, processFragment c loc st f = some st1 := by
      unfold processFragment
      cases hd : f.data with
      | box fb =>
        dsimp only
        by_cases hn : (!fb.node.isNone) = true
        · rw [if_pos hn]
          exact ⟨_, rfl⟩
        · rw [if_neg hn]
          exact ⟨st, rfl⟩
      | text fb content =>
        dsimp only
        cases hn : fb.node with
        | none =>
          have h1 := hok.1
          rw [hd] at h1
          dsimp only at h1
          rw [hn] at h1
          exact absurd h1 (by simp)
        | some nd =>
          exact ⟨_, rfl⟩
    obtain ⟨st1, h1⟩ := hfrag
    obtain ⟨st', h2⟩ := ih st1 hok.2
    refine ⟨st', ?_⟩
    unfold processFragList
    rw [h1]
    exact h2

theorem processLineList_total (c : Size) (loc : Point) :
    ∀ (ls : List Line) (st : RBState),
      (ls.all (fun l => l.fragments.all (fun f => match f.data with
        | .text b _ => !b.node.isNone
        | _ => true))) = true →
      ∃ st', processLineList c loc st ls = some st' := by
  intro ls
  induction ls with
  | nil => intro st _; exact ⟨st, rfl⟩
  | cons l rest ih =>
    intro st hok
    rw [List.all_cons, Bool.and_eq_true] at hok
    obtain ⟨st1, h1⟩ := processFragList_total c loc l.fragments st hok.1
    obtain ⟨st', h2⟩ := ih st1 hok.2
    refine ⟨st', ?_⟩
    unfold processLineList
    rw [h1]
    exact h2

mutual
theorem process_total (b : PBox) : ∀ (c : Size) (st : RBState),
    textFragsHaveNodes b = true → ∃ st', process c st b = some st' := by
  cases b with
  | mk ref isInl lines kids =>
    intro c st hok
    unfold textFragsHaveNodes at hok
    rw [Bool.and_eq_true] at hok
    have hlines : ∃ st3, (if (!isInl && kids.allInline) = true then
        processLineList c ref.absoluteLocation
          (match (build_paint_box c st ref none).2 with
            | some pb => { (build_paint_box c st ref none).1 with
                boxes := (build_paint_box c st ref none).1.boxes ++ [pb] }
            | none => (build_paint_box c st ref none).1) lines
      else some (match (build_paint_box c st ref none).2 with
            | some pb => { (build_paint_box c st ref none).1 with
                boxes := (build_paint_box c st ref none).1.boxes ++ [pb] }
            | none => (build_paint_box c st ref none).1)) = some st3 := by
      by_cases hc : (!isInl && kids.allInline) = true
      · rw [if_pos hc]
        exact processLineList_total c ref.absoluteLocation lines _ hok.1
      · rw [if_neg hc]
        exact ⟨_, rfl⟩
    obtain ⟨st3, h3⟩ := hlines
    obtain ⟨st', h4⟩ := processForest_total kids c st3 hok.2
    refine ⟨st', ?_⟩
    unfold process
    dsimp only
    rw [h3]
    exact h4

theorem processForest_total (f : PForest) : ∀ (c : Size) (st : RBState),
    textFragsForest f = true → ∃ st', processForest c st f = some st' := by
  cases f with
  | pnil => intro c st _; exact ⟨st, rfl⟩
  | pcons hd tl =>
    intro c st hok
    unfold textFragsForest at hok
    rw [Bool.and_eq_true] at hok
    obtain ⟨st1, h1⟩ := process_total hd c st hok.1
    obtain ⟨st', h2⟩ := processForest_total tl c st1 hok.2
    refine ⟨st', ?_⟩
    unfold processForest
    rw [h1]
    dsimp only
    exact h2
end

/-- A build whose effective root generates a block level box always returns a
layout tree. -/
theorem build_tree_of_block_root (root : InputRoot) (rn : DNode)
    (hrn : effectiveRoot root = some rn) (hnone : rn.disp.isNoneDisplay = false)
    (hinl : rn.disp.isInlineLevel = false) :
    ∃ h i, TreeBuilder.build root = .tree h i := by
  cases root with
  | document cs =>
    cases cs with
    | nil => exact absurd hrn (by simp [effectiveRoot, DForest.headOpt])
    | cons n rest =>
      have hrn2 : rn = n := by
        simp [effectiveRoot, DForest.headOpt] at hrn
        exact hrn.symm
      subst hrn2
      obtain ⟨s', hf⟩ := buildForest_total rn.kids
        { heap := [({ node := some rn.nid, isInline := rn.disp.isInlineLevel, children := [] } : LBox)], stack := [0] }
        (by intro j hj; rcases List.mem_singleton.mp hj with rfl; exact Nat.zero_lt_one)
        ⟨0, List.mem_singleton.mpr rfl, by
          unfold getBox
          rw [List.getD_eq_getElem?_getD]
          simp [hinl]⟩
      refine ⟨s'.heap, 0, ?_⟩
      unfold TreeBuilder.build
      dsimp only [DForest.headOpt]
      rw [if_neg (by rw [hnone]; exact Bool.noConfusion), hf]
  | element n =>
    have hrn2 : rn = n := by
      simp [effectiveRoot] at hrn
      exact hrn.symm
    subst hrn2
    obtain ⟨s', hf⟩ := buildForest_total rn.kids
      { heap := [({ node := some rn.nid, isInline := rn.disp.isInlineLevel, children := [] } : LBox)], stack := [0] }
      (by intro j hj; rcases List.mem_singleton.mp hj with rfl; exact Nat.zero_lt_one)
      ⟨0, List.mem_singleton.mpr rfl, by
        unfold getBox
        rw [List.getD_eq_getElem?_getD]
        simp [hinl]⟩
    refine ⟨s'.heap, 0, ?_⟩
    unfold TreeBuilder.build
    dsimp only
    rw [if_neg (by rw [hnone]; exact Bool.noConfusion), hf]

/-- C8 amended.  TreeBuilder build returns the absent optional exactly when
there is no visitable root; in every other case it returns a layout tree or
aborts on the block parent invariant, and it always returns a layout tree
when the effective root is block level. -/
theorem C8_noTree_iff (root : InputRoot) :
    (TreeBuilder.build root = .noTree ↔ noVisitableRoot root = true) ∧
    (∀ rn, effectiveRoot root = some rn → rn.disp.isNoneDisplay = false →
      rn.disp.isInlineLevel = false →
      ∃ h i, TreeBuilder.build root = .tree h i) := by
  cases root with
  | document cs =>
    cases cs with
    | nil =>
      refine ⟨⟨fun _ => rfl, fun _ => rfl⟩, ?_⟩
      intro rn hrn
      exact absurd hrn (by simp [effectiveRoot, DForest.headOpt])
    | cons n rest =>
      constructor
      · unfold TreeBuilder.build noVisitableRoot
        dsimp only [DForest.headOpt]
        by_cases hn : n.disp.isNoneDisplay = true
        · rw [if_pos hn, hn]
          exact ⟨fun _ => rfl, fun _ => rfl⟩
        · rw [if_neg hn]
          constructor
          · intro habs
            cases hf : buildForest { heap := [({ node := some n.nid, isInline := n.disp.isInlineLevel, children := [] } : LBox)], stack := [0] } n.kids with
            | none => rw [hf] at habs; exact BuildResult.noConfusion habs
            | some s1 => rw [hf] at habs; exact BuildResult.noConfusion habs
          · intro hflag
            exact absurd hflag hn
      · intro rn hrn hnone hinl
        exact build_tree_of_block_root _ rn hrn hnone hinl
  | element n =>
    constructor
    · unfold TreeBuilder.build noVisitableRoot
      dsimp only
      by_cases hn : n.disp.isNoneDisplay = true
      · rw [if_pos hn, hn]
        exact ⟨fun _ => rfl, fun _ => rfl⟩
      · rw [if_neg hn]
        constructor
        · intro habs
          cases hf : buildForest { heap := [({ node := some n.nid, isInline := n.disp.isInlineLevel, children := [] } : LBox)], stack := [0] } n.kids with
          | none => rw [hf] at habs; exact BuildResult.noConfusion habs
          | some s1 => rw [hf] at habs; exact BuildResult.noConfusion habs
        · intro hflag
          exact absurd hflag hn
    · intro rn hrn hnone hinl
      exact build_tree_of_block_root _ rn hrn hnone hinl

/-- Witness for C8: a display none root yields the absent result, a block
level root yields a layout tree. -/
theorem C8_witness :
    (TreeBuilder.build (.element (DNode.mk 7 dNone .nil)) = .noTree ↔
      noVisitableRoot (.element (DNode.mk 7 dNone .nil)) = true) ∧
    ∃ h i, TreeBuilder.build (.element mixFixTree) = .tree h i := by
  refine ⟨(C8_noTree_iff (.element (DNode.mk 7 dNone .nil))).1, ?_⟩
  exact (C8_noTree_iff (.element mixFixTree)).2 mixFixTree rfl (by decide) (by decide)

/-- Counterexample for C8 as stated: an inline root with a block child has a
visitable root yet the build aborts instead of returning a layout tree. -/
theorem C8_counterexample :
    noVisitableRoot (.element fatalTree) = false ∧
    TreeBuilder.build (.element fatalTree) = .fatal := by
  exact ⟨by decide, by decide⟩

/-- C9 amended.  The block parent search never aborts when the effective root
generates a block level box, and the whole paint walk never aborts provided
every text fragment references a box with a backing node; the styled node
lookups after the anonymous filters are safe by construction. -/
theorem C9_invariant_safety :
    (∀ (root : InputRoot) (rn : DNode), effectiveRoot root = some rn →
      rn.disp.isNoneDisplay = false → rn.disp.isInlineLevel = false →
      TreeBuilder.build root ≠ .fatal) ∧
    (∀ (c : Size) (t : PBox), textFragsHaveNodes t = true →
      (RequestBuilder.build c t).isSome = true) := by
  constructor
  · intro root rn hrn hnone hinl habs
    obtain ⟨h, i, htree⟩ := build_tree_of_block_root root rn hrn hnone hinl
    rw [habs] at htree
    exact BuildResult.noConfusion htree
  · intro c t hok
    obtain ⟨st', hp⟩ := process_total t c ⟨[], [], false⟩ hok
    unfold RequestBuilder.build
    rw [hp]
    rfl

/-- Witness for C9 at a block rooted document tree and a layout tree whose
text fragments all have backing nodes. -/
theorem C9_witness :
    TreeBuilder.build (.element mixFixTree) ≠ .fatal ∧
    (RequestBuilder.build ⟨800, 600⟩ goodTextTree).isSome = true := by
  have h := C9_invariant_safety
  exact ⟨h.1 (.element mixFixTree) mixFixTree rfl (by decide) (by decide),
         h.2 ⟨800, 600⟩ goodTextTree (by decide)⟩

/-- Counterexample for C9 as stated: an inline root whose inline child holds a
block grandchild makes the block parent search abort, and a text fragment
referencing an anonymous box makes the paint walk abort. -/
theorem C9_counterexample :
    TreeBuilder.build (.element fatalDeepTree) = .fatal ∧
    RequestBuilder.build ⟨800, 600⟩ badTextTree = none := by
  exact ⟨by decide, by decide⟩

/-!  Pointwise evaluation lemmas for get_parent_for_inline, and anonymous box
counting, used for the anonymous reuse and run grouping properties. -/

theorem all_congr_mem {α : Type} (l : List α) (f g : α → Bool)
    (h : ∀ x, x ∈ l → f x = g x) : l.all f = l.all g := by
  induction l with
  | nil => rfl
  | cons a t ih =>
    rw [List.all_cons, List.all_cons, h a (List.mem_cons_self _ _),
      ih (fun x hx => h x (List.mem_cons_of_mem _ hx))]

theorem childrenAreInline_ext (h hs : List LBox) (p : Nat) (hp : p < h.length)
    (hb : ∀ c, c ∈ (getBox h p).children → c < h.length) :
    childrenAreInline (h ++ hs) p = childrenAreInline h p := by
  unfold childrenAreInline
  rw [getBox_append_lt h hs p hp]
  exact all_congr_mem _ _ _ (fun c hc => by rw [getBox_append_lt h hs c (hb c hc)])

theorem mem_of_getLast?_eq {α : Type} (l : List α) (a : α) (h : l.getLast? = some a) :
    a ∈ l := by
  obtain ⟨hne, heq⟩ := List.mem_getLast?_eq_getLast (l := l) (x := a) (Option.mem_def.mpr h)
  rw [heq]
  exact List.getLast_mem hne

theorem requireAnonFor_ext (h hs : List LBox) (p : Nat) (hp : p < h.length)
    (hb : ∀ c, c ∈ (getBox h p).children → c < h.length)
    (hbb : ∀ c, c ∈ (getBox h p).children → ∀ d, d ∈ (getBox h c).children → d < h.length) :
    requireAnonFor (h ++ hs) p = requireAnonFor h p := by
  unfold requireAnonFor
  rw [getBox_append_lt h hs p hp]
  cases hlast : (getBox h p).children.getLast? with
  | none => rfl
  | some l =>
    dsimp only
    have hl : l ∈ (getBox h p).children := mem_of_getLast?_eq _ _ hlast
    rw [getBox_append_lt h hs l (hb l hl),
      childrenAreInline_ext h hs l (hb l hl) (hbb l hl)]

theorem anonCount_append (h : List LBox) (b : LBox) :
    anonCount (h ++ [b]) = anonCount h + (if b.isAnon then 1 else 0) := by
  unfold anonCount
  rw [List.filter_append, List.length_append]
  cases hb : b.isAnon <;> simp [List.filter_cons, hb]

theorem anonCount_set_same (h : List LBox) (p : Nat) (b : LBox)
    (hn : b.isAnon = (getBox h p).isAnon) :
    anonCount (h.set p b) = anonCount h := by
  induction h generalizing p with
  | nil => rfl
  | cons x t ih =>
    cases p with
    | zero =>
      unfold anonCount
      rw [List.set_cons_zero, List.filter_cons, List.filter_cons]
      have hbx : b.isAnon = x.isAnon := hn
      rw [hbx]
      cases hx : x.isAnon <;> simp
    | succ q =>
      unfold anonCount
      rw [List.set_cons_succ, List.filter_cons, List.filter_cons]
      have ht := ih q hn
      unfold anonCount at ht
      cases hx : x.isAnon <;> simp [ht]

theorem anonCount_appendChild (h : List LBox) (p c : Nat) :
    anonCount (appendChild h p c) = anonCount h := by
  unfold appendChild
  exact anonCount_set_same h p _ rfl

theorem gpi_direct (s : BState) (p : Nat) (rest : List Nat)
    (hstack : s.stack = p :: rest) (hci : childrenAreInline s.heap p = true) :
    getParentForInline s = some (s, p) := by
  unfold getParentForInline
  rw [hstack]
  dsimp only
  rw [if_pos hci]

theorem gpi_reuse (s : BState) (p : Nat) (rest : List Nat) (a : Nat)
    (hstack : s.stack = p :: rest) (hci : childrenAreInline s.heap p = false)
    (hlast : (getBox s.heap p).children.getLast? = some a)
    (hanon : (getBox s.heap a).isAnon = true)
    (hainl : childrenAreInline s.heap a = true) :
    getParentForInline s = some (s, a) := by
  unfold getParentForInline
  rw [hstack]
  dsimp only
  rw [if_neg (by rw [hci]; exact Bool.noConfusion)]
  have hra : (match (getBox s.heap p).children.getLast? with
      | some l => !((getBox s.heap l).isAnon && childrenAreInline s.heap l)
      | none => true) = false := by
    rw [hlast]
    dsimp only
    rw [hanon, hainl]
    rfl
  rw [hra]
  simp only [Bool.false_eq_true, reduceIte]
  rw [hlast]

theorem gpi_create (s : BState) (p : Nat) (rest : List Nat)
    (hstack : s.stack = p :: rest) (hp : p < s.heap.length)
    (hci : childrenAreInline s.heap p = false)
    (hra : requireAnonFor s.heap p = true) :
    getParentForInline s =
      some (⟨appendChild (s.heap ++ [{ node := none, isInline := false, children := [] }])
        p s.heap.length, s.stack⟩, s.heap.length) := by
  unfold getParentForInline
  rw [hstack]
  dsimp only
  rw [if_neg (by rw [hci]; exact Bool.noConfusion)]
  unfold requireAnonFor at hra
  rw [hra]
  simp only [reduceIte]
  have hpa : p < (s.heap ++ [({ node := none, isInline := false, children := [] } : LBox)]).length := by
    rw [List.length_append]
    exact Nat.lt_of_lt_of_le hp (Nat.le_add_right _ _)
  rw [getBox_appendChild_self _ p s.heap.length hpa]
  dsimp only
  rw [List.getLast?_concat]

theorem all_false_of_mem {α : Type} (l : List α) (f : α → Bool) (x : α)
    (hx : x ∈ l) (hfx : f x = false) : l.all f = false := by
  cases h : l.all f with
  | false => rfl
  | true =>
    have := List.all_eq_true.mp h x hx
    rw [hfx] at this
    exact Bool.noConfusion this

/-- Building an inline leaf node appends one box holding its node to the
target chosen by get_parent_for_inline and restores the stack. -/
theorem buildNode_inline_leaf (s : BState) (nid : Nat) (s2 : BState) (t : Nat)
    (hgpi : getParentForInline
      ⟨s.heap ++ [{ node := some nid, isInline := true, children := [] }], s.stack⟩ =
        some (s2, t)) :
    buildNode s (.mk nid dInline .nil) =
      some ⟨appendChild s2.heap t s.heap.length, s2.stack⟩ := by
  unfold buildNode
  dsimp only
  rw [if_neg (show ¬(Display.isNoneDisplay dInline = true) by decide)]
  simp only [show dInline.isInlineLevel = true by decide, if_true]
  rw [hgpi]
  dsimp only
  simp only [buildForest]
  rfl

/-- Helper for the anonymous reuse property: given the state after the first
inline insertion, the second insertion reuses the trailing anonymous block. -/
theorem C7_assemble (s : BState) (p : Nat) (rest : List Nat) (n1 n2 : Nat)
    (hstack : s.stack = p :: rest)
    (hplen : p < s.heap.length)
    (H4 : List LBox)
    (hb1 : buildNode s (.mk n1 dInline .nil) = some ⟨H4, s.stack⟩)
    (hH4len : H4.length = s.heap.length + 2)
    (hg4p : getBox H4 p =
      { getBox s.heap p with children := (getBox s.heap p).children ++ [s.heap.length + 1] })
    (hg4anon : getBox H4 (s.heap.length + 1) =
      ({ node := none, isInline := false, children := [s.heap.length] } : LBox))
    (hg4one : getBox H4 s.heap.length =
      ({ node := some n1, isInline := true, children := [] } : LBox))
    (hg4cnt : anonCount H4 = anonCount s.heap + 1) :
    ∃ s1 s2,
      buildNode s (.mk n1 dInline .nil) = some s1 ∧
      buildNode s1 (.mk n2 dInline .nil) = some s2 ∧
      s1.stack = s.stack ∧ s2.stack = s.stack ∧
      (getBox s2.heap p).children = (getBox s.heap p).children ++ [s.heap.length + 1] ∧
      getBox s2.heap (s.heap.length + 1) =
        { node := none, isInline := false,
          children := [s.heap.length, s.heap.length + 2] } ∧
      getBox s2.heap s.heap.length = { node := some n1, isInline := true, children := [] } ∧
      getBox s2.heap (s.heap.length + 2) = { node := some n2, isInline := true, children := [] } ∧
      anonCount s2.heap = anonCount s.heap + 1 := by
  have hpne1 : p ≠ s.heap.length + 1 := Nat.ne_of_lt (Nat.lt_succ_of_lt hplen)
  have hne01 : s.heap.length ≠ s.heap.length + 1 := Nat.ne_of_lt (Nat.lt_succ_self _)
  have hne21 : s.heap.length + 2 ≠ s.heap.length + 1 := by omega
  have hplen4 : p < H4.length := by rw [hH4len]; omega
  have hg5p : getBox (H4 ++ [({ node := some n2, isInline := true, children := [] } : LBox)]) p =
      { getBox s.heap p with children := (getBox s.heap p).children ++ [s.heap.length + 1] } := by
    rw [getBox_append_lt H4 _ p hplen4]
    exact hg4p
  have hg5anon : getBox (H4 ++ [({ node := some n2, isInline := true, children := [] } : LBox)])
      (s.heap.length + 1) =
      ({ node := none, isInline := false, children := [s.heap.length] } : LBox) := by
    rw [getBox_append_lt H4 _ _ (by rw [hH4len]; omega)]
    exact hg4anon
  have hg5one : getBox (H4 ++ [({ node := some n2, isInline := true, children := [] } : LBox)])
      s.heap.length = ({ node := some n1, isInline := true, children := [] } : LBox) := by
    rw [getBox_append_lt H4 _ _ (by rw [hH4len]; omega)]
    exact hg4one
  have hg5two : getBox (H4 ++ [({ node := some n2, isInline := true, children := [] } : LBox)])
      (s.heap.length + 2) = ({ node := some n2, isInline := true, children := [] } : LBox) := by
    have := getBox_append_self H4 ({ node := some n2, isInline := true, children := [] } : LBox)
    rw [hH4len] at this
    exact this
  have hci5 : childrenAreInline (H4 ++ [({ node := some n2, isInline := true, children := [] } : LBox)]) p = false := by
    unfold childrenAreInline
    rw [hg5p]
    dsimp only
    refine all_false_of_mem _ _ (s.heap.length + 1)
      (List.mem_append_right _ (List.mem_singleton.mpr rfl)) ?_
    rw [hg5anon]
  have hlast5 : (getBox (H4 ++ [({ node := some n2, isInline := true, children := [] } : LBox)]) p).children.getLast? =
      some (s.heap.length + 1) := by
    rw [hg5p]
    dsimp only
    exact List.getLast?_concat _
  have hanon5 : (getBox (H4 ++ [({ node := some n2, isInline := true, children := [] } : LBox)])
      (s.heap.length + 1)).isAnon = true := by
    rw [hg5anon]
    rfl
  have hainl5 : childrenAreInline (H4 ++ [({ node := some n2, isInline := true, children := [] } : LBox)])
      (s.heap.length + 1) = true := by
    unfold childrenAreInline
    rw [hg5anon]
    dsimp only
    rw [List.all_cons, hg5one, List.all_nil]
    rfl
  have hgpi2 := gpi_reuse
    ⟨H4 ++ [({ node := some n2, isInline := true, children := [] } : LBox)], s.stack⟩
    p rest (s.heap.length + 1) hstack hci5 hlast5 hanon5 hainl5
  have hb2 := buildNode_inline_leaf ⟨H4, s.stack⟩ n2 _ _ hgpi2
  dsimp only at hb2
  rw [hH4len] at hb2
  refine ⟨⟨H4, s.stack⟩, _, hb1, hb2, rfl, rfl, ?_, ?_, ?_, ?_, ?_⟩
  · dsimp only
    rw [getBox_appendChild_ne _ _ _ p hpne1, hg5p]
  · dsimp only
    rw [getBox_appendChild_self _ _ _ (by rw [List.length_append, hH4len]; omega), hg5anon]
    rfl
  · dsimp only
    rw [getBox_appendChild_ne _ _ _ _ hne01, hg5one]
  · dsimp only
    rw [getBox_appendChild_ne _ _ _ _ hne21, hg5two]
  · dsimp only
    rw [anonCount_appendChild, anonCount_append, hg4cnt]
    simp [LBox.isAnon]

/-- C7.  Under a parent whose children are not classified inline and whose
last child is not an inline holding anonymous block, inserting two consecutive
inline level children produces exactly one trailing anonymous block: the first
insertion creates it, the second insertion reuses it, both inline boxes end up
inside that same wrapper in order, and the anonymous box count grows by
exactly one, not per inline child. -/
theorem C7_anonymous_reuse (s : BState) (p : Nat) (rest : List Nat) (n1 n2 : Nat)
    (hstack : s.stack = p :: rest)
    (hplen : p < s.heap.length)
    (hkids : ∀ c, c ∈ (getBox s.heap p).children → c < s.heap.length)
    (hkids2 : ∀ c, c ∈ (getBox s.heap p).children →
      ∀ d, d ∈ (getBox s.heap c).children → d < s.heap.length)
    (hnci : childrenAreInline s.heap p = false)
    (hreq : requireAnonFor s.heap p = true) :
    ∃ s1 s2,
      buildNode s (.mk n1 dInline .nil) = some s1 ∧
      buildNode s1 (.mk n2 dInline .nil) = some s2 ∧
      s1.stack = s.stack ∧ s2.stack = s.stack ∧
      (getBox s2.heap p).children = (getBox s.heap p).children ++ [s.heap.length + 1] ∧
      getBox s2.heap (s.heap.length + 1) =
        { node := none, isInline := false,
          children := [s.heap.length, s.heap.length + 2] } ∧
      getBox s2.heap s.heap.length = { node := some n1, isInline := true, children := [] } ∧
      getBox s2.heap (s.heap.length + 2) = { node := some n2, isInline := true, children := [] } ∧
      anonCount s2.heap = anonCount s.heap + 1 := by
  have hlenH1 : (s.heap ++ [({ node := some n1, isInline := true, children := [] } : LBox)]).length
      = s.heap.length + 1 := by simp
  have hciH1 : childrenAreInline
      (s.heap ++ [({ node := some n1, isInline := true, children := [] } : LBox)]) p = false := by
    rw [childrenAreInline_ext s.heap _ p hplen hkids]
    exact hnci
  have hreqH1 : requireAnonFor
      (s.heap ++ [({ node := some n1, isInline := true, children := [] } : LBox)]) p = true := by
    rw [requireAnonFor_ext s.heap _ p hplen hkids hkids2]
    exact hreq
  have hgpi1 := gpi_create
    ⟨s.heap ++ [({ node := some n1, isInline := true, children := [] } : LBox)], s.stack⟩
    p rest hstack (by rw [hlenH1]; exact Nat.lt_succ_of_lt hplen) hciH1 hreqH1
  rw [hlenH1] at hgpi1
  have hb1 := buildNode_inline_leaf s n1 _ _ hgpi1
  dsimp only at hb1
  -- Facts about the heap after the first insertion.
  have hlenH2 : ((s.heap ++ [({ node := some n1, isInline := true, children := [] } : LBox)]) ++
      [({ node := none, isInline := false, children := [] } : LBox)]).length
      = s.heap.length + 2 := by simp
  have hpne1 : p ≠ s.heap.length + 1 := Nat.ne_of_lt (Nat.lt_succ_of_lt hplen)
  have hne01 : s.heap.length ≠ s.heap.length + 1 := Nat.ne_of_lt (Nat.lt_succ_self _)
  have hne21 : s.heap.length + 2 ≠ s.heap.length + 1 := by omega
  have hg2p : getBox ((s.heap ++ [({ node := some n1, isInline := true, children := [] } : LBox)]) ++
      [({ node := none, isInline := false, children := [] } : LBox)]) p = getBox s.heap p := by
    rw [getBox_append_lt _ _ p (by rw [hlenH1]; exact Nat.lt_succ_of_lt hplen),
      getBox_append_lt s.heap _ p hplen]
  have hg2anon : getBox ((s.heap ++ [({ node := some n1, isInline := true, children := [] } : LBox)]) ++
      [({ node := none, isInline := false, children := [] } : LBox)]) (s.heap.length + 1) =
      ({ node := none, isInline := false, children := [] } : LBox) := by
    have := getBox_append_self
      (s.heap ++ [({ node := some n1, isInline := true, children := [] } : LBox)])
      ({ node := none, isInline := false, children := [] } : LBox)
    rw [hlenH1] at this
    exact this
  have hg2one : getBox ((s.heap ++ [({ node := some n1, isInline := true, children := [] } : LBox)]) ++
      [({ node := none, isInline := false, children := [] } : LBox)]) s.heap.length =
      ({ node := some n1, isInline := true, children := [] } : LBox) := by
    rw [getBox_append_lt _ _ s.heap.length (by rw [hlenH1]; exact Nat.lt_succ_self _)]
    exact getBox_append_self s.heap _
  -- The heap after the first insertion, written H4 below in the comments.
  have hH3len : (appendChild ((s.heap ++ [({ node := some n1, isInline := true, children := [] } : LBox)]) ++
      [({ node := none, isInline := false, children := [] } : LBox)]) p (s.heap.length + 1)).length
      = s.heap.length + 2 := by
    rw [length_appendChild]
    exact hlenH2
  have hg3p : getBox (appendChild ((s.heap ++ [({ node := some n1, isInline := true, children := [] } : LBox)]) ++
      [({ node := none, isInline := false, children := [] } : LBox)]) p (s.heap.length + 1)) p =
      { getBox s.heap p with children := (getBox s.heap p).children ++ [s.heap.length + 1] } := by
    rw [getBox_appendChild_self _ p _ (by rw [hlenH2]; omega), hg2p]
  have hg3anon : getBox (appendChild ((s.heap ++ [({ node := some n1, isInline := true, children := [] } : LBox)]) ++
      [({ node := none, isInline := false, children := [] } : LBox)]) p (s.heap.length + 1)) (s.heap.length + 1) =
      ({ node := none, isInline := false, children := [] } : LBox) := by
    rw [getBox_appendChild_ne _ p _ _ (Ne.symm hpne1)]
    exact hg2anon
  have hg3one : getBox (appendChild ((s.heap ++ [({ node := some n1, isInline := true, children := [] } : LBox)]) ++
      [({ node := none, isInline := false, children := [] } : LBox)]) p (s.heap.length + 1)) s.heap.length =
      ({ node := some n1, isInline := true, children := [] } : LBox) := by
    by_cases hpz : s.heap.length = p
    · exact absurd hpz.symm (Nat.ne_of_lt hplen)
    · rw [getBox_appendChild_ne _ p _ _ hpz]
      exact hg2one
  have hH4len : (appendChild (appendChild ((s.heap ++ [({ node := some n1, isInline := true, children := [] } : LBox)]) ++
      [({ node := none, isInline := false, children := [] } : LBox)]) p (s.heap.length + 1))
      (s.heap.length + 1) s.heap.length).length = s.heap.length + 2 := by
    rw [length_appendChild]
    exact hH3len
  have hg4p : getBox (appendChild (appendChild ((s.heap ++ [({ node := some n1, isInline := true, children := [] } : LBox)]) ++
      [({ node := none, isInline := false, children := [] } : LBox)]) p (s.heap.length + 1))
      (s.heap.length + 1) s.heap.length) p =
      { getBox s.heap p with children := (getBox s.heap p).children ++ [s.heap.length + 1] } := by
    rw [getBox_appendChild_ne _ _ _ p hpne1]
    exact hg3p
  have hg4anon : getBox (appendChild (appendChild ((s.heap ++ [({ node := some n1, isInline := true, children := [] } : LBox)]) ++
      [({ node := none, isInline := false, children := [] } : LBox)]) p (s.heap.length + 1))
      (s.heap.length + 1) s.heap.length) (s.heap.length + 1) =
      ({ node := none, isInline := false, children := [s.heap.length] } : LBox) := by
    rw [getBox_appendChild_self _ _ _ (by rw [hH3len]; omega), hg3anon]
    rfl
  have hg4one : getBox (appendChild (appendChild ((s.heap ++ [({ node := some n1, isInline := true, children := [] } : LBox)]) ++
      [({ node := none, isInline := false, children := [] } : LBox)]) p (s.heap.length + 1))
      (s.heap.length + 1) s.heap.length) s.heap.length =
      ({ node := some n1, isInline := true, children := [] } : LBox) := by
    rw [getBox_appendChild_ne _ _ _ _ hne01]
    exact hg3one
  have hg4cnt : anonCount (appendChild (appendChild ((s.heap ++ [({ node := some n1, isInline := true, children := [] } : LBox)]) ++
      [({ node := none, isInline := false, children := [] } : LBox)]) p (s.heap.length + 1))
      (s.heap.length + 1) s.heap.length) = anonCount s.heap + 1 := by
    rw [anonCount_appendChild, anonCount_appendChild, anonCount_append, anonCount_append]
    simp [LBox.isAnon]
  exact C7_assemble s p rest n1 n2 hstack hplen _ hb1 hH4len hg4p hg4anon hg4one hg4cnt

/-- Witness for C7 at a concrete parent holding one block child. -/
theorem C7_witness :
    ∃ s1 s2,
      buildNode ⟨[⟨some 100, false, [1]⟩, ⟨some 101, false, []⟩], [0]⟩
        (.mk 7 dInline .nil) = some s1 ∧
      buildNode s1 (.mk 8 dInline .nil) = some s2 ∧
      s1.stack = [0] ∧ s2.stack = [0] ∧
      (getBox s2.heap 0).children = [1, 3] ∧
      getBox s2.heap 3 = { node := none, isInline := false, children := [2, 4] } ∧
      getBox s2.heap 2 = { node := some 7, isInline := true, children := [] } ∧
      getBox s2.heap 4 = { node := some 8, isInline := true, children := [] } ∧
      anonCount s2.heap = anonCount [⟨some 100, false, [1]⟩, ⟨some 101, false, []⟩] + 1 := by
  obtain ⟨s1, s2, h1, h2, h3, h4, h5, h6, h7, h8, h9⟩ :=
    C7_anonymous_reuse ⟨[⟨some 100, false, [1]⟩, ⟨some 101, false, []⟩], [0]⟩ 0 [] 7 8
      rfl (by decide) (by decide) (by decide) (by decide) (by decide)
  exact ⟨s1, s2, h1, h2, h3, h4, h5, h6, h7, h8, h9⟩

/-!  Arithmetic of the run grouping readout. -/

theorem groupRuns_cons_false (m : Nat) (rest : List (Nat × Bool)) :
    groupRuns ((m, false) :: rest) = .blockChild m :: groupRuns rest := rfl

theorem groupRuns_cons_true (m : Nat) (rest : List (Nat × Bool)) :
    groupRuns ((m, true) :: rest) =
      match groupRuns rest with
      | .anonRun nids :: out => .anonRun (m :: nids) :: out
      | out => .anonRun [m] :: out := rfl

theorem snocInline_cons (g a : GChild) (rest : List GChild) (n : Nat) :
    snocInline (g :: a :: rest) n = g :: snocInline (a :: rest) n := by
  cases g with
  | anonRun r => rfl
  | blockChild b => rfl

theorem groupRuns_snoc_block (xs : List (Nat × Bool)) (n : Nat) :
    groupRuns (xs ++ [(n, false)]) = groupRuns xs ++ [.blockChild n] := by
  induction xs with
  | nil => rfl
  | cons e rest ih =>
    obtain ⟨m, fl⟩ := e
    cases fl with
    | false =>
      rw [List.cons_append, groupRuns_cons_false, groupRuns_cons_false, ih, List.cons_append]
    | true =>
      rw [List.cons_append, groupRuns_cons_true, groupRuns_cons_true, ih]
      cases hgr : groupRuns rest with
      | nil => rfl
      | cons g out =>
        cases g with
        | anonRun r => rfl
        | blockChild b => rfl

theorem groupRuns_snoc_inline (xs : List (Nat × Bool)) (n : Nat) :
    groupRuns (xs ++ [(n, true)]) = snocInline (groupRuns xs) n := by
  induction xs with
  | nil => rfl
  | cons e rest ih =>
    obtain ⟨m, fl⟩ := e
    cases fl with
    | false =>
      rw [List.cons_append, groupRuns_cons_false, groupRuns_cons_false, ih]
      cases hgr : groupRuns rest with
      | nil => rfl
      | cons a t => rfl
    | true =>
      rw [List.cons_append, groupRuns_cons_true, groupRuns_cons_true, ih]
      cases hgr : groupRuns rest with
      | nil => rfl
      | cons g out =>
        cases g with
        | anonRun r =>
          cases out with
          | nil => rfl
          | cons o os => rfl
        | blockChild b =>
          cases out with
          | nil => rfl
          | cons o os => rfl

theorem snocInline_anon_end (init : List GChild) (r : List Nat) (n : Nat) :
    snocInline (init ++ [.anonRun r]) n = init ++ [.anonRun (r ++ [n])] := by
  induction init with
  | nil => rfl
  | cons g rest ih =>
    cases hr : rest ++ [GChild.anonRun r] with
    | nil => exact absurd hr (by simp)
    | cons a t =>
      rw [List.cons_append, hr, snocInline_cons, ← hr, ih, List.cons_append]

theorem snocInline_block_end (init : List GChild) (b : Nat) (n : Nat) :
    snocInline (init ++ [.blockChild b]) n = (init ++ [.blockChild b]) ++ [.anonRun [n]] := by
  induction init with
  | nil => rfl
  | cons g rest ih =>
    cases hr : rest ++ [GChild.blockChild b] with
    | nil => exact absurd hr (by simp)
    | cons a t =>
      rw [List.cons_append, hr, snocInline_cons, ← hr, ih, List.cons_append]

theorem endsAnon_concat_anon (gs : List GChild) (r : List Nat) :
    endsAnon (gs ++ [.anonRun r]) = true := by
  unfold endsAnon
  rw [List.getLast?_concat]

theorem endsAnon_concat_block (gs : List GChild) (b : Nat) :
    endsAnon (gs ++ [.blockChild b]) = false := by
  unfold endsAnon
  rw [List.getLast?_concat]

theorem endsAnon_true_shape (gs : List GChild) (h : endsAnon gs = true) :
    ∃ init r, gs = init ++ [.anonRun r] := by
  unfold endsAnon at h
  cases hlast : gs.getLast? with
  | none => rw [hlast] at h; exact Bool.noConfusion h
  | some g =>
    rw [hlast] at h
    cases g with
    | blockChild b => exact Bool.noConfusion h
    | anonRun r =>
      exact ⟨gs.dropLast, r, (List.dropLast_append_getLast? _ hlast).symm⟩

theorem endsAnon_false_shape (gs : List GChild) (h : endsAnon gs = false) :
    gs = [] ∨ ∃ init b, gs = init ++ [.blockChild b] := by
  unfold endsAnon at h
  cases hlast : gs.getLast? with
  | none => exact Or.inl (List.getLast?_eq_none_iff.mp hlast)
  | some g =>
    rw [hlast] at h
    cases g with
    | anonRun r => exact Bool.noConfusion h
    | blockChild b =>
      exact Or.inr ⟨gs.dropLast, b, (List.dropLast_append_getLast? _ hlast).symm⟩

theorem snocInline_of_ends_false (gs : List GChild) (n : Nat) (h : endsAnon gs = false) :
    snocInline gs n = gs ++ [.anonRun [n]] := by
  rcases endsAnon_false_shape gs h with rfl | ⟨init, b, rfl⟩
  · rfl
  · exact snocInline_block_end init b n

theorem endsAnon_snocInline (gs : List GChild) (n : Nat) :
    endsAnon (snocInline gs n) = true := by
  cases he : endsAnon gs with
  | true =>
    obtain ⟨init, r, rfl⟩ := endsAnon_true_shape gs he
    rw [snocInline_anon_end]
    exact endsAnon_concat_anon _ _
  | false =>
    rw [snocInline_of_ends_false gs n he]
    exact endsAnon_concat_anon _ _

theorem groupRuns_all_inline (xs : List (Nat × Bool)) : xs ≠ [] →
    (∀ e, e ∈ xs → e.2 = true) →
    groupRuns xs = [.anonRun (xs.map Prod.fst)] := by
  induction xs with
  | nil => intro hne _; exact absurd rfl hne
  | cons e rest ih =>
    intro _ hall
    obtain ⟨m, fl⟩ := e
    have hm : fl = true := hall (m, fl) (List.mem_cons_self _ _)
    subst hm
    rw [groupRuns_cons_true]
    cases rest with
    | nil => rfl
    | cons e2 rest2 =>
      rw [ih (List.cons_ne_nil _ _) (fun x hx => hall x (List.mem_cons_of_mem _ hx))]
      rfl

/-!  Out of range heap reads and flag transport helpers. -/

theorem getBox_of_le (h : List LBox) (i : Nat) (hi : h.length ≤ i) :
    getBox h i = default := by
  unfold getBox
  exact List.getD_eq_default _ _ hi

theorem flag_true_bound (h : List LBox) (c : Nat)
    (hf : (getBox h c).isInline = true) : c < h.length := by
  by_contra hnot
  rw [getBox_of_le h c (Nat.le_of_not_lt hnot)] at hf
  exact absurd hf (by decide)

theorem cAI_transport (h h2 : List LBox) (j : Nat)
    (hkids : (getBox h2 j).children = (getBox h j).children)
    (hfl : ∀ c, c < h.length → (getBox h2 c).isInline = (getBox h c).isInline)
    (hcai : childrenAreInline h j = true) : childrenAreInline h2 j = true := by
  unfold childrenAreInline at hcai ⊢
  rw [hkids]
  refine List.all_eq_true.mpr ?_
  intro c hc
  have hct := List.all_eq_true.mp hcai c hc
  rw [hfl c (flag_true_bound h c hct)]
  exact hct

/-!  Stepwise evaluation of the tree builder on the grouping counterexample,
one document child at a time, so that every reduction stays on literal
states. -/

theorem c1step1 : buildNode ⟨[⟨some 0, false, []⟩], [0]⟩ (.mk 1 dInline .nil) =
    some ⟨[⟨some 0, false, [1]⟩, ⟨some 1, true, []⟩], [0]⟩ := by decide

theorem c1step2 : buildNode ⟨[⟨some 0, false, [1]⟩, ⟨some 1, true, []⟩], [0]⟩
    (.mk 2 dBlock .nil) =
    some ⟨[⟨some 0, false, [3, 2]⟩, ⟨some 1, true, []⟩, ⟨some 2, false, []⟩,
      ⟨none, false, [1]⟩], [0]⟩ := by decide

theorem c1step3 : buildNode ⟨[⟨some 0, false, [3, 2]⟩, ⟨some 1, true, []⟩,
      ⟨some 2, false, []⟩, ⟨none, false, [1]⟩], [0]⟩
    (.mk 3 dInline (.cons (.mk 4 dBlock .nil) .nil)) =
    some ⟨[⟨some 0, false, [3, 2, 5, 6]⟩, ⟨some 1, true, []⟩, ⟨some 2, false, []⟩,
      ⟨none, false, [1]⟩, ⟨some 3, true, []⟩, ⟨none, false, [4]⟩,
      ⟨some 4, false, []⟩], [0]⟩ := by decide

theorem c1step4 : buildNode ⟨[⟨some 0, false, [3, 2, 5, 6]⟩, ⟨some 1, true, []⟩,
      ⟨some 2, false, []⟩, ⟨none, false, [1]⟩, ⟨some 3, true, []⟩,
      ⟨none, false, [4]⟩, ⟨some 4, false, []⟩], [0]⟩ (.mk 5 dInline .nil) =
    some ⟨c1heap, [0]⟩ := by decide

theorem c1_build_eval : TreeBuilder.build (.element c1tree) = .tree c1heap 0 := by
  have hf : buildForest ⟨[⟨some 0, false, []⟩], [0]⟩ c1kids = some ⟨c1heap, [0]⟩ := by
    unfold c1kids
    unfold buildForest
    rw [c1step1]
    unfold buildForest
    rw [c1step2]
    unfold buildForest
    rw [c1step3]
    unfold buildForest
    rw [c1step4]
    rfl
  unfold TreeBuilder.build c1tree
  dsimp only [DNode.disp, DNode.kids, DNode.nid]
  rw [if_neg (show ¬(Display.isNoneDisplay dBlock = true) by decide)]
  rw [show Display.isInlineLevel dBlock = false by decide]
  rw [hf]

/-- C1 counterexample: on a block container whose inline level third child
holds a block level grandchild, the direct children of the container do not
follow the claimed run grouping: the builder splits the trailing inline run
and hoists the block grandchild between its pieces. -/
theorem C1_counterexample :
    TreeBuilder.build (.element c1tree) = .tree c1heap 0 ∧
    readChildren c1heap 0 =
      [.anonRun [1], .blockChild 2, .anonRun [3], .blockChild 4, .anonRun [5]] ∧
    groupRuns (cssList c1kids) =
      [.anonRun [1], .blockChild 2, .anonRun [3, 5]] ∧
    readChildren c1heap 0 ≠ groupRuns (cssList c1kids) :=
  ⟨c1_build_eval, by decide, by decide, by decide⟩

/-!  Closure of child references: every builder step keeps every child
reference of the heap in range. -/

theorem heapClosed_append (h : List LBox) (b : LBox) (hc : heapClosed h)
    (hb : ∀ c, c ∈ b.children → c < h.length + 1) : heapClosed (h ++ [b]) := by
  intro k hk c hcc
  rw [List.length_append, List.length_singleton] at hk ⊢
  by_cases hkl : k < h.length
  · rw [getBox_append_lt h [b] k hkl] at hcc
    exact Nat.lt_succ_of_lt (hc k hkl c hcc)
  · have hke : k = h.length := by omega
    subst hke
    rw [getBox_append_self] at hcc
    exact hb c hcc

theorem heapClosed_appendChild (h : List LBox) (p c : Nat) (hc : heapClosed h)
    (hcl : c < h.length) : heapClosed (appendChild h p c) := by
  intro k hk d hd
  rw [length_appendChild] at hk ⊢
  by_cases hkp : k = p
  · subst hkp
    rw [getBox_appendChild_self h k c hk] at hd
    rcases List.mem_append.mp hd with hin | hs
    · exact hc k hk d hin
    · rw [List.mem_singleton.mp hs]
      exact hcl
  · rw [getBox_appendChild_ne h p c k hkp] at hd
    exact hc k hk d hd

theorem heapClosed_set_children (h : List LBox) (p : Nat) (cs : List Nat)
    (hc : heapClosed h) (hcs : ∀ c, c ∈ cs → c < h.length) :
    heapClosed (h.set p { getBox h p with children := cs }) := by
  intro k hk d hd
  rw [List.length_set] at hk ⊢
  by_cases hkp : k = p
  · subst hkp
    rw [getBox_set_self h k _ hk] at hd
    exact hcs d hd
  · rw [getBox_set_ne h p _ k hkp] at hd
    exact hc k hk d hd

theorem gpi_closed (s s2 : BState) (p : Nat) (h : getParentForInline s = some (s2, p))
    (hc : heapClosed s.heap) : heapClosed s2.heap := by
  unfold getParentForInline at h
  cases hst : s.stack with
  | nil => rw [hst] at h; exact Option.noConfusion h
  | cons p0 rest =>
    rw [hst] at h
    dsimp only at h
    by_cases hci : childrenAreInline s.heap p0 = true
    · rw [if_pos hci] at h
      cases h
      exact hc
    · rw [if_neg hci] at h
      by_cases hra : (match (getBox s.heap p0).children.getLast? with
          | some l => !((getBox s.heap l).isAnon && childrenAreInline s.heap l)
          | none => true) = true
      · rw [if_pos hra] at h
        try dsimp only at h
        cases hlast : (getBox (appendChild (s.heap ++ [({ node := none, isInline := false, children := [] } : LBox)])
            p0 s.heap.length) p0).children.getLast? with
        | none => rw [hlast] at h; exact Option.noConfusion h
        | some t =>
          rw [hlast] at h
          cases h
          refine heapClosed_appendChild _ p0 s.heap.length ?_ ?_
          · exact heapClosed_append s.heap _ hc (fun c hcc => absurd hcc (List.not_mem_nil c))
          · rw [List.length_append, List.length_singleton]
            omega
      · rw [if_neg hra] at h
        try dsimp only at h
        cases hlast : (getBox s.heap p0).children.getLast? with
        | none => rw [hlast] at h; exact Option.noConfusion h
        | some t =>
          rw [hlast] at h
          cases h
          exact hc

theorem gpb_closed (s s2 : BState) (p : Nat) (h : getParentForBlock s = some (s2, p))
    (hc : heapClosed s.heap) : heapClosed s2.heap := by
  unfold getParentForBlock at h
  cases hfind : s.stack.find? (fun i => !(getBox s.heap i).isInline && canHaveChildren s.heap i) with
  | none => rw [hfind] at h; exact Option.noConfusion h
  | some p0 =>
    rw [hfind] at h
    dsimp only at h
    by_cases hcond : (!(getBox s.heap p0).children.isEmpty && childrenAreInline s.heap p0) = true
    · rw [if_pos hcond] at h
      cases h
      have hb : ∀ c, c ∈ ({ node := none, isInline := false, children := (getBox s.heap p).children } : LBox).children → c < s.heap.length + 1 := by
        intro c hcc
        by_cases hp : p < s.heap.length
        · exact Nat.lt_succ_of_lt (hc p hp c hcc)
        · rw [getBox_of_le s.heap p (Nat.le_of_not_lt hp)] at hcc
          have hdc : (default : LBox).children = [] := rfl
          rw [hdc] at hcc
          exact absurd hcc (List.not_mem_nil c)
      have h1 := heapClosed_append s.heap _ hc hb
      refine heapClosed_set_children _ p [s.heap.length] h1 ?_
      intro c hcc
      rw [List.mem_singleton.mp hcc, List.length_append, List.length_singleton]
      omega
    · rw [if_neg hcond] at h
      cases h
      exact hc

mutual
theorem buildNode_closed (n : DNode) : ∀ (s s' : BState), buildNode s n = some s' →
    heapClosed s.heap → heapClosed s'.heap := by
  cases n with
  | mk nid disp kids =>
    intro s s' hb hc
    unfold buildNode at hb
    by_cases hnone : disp.isNoneDisplay = true
    · rw [if_pos hnone] at hb
      cases hb
      exact hc
    · rw [if_neg hnone] at hb
      dsimp only at hb
      cases hgp : (if disp.isInlineLevel = true then
          getParentForInline { s with heap := s.heap ++
            [{ node := some nid, isInline := disp.isInlineLevel, children := [] }] }
        else
          getParentForBlock { s with heap := s.heap ++
            [{ node := some nid, isInline := disp.isInlineLevel, children := [] }] }) with
      | none => rw [hgp] at hb; exact Option.noConfusion hb
      | some s2p =>
        rw [hgp] at hb
        obtain ⟨s2, p⟩ := s2p
        dsimp only at hb
        cases hforest : buildForest
            { heap := appendChild s2.heap p s.heap.length, stack := s.heap.length :: s2.stack }
            kids with
        | none => rw [hforest] at hb; exact Option.noConfusion hb
        | some s5 =>
          rw [hforest] at hb
          cases hb
          have hc1 : heapClosed (s.heap ++ [({ node := some nid, isInline := disp.isInlineLevel, children := [] } : LBox)]) :=
            heapClosed_append s.heap _ hc (fun c hcc => absurd hcc (List.not_mem_nil c))
          have hc2 : heapClosed s2.heap := by
            by_cases hinl : disp.isInlineLevel = true
            · rw [if_pos hinl] at hgp
              exact gpi_closed _ s2 p hgp hc1
            · rw [if_neg hinl] at hgp
              exact gpb_closed _ s2 p hgp hc1
          have hlen2 : s.heap.length < s2.heap.length := by
            by_cases hinl : disp.isInlineLevel = true
            · rw [if_pos hinl] at hgp
              have hle := (gpi_pres _ s2 p hgp).2.len_le
              dsimp only at hle
              rw [List.length_append, List.length_singleton] at hle
              omega
            · rw [if_neg hinl] at hgp
              have hle := (gpb_pres _ s2 p hgp).2.len_le
              dsimp only at hle
              rw [List.length_append, List.length_singleton] at hle
              omega
          have hc4 : heapClosed (appendChild s2.heap p s.heap.length) :=
            heapClosed_appendChild s2.heap p s.heap.length hc2 hlen2
          exact buildForest_closed kids _ s5 hforest hc4

theorem buildForest_closed (f : DForest) : ∀ (s s' : BState), buildForest s f = some s' →
    heapClosed s.heap → heapClosed s'.heap := by
  cases f with
  | nil =>
    intro s s' hb hc
    unfold buildForest at hb
    cases hb
    exact hc
  | cons hd tl =>
    intro s s' hb hc
    unfold buildForest at hb
    cases hh : buildNode s hd with
    | none => rw [hh] at hb; exact Option.noConfusion hb
    | some s1 =>
      rw [hh] at hb
      exact buildForest_closed tl s1 s' hb (buildNode_closed hd s s1 hh hc)
end

/-!  Frame lemmas: with the new part of the parent stack listed in pre, a
builder step only modifies boxes on pre, boxes at or beyond the watermark L,
and freshly allocated boxes; and the children of pre boxes stay at or beyond
the watermark. -/

theorem find?_append_left {α : Type} (l1 l2 : List α) (p : α → Bool)
    (hx : ∃ x, x ∈ l1 ∧ p x = true) : (l1 ++ l2).find? p = l1.find? p := by
  induction l1 with
  | nil =>
    obtain ⟨x, hx1, _⟩ := hx
    exact absurd hx1 (List.not_mem_nil x)
  | cons a t ih =>
    by_cases hpa : p a = true
    · rw [List.cons_append, List.find?_cons_of_pos _ hpa, List.find?_cons_of_pos _ hpa]
    · rw [List.cons_append, List.find?_cons_of_neg _ hpa, List.find?_cons_of_neg _ hpa]
      refine ih ?_
      obtain ⟨x, hx1, hx2⟩ := hx
      rcases List.mem_cons.mp hx1 with rfl | hmem
      · exact absurd hx2 hpa
      · exact ⟨x, hmem, hx2⟩

theorem gpi_frame (L : Nat) (pre suf : List Nat) (s s2 : BState) (p : Nat)
    (h : getParentForInline s = some (s2, p))
    (hstack : s.stack = pre ++ suf) (hprene : pre ≠ [])
    (hpreb : ∀ j, j ∈ pre → j < s.heap.length)
    (hI3 : ∀ j, j ∈ pre → ∀ c, c ∈ (getBox s.heap j).children → L ≤ c)
    (hLlen : L ≤ s.heap.length) :
    (L ≤ p ∨ p ∈ pre) ∧
    (∀ k, k < s.heap.length → k ∉ pre → getBox s2.heap k = getBox s.heap k) ∧
    (∀ j, j ∈ pre → ∀ c, c ∈ (getBox s2.heap j).children → L ≤ c) := by
  obtain ⟨p0, pre2, hpre⟩ : ∃ p0 pre2, pre = p0 :: pre2 := by
    cases hp : pre with
    | nil => exact absurd hp hprene
    | cons a b => exact ⟨a, b, rfl⟩
  subst hpre
  have hst2 : s.stack = p0 :: (pre2 ++ suf) := by rw [hstack]; rfl
  have hp0mem : p0 ∈ p0 :: pre2 := List.mem_cons_self _ _
  have hp0len : p0 < s.heap.length := hpreb p0 hp0mem
  unfold getParentForInline at h
  rw [hst2] at h
  dsimp only at h
  by_cases hci : childrenAreInline s.heap p0 = true
  · rw [if_pos hci] at h
    cases h
    exact ⟨Or.inr hp0mem, fun k _ _ => rfl, hI3⟩
  · rw [if_neg hci] at h
    by_cases hra : (match (getBox s.heap p0).children.getLast? with
        | some l => !((getBox s.heap l).isAnon && childrenAreInline s.heap l)
        | none => true) = true
    · rw [if_pos hra] at h
      try dsimp only at h
      cases hlast : (getBox (appendChild (s.heap ++ [({ node := none, isInline := false, children := [] } : LBox)])
          p0 s.heap.length) p0).children.getLast? with
      | none => rw [hlast] at h; exact Option.noConfusion h
      | some t =>
        rw [hlast] at h
        cases h
        have hp0a : p0 < (s.heap ++ [({ node := none, isInline := false, children := [] } : LBox)]).length := by
          rw [List.length_append, List.length_singleton]
          omega
        have ht : s.heap.length = p := by
          rw [getBox_appendChild_self _ p0 s.heap.length hp0a,
            getBox_append_lt s.heap _ p0 hp0len] at hlast
          dsimp only at hlast
          rw [List.getLast?_concat] at hlast
          exact (Option.some.injEq _ _).mp hlast
        subst ht
        refine ⟨Or.inl hLlen, ?_, ?_⟩
        · intro k hk hknp
          have hkp0 : k ≠ p0 := fun he => hknp (he ▸ hp0mem)
          dsimp only
          rw [getBox_appendChild_ne _ p0 _ k hkp0, getBox_append_lt s.heap _ k hk]
        · intro j hj c hc
          dsimp only at hc
          by_cases hjp : j = p0
          · subst hjp
            rw [getBox_appendChild_self _ j s.heap.length hp0a,
              getBox_append_lt s.heap _ j hp0len] at hc
            dsimp only at hc
            rcases List.mem_append.mp hc with hin | hs
            · exact hI3 j hj c hin
            · rw [List.mem_singleton.mp hs]
              exact hLlen
          · rw [getBox_appendChild_ne _ p0 _ j hjp,
              getBox_append_lt s.heap _ j (hpreb j hj)] at hc
            exact hI3 j hj c hc
    · rw [if_neg hra] at h
      try dsimp only at h
      cases hlast : (getBox s.heap p0).children.getLast? with
      | none => rw [hlast] at h; exact Option.noConfusion h
      | some t =>
        rw [hlast] at h
        cases h
        exact ⟨Or.inl (hI3 p0 hp0mem p (mem_of_getLast?_eq _ _ hlast)),
          fun k _ _ => rfl, hI3⟩

theorem gpb_frame (L : Nat) (pre suf : List Nat) (s s2 : BState) (p : Nat)
    (h : getParentForBlock s = some (s2, p))
    (hstack : s.stack = pre ++ suf)
    (hpreb : ∀ j, j ∈ pre → j < s.heap.length)
    (hnoninl : ∃ j, j ∈ pre ∧ (getBox s.heap j).isInline = false)
    (hI3 : ∀ j, j ∈ pre → ∀ c, c ∈ (getBox s.heap j).children → L ≤ c)
    (hLlen : L ≤ s.heap.length) :
    p ∈ pre ∧
    (∀ k, k < s.heap.length → k ∉ pre → getBox s2.heap k = getBox s.heap k) ∧
    (∀ j, j ∈ pre → ∀ c, c ∈ (getBox s2.heap j).children → L ≤ c) := by
  obtain ⟨j0, hj0m, hj0f⟩ := hnoninl
  have hex : ∃ x, x ∈ pre ∧ (fun i => !(getBox s.heap i).isInline && canHaveChildren s.heap i) x = true := by
    refine ⟨j0, hj0m, ?_⟩
    show (!(getBox s.heap j0).isInline && canHaveChildren s.heap j0) = true
    rw [hj0f]
    rfl
  unfold getParentForBlock at h
  rw [hstack, find?_append_left pre suf _ hex] at h
  cases hfind : pre.find? (fun i => !(getBox s.heap i).isInline && canHaveChildren s.heap i) with
  | none =>
    rw [hfind] at h
    exact Option.noConfusion h
  | some p1 =>
    rw [hfind] at h
    dsimp only at h
    have hp1mem : p1 ∈ pre := List.mem_of_find?_eq_some hfind
    have hp1len : p1 < s.heap.length := hpreb p1 hp1mem
    by_cases hcond : (!(getBox s.heap p1).children.isEmpty && childrenAreInline s.heap p1) = true
    · rw [if_pos hcond] at h
      cases h
      have hp1a : p < (s.heap ++ [({ node := none, isInline := false, children := (getBox s.heap p).children } : LBox)]).length := by
        rw [List.length_append, List.length_singleton]
        omega
      refine ⟨hp1mem, ?_, ?_⟩
      · intro k hk hknp
        have hkp1 : k ≠ p := fun he => hknp (he ▸ hp1mem)
        dsimp only
        rw [getBox_set_ne _ p _ k hkp1, getBox_append_lt s.heap _ k hk]
      · intro j hj c hc
        dsimp only at hc
        by_cases hjp : j = p
        · subst hjp
          rw [getBox_set_self _ j _ hp1a] at hc
          dsimp only at hc
          rw [List.mem_singleton.mp hc]
          exact hLlen
        · rw [getBox_set_ne _ p _ j hjp, getBox_append_lt s.heap _ j (hpreb j hj)] at hc
          exact hI3 j hj c hc
    · rw [if_neg hcond] at h
      cases h
      exact ⟨hp1mem, fun k _ _ => rfl, hI3⟩

mutual
theorem buildNode_frame (n : DNode) : ∀ (L : Nat) (pre suf : List Nat) (s s' : BState),
    buildNode s n = some s' →
    s.stack = pre ++ suf →
    (∀ j, j ∈ pre → j < s.heap.length) →
    (∃ j, j ∈ pre ∧ (getBox s.heap j).isInline = false) →
    (∀ j, j ∈ pre → ∀ c, c ∈ (getBox s.heap j).children → L ≤ c) →
    L ≤ s.heap.length →
    (∀ k, k < L → k ∉ pre → getBox s'.heap k = getBox s.heap k) ∧
    (∀ j, j ∈ pre → ∀ c, c ∈ (getBox s'.heap j).children → L ≤ c) := by
  cases n with
  | mk nid disp kids =>
    intro L pre suf s s' hb hstack hpreb hnon hI3 hLlen
    unfold buildNode at hb
    by_cases hnone : disp.isNoneDisplay = true
    · rw [if_pos hnone] at hb
      cases hb
      exact ⟨fun k _ _ => rfl, hI3⟩
    · rw [if_neg hnone] at hb
      dsimp only at hb
      cases hgp : (if disp.isInlineLevel = true then
          getParentForInline { s with heap := s.heap ++
            [{ node := some nid, isInline := disp.isInlineLevel, children := [] }] }
        else
          getParentForBlock { s with heap := s.heap ++
            [{ node := some nid, isInline := disp.isInlineLevel, children := [] }] }) with
      | none => rw [hgp] at hb; exact Option.noConfusion hb
      | some s2p =>
        rw [hgp] at hb
        obtain ⟨s2, p⟩ := s2p
        dsimp only at hb
        cases hforest : buildForest
            { heap := appendChild s2.heap p s.heap.length, stack := s.heap.length :: s2.stack }
            kids with
        | none => rw [hforest] at hb; exact Option.noConfusion hb
        | some s5 =>
          rw [hforest] at hb
          cases hb
          have hpreb1 : ∀ j, j ∈ pre → j < (s.heap ++ [({ node := some nid, isInline := disp.isInlineLevel, children := [] } : LBox)]).length := by
            intro j hj
            rw [List.length_append, List.length_singleton]
            exact Nat.lt_succ_of_lt (hpreb j hj)
          have hnon1 : ∃ j, j ∈ pre ∧ (getBox (s.heap ++ [({ node := some nid, isInline := disp.isInlineLevel, children := [] } : LBox)]) j).isInline = false := by
            obtain ⟨j, hj, hjf⟩ := hnon
            exact ⟨j, hj, by rw [getBox_append_lt s.heap _ j (hpreb j hj)]; exact hjf⟩
          have hI31 : ∀ j, j ∈ pre → ∀ c, c ∈ (getBox (s.heap ++ [({ node := some nid, isInline := disp.isInlineLevel, children := [] } : LBox)]) j).children → L ≤ c := by
            intro j hj c hc
            rw [getBox_append_lt s.heap _ j (hpreb j hj)] at hc
            exact hI3 j hj c hc
          have hL1 : L ≤ (s.heap ++ [({ node := some nid, isInline := disp.isInlineLevel, children := [] } : LBox)]).length := by
            rw [List.length_append, List.length_singleton]
            omega
          have hprene : pre ≠ [] := by
            obtain ⟨j, hj, _⟩ := hnon
            intro he
            rw [he] at hj
            exact absurd hj (List.not_mem_nil j)
          have hgpres : s2.stack = s.stack ∧
              HPres (s.heap ++ [({ node := some nid, isInline := disp.isInlineLevel, children := [] } : LBox)]).length []
                (s.heap ++ [({ node := some nid, isInline := disp.isInlineLevel, children := [] } : LBox)]) s2.heap := by
            by_cases hinl : disp.isInlineLevel = true
            · rw [if_pos hinl] at hgp
              exact gpi_pres _ s2 p hgp
            · rw [if_neg hinl] at hgp
              exact gpb_pres _ s2 p hgp
          have hgfr : (L ≤ p ∨ p ∈ pre) ∧
              (∀ k, k < (s.heap ++ [({ node := some nid, isInline := disp.isInlineLevel, children := [] } : LBox)]).length → k ∉ pre →
                getBox s2.heap k = getBox (s.heap ++ [({ node := some nid, isInline := disp.isInlineLevel, children := [] } : LBox)]) k) ∧
              (∀ j, j ∈ pre → ∀ c, c ∈ (getBox s2.heap j).children → L ≤ c) := by
            by_cases hinl : disp.isInlineLevel = true
            · rw [if_pos hinl] at hgp
              exact gpi_frame L pre suf _ s2 p hgp hstack hprene hpreb1 hI31 hL1
            · rw [if_neg hinl] at hgp
              have hg := gpb_frame L pre suf _ s2 p hgp hstack hpreb1 hnon1 hI31 hL1
              exact ⟨Or.inr hg.1, hg.2.1, hg.2.2⟩
          have hboxIdnp : s.heap.length ∉ pre :=
            fun hmem => absurd (hpreb _ hmem) (Nat.lt_irrefl _)
          have hlen1lt : s.heap.length < (s.heap ++ [({ node := some nid, isInline := disp.isInlineLevel, children := [] } : LBox)]).length := by
            rw [List.length_append, List.length_singleton]
            omega
          have hbox2 : getBox s2.heap s.heap.length =
              ({ node := some nid, isInline := disp.isInlineLevel, children := [] } : LBox) := by
            rw [hgfr.2.1 s.heap.length hlen1lt hboxIdnp]
            exact getBox_append_self s.heap _
          have hchnil : ({ node := some nid, isInline := disp.isInlineLevel, children := [] } : LBox).children = [] := rfl
          have hI34 : ∀ j, j ∈ s.heap.length :: pre → ∀ c, c ∈ (getBox (appendChild s2.heap p s.heap.length) j).children → L ≤ c := by
            intro j hj c hc
            by_cases hjp : j = p
            · subst hjp
              by_cases hp2 : j < s2.heap.length
              · rw [getBox_appendChild_self s2.heap j s.heap.length hp2] at hc
                dsimp only at hc
                rcases List.mem_append.mp hc with hin | hs
                · rcases List.mem_cons.mp hj with hj1 | hj2
                  · rw [hj1, hbox2, hchnil] at hin
                    exact absurd hin (List.not_mem_nil c)
                  · exact hgfr.2.2 j hj2 c hin
                · rw [List.mem_singleton.mp hs]
                  exact hLlen
              · have hnoop : appendChild s2.heap j s.heap.length = s2.heap := by
                  unfold appendChild
                  exact List.set_eq_of_length_le (Nat.le_of_not_lt hp2)
                rw [hnoop] at hc
                rcases List.mem_cons.mp hj with hj1 | hj2
                · rw [hj1, hbox2, hchnil] at hc
                  exact absurd hc (List.not_mem_nil c)
                · exact hgfr.2.2 j hj2 c hc
            · rw [getBox_appendChild_ne s2.heap p _ j hjp] at hc
              rcases List.mem_cons.mp hj with hj1 | hj2
              · rw [hj1, hbox2, hchnil] at hc
                exact absurd hc (List.not_mem_nil c)
              · exact hgfr.2.2 j hj2 c hc
          have hpreb4 : ∀ j, j ∈ s.heap.length :: pre → j < (appendChild s2.heap p s.heap.length).length := by
            intro j hj
            rw [length_appendChild]
            rcases List.mem_cons.mp hj with hj1 | hj2
            · rw [hj1]
              exact Nat.lt_of_lt_of_le hlen1lt hgpres.2.len_le
            · exact Nat.lt_of_lt_of_le (Nat.lt_of_lt_of_le (hpreb j hj2)
                (Nat.le_of_lt hlen1lt)) hgpres.2.len_le
          have hHPa : HPres s.heap.length
              ({ node := some nid, isInline := disp.isInlineLevel, children := [] } : LBox).node.toList
              s.heap (s.heap ++ [({ node := some nid, isInline := disp.isInlineLevel, children := [] } : LBox)]) :=
            HPres.alloc s.heap.length s.heap _ (Nat.le_refl _)
          have hHPb : HPres s.heap.length []
              (s.heap ++ [({ node := some nid, isInline := disp.isInlineLevel, children := [] } : LBox)]) s2.heap :=
            hgpres.2.mono (by simp) (fun m hm => hm)
          have hHPc : HPres s.heap.length [] s2.heap (appendChild s2.heap p s.heap.length) :=
            HPres.append_child s.heap.length s2.heap p s.heap.length (Nat.le_refl _)
          have hHP4 := (hHPa.comp hHPb).comp hHPc
          have hnon4 : ∃ j, j ∈ s.heap.length :: pre ∧
              (getBox (appendChild s2.heap p s.heap.length) j).isInline = false := by
            obtain ⟨j, hj, hjf⟩ := hnon
            refine ⟨j, List.mem_cons_of_mem _ hj, ?_⟩
            rw [hHP4.inline_eq j (hpreb j hj)]
            exact hjf
          have hL4 : L ≤ (appendChild s2.heap p s.heap.length).length := by
            rw [length_appendChild]
            exact Nat.le_trans hLlen (Nat.le_trans (Nat.le_of_lt hlen1lt) hgpres.2.len_le)
          have hstack4 : ({ heap := appendChild s2.heap p s.heap.length, stack := s.heap.length :: s2.stack } : BState).stack = (s.heap.length :: pre) ++ suf := by
            dsimp only
            rw [hgpres.1, hstack]
            rfl
          have hrec := buildForest_frame kids L (s.heap.length :: pre) suf
            { heap := appendChild s2.heap p s.heap.length, stack := s.heap.length :: s2.stack }
            s5 hforest hstack4 hpreb4 hnon4 hI34 hL4
          constructor
          · intro k hk hknp
            have hkb : k ≠ s.heap.length := by omega
            have hknp4 : k ∉ s.heap.length :: pre := by
              intro hm
              rcases List.mem_cons.mp hm with h1 | h2
              · exact hkb h1
              · exact hknp h2
            have e1 : getBox s5.heap k = getBox (appendChild s2.heap p s.heap.length) k :=
              hrec.1 k hk hknp4
            have hkp : k ≠ p := by
              rcases hgfr.1 with hLp | hpp
              · omega
              · intro he
                exact hknp (he ▸ hpp)
            have e2 : getBox (appendChild s2.heap p s.heap.length) k = getBox s2.heap k :=
              getBox_appendChild_ne s2.heap p _ k hkp
            have e3 : getBox s2.heap k =
                getBox (s.heap ++ [({ node := some nid, isInline := disp.isInlineLevel, children := [] } : LBox)]) k :=
              hgfr.2.1 k (by rw [List.length_append, List.length_singleton]; omega) hknp
            have e4 : getBox (s.heap ++ [({ node := some nid, isInline := disp.isInlineLevel, children := [] } : LBox)]) k = getBox s.heap k :=
              getBox_append_lt s.heap _ k (by omega)
            dsimp only
            rw [e1, e2, e3, e4]
          · intro j hj c hc
            dsimp only at hc
            exact hrec.2 j (List.mem_cons_of_mem _ hj) c hc

theorem buildForest_frame (f : DForest) : ∀ (L : Nat) (pre suf : List Nat) (s s' : BState),
    buildForest s f = some s' →
    s.stack = pre ++ suf →
    (∀ j, j ∈ pre → j < s.heap.length) →
    (∃ j, j ∈ pre ∧ (getBox s.heap j).isInline = false) →
    (∀ j, j ∈ pre → ∀ c, c ∈ (getBox s.heap j).children → L ≤ c) →
    L ≤ s.heap.length →
    (∀ k, k < L → k ∉ pre → getBox s'.heap k = getBox s.heap k) ∧
    (∀ j, j ∈ pre → ∀ c, c ∈ (getBox s'.heap j).children → L ≤ c) := by
  cases f with
  | nil =>
    intro L pre suf s s' hb _ _ _ hI3 _
    unfold buildForest at hb
    cases hb
    exact ⟨fun k _ _ => rfl, hI3⟩
  | cons hd tl =>
    intro L pre suf s s' hb hstack hpreb hnon hI3 hLlen
    unfold buildForest at hb
    cases hh : buildNode s hd with
    | none => rw [hh] at hb; exact Option.noConfusion hb
    | some s1 =>
      rw [hh] at hb
      have h1 := buildNode_frame hd L pre suf s s1 hh hstack hpreb hnon hI3 hLlen
      have hpres := buildNode_pres hd s s1 hh
      have hstack1 : s1.stack = pre ++ suf := by rw [hpres.1, hstack]
      have hpreb1 : ∀ j, j ∈ pre → j < s1.heap.length :=
        fun j hj => Nat.lt_of_lt_of_le (hpreb j hj) hpres.2.len_le
      have hnon1 : ∃ j, j ∈ pre ∧ (getBox s1.heap j).isInline = false := by
        obtain ⟨j, hj, hjf⟩ := hnon
        exact ⟨j, hj, by rw [hpres.2.inline_eq j (hpreb j hj)]; exact hjf⟩
      have hL1 : L ≤ s1.heap.length := Nat.le_trans hLlen hpres.2.len_le
      have h2 := buildForest_frame tl L pre suf s1 s' hb hstack1 hpreb1 hnon1 h1.2 hL1
      refine ⟨?_, h2.2⟩
      intro k hk hknp
      rw [h2.1 k hk hknp, h1.1 k hk hknp]
end

/-!  Frame lemma for inline pure subtrees: while the builder walks a subtree
containing no block level node, every parent selection takes the direct
branch, so only the boxes on the new part of the stack gain children, and
those children are all inline. -/

theorem isInlineLevel_not_none (d : Display) (h : d.isInlineLevel = true) :
    d.isNoneDisplay = false := by
  cases d with
  | Full o i => rfl
  | Box b => exact Bool.noConfusion h

theorem buildNode_none_eq (n : DNode) (s s1 : BState) (hnd : n.disp.isNoneDisplay = true)
    (hh : buildNode s n = some s1) : s1 = s := by
  cases n with
  | mk nid disp kids =>
    unfold buildNode at hh
    have hnd2 : disp.isNoneDisplay = true := hnd
    rw [if_pos hnd2] at hh
    exact ((Option.some.injEq _ _).mp hh).symm

mutual
theorem buildNode_pure_frame (n : DNode) : ∀ (pre suf : List Nat) (s s' : BState),
    buildNode s n = some s' → inlinePure n = true →
    s.stack = pre ++ suf → pre ≠ [] →
    (∀ j, j ∈ pre → j < s.heap.length) →
    (∀ j, j ∈ pre → childrenAreInline s.heap j = true) →
    (∀ k, k < s.heap.length → k ∉ pre → getBox s'.heap k = getBox s.heap k) ∧
    (∀ j, j ∈ pre → childrenAreInline s'.heap j = true) := by
  cases n with
  | mk nid disp kids =>
    intro pre suf s s' hb hpure hstack hprene hpreb hcai
    have hpure2 : (disp.isInlineLevel && inlinePureForest kids) = true := hpure
    simp only [Bool.and_eq_true] at hpure2
    obtain ⟨hinl, hkp⟩ := hpure2
    have hnone : disp.isNoneDisplay = false := isInlineLevel_not_none disp hinl
    obtain ⟨p0, pre2, hpre⟩ : ∃ p0 pre2, pre = p0 :: pre2 := by
      cases hp : pre with
      | nil => exact absurd hp hprene
      | cons a b => exact ⟨a, b, rfl⟩
    have hp0mem : p0 ∈ pre := by rw [hpre]; exact List.mem_cons_self _ _
    have hp0len : p0 < s.heap.length := hpreb p0 hp0mem
    have hcai1 : childrenAreInline (s.heap ++ [({ node := some nid, isInline := disp.isInlineLevel, children := [] } : LBox)]) p0 = true := by
      refine cAI_transport s.heap _ p0 ?_ ?_ (hcai p0 hp0mem)
      · rw [getBox_append_lt s.heap _ p0 hp0len]
      · intro c hc
        rw [getBox_append_lt s.heap _ c hc]
    have hgpi : getParentForInline { heap := s.heap ++ [({ node := some nid, isInline := disp.isInlineLevel, children := [] } : LBox)], stack := s.stack } =
        some ({ heap := s.heap ++ [({ node := some nid, isInline := disp.isInlineLevel, children := [] } : LBox)], stack := s.stack }, p0) := by
      refine gpi_direct _ p0 (pre2 ++ suf) ?_ hcai1
      rw [hstack, hpre]
      rfl
    unfold buildNode at hb
    rw [if_neg (by rw [hnone]; exact Bool.noConfusion)] at hb
    dsimp only at hb
    rw [if_pos hinl, hgpi] at hb
    dsimp only at hb
    cases hforest : buildForest { heap := appendChild (s.heap ++ [({ node := some nid, isInline := disp.isInlineLevel, children := [] } : LBox)]) p0 s.heap.length, stack := s.heap.length :: s.stack } kids with
    | none => rw [hforest] at hb; exact Option.noConfusion hb
    | some s5 =>
      rw [hforest] at hb
      cases hb
      have hp0a : p0 < (s.heap ++ [({ node := some nid, isInline := disp.isInlineLevel, children := [] } : LBox)]).length := by
        rw [List.length_append, List.length_singleton]
        exact Nat.lt_succ_of_lt hp0len
      have hHP : HPres s.heap.length
          (({ node := some nid, isInline := disp.isInlineLevel, children := [] } : LBox).node.toList ++ [])
          s.heap (appendChild (s.heap ++ [({ node := some nid, isInline := disp.isInlineLevel, children := [] } : LBox)]) p0 s.heap.length) :=
        (HPres.alloc s.heap.length s.heap _ (Nat.le_refl _)).comp
          (HPres.append_child s.heap.length _ p0 s.heap.length (Nat.le_refl _))
      have hlenne : s.heap.length ≠ p0 := fun he => absurd hp0len (by rw [← he]; exact Nat.lt_irrefl _)
      have hpreb4 : ∀ j, j ∈ s.heap.length :: pre →
          j < (appendChild (s.heap ++ [({ node := some nid, isInline := disp.isInlineLevel, children := [] } : LBox)]) p0 s.heap.length).length := by
        intro j hj
        rw [length_appendChild, List.length_append, List.length_singleton]
        rcases List.mem_cons.mp hj with hj1 | hj2
        · rw [hj1]
          omega
        · have := hpreb j hj2
          omega
      have hcai4 : ∀ j, j ∈ s.heap.length :: pre →
          childrenAreInline (appendChild (s.heap ++ [({ node := some nid, isInline := disp.isInlineLevel, children := [] } : LBox)]) p0 s.heap.length) j = true := by
        intro j hj
        rcases List.mem_cons.mp hj with hj1 | hj2
        · rw [hj1]
          unfold childrenAreInline
          rw [getBox_appendChild_ne _ p0 _ _ hlenne, getBox_append_self]
          rfl
        · by_cases hjp : j = p0
          · subst hjp
            unfold childrenAreInline
            rw [getBox_appendChild_self _ j s.heap.length hp0a, getBox_append_lt s.heap _ j hp0len]
            dsimp only
            refine List.all_eq_true.mpr ?_
            intro c hc
            rcases List.mem_append.mp hc with hin | hs
            · have hcj := hcai j hj2
              unfold childrenAreInline at hcj
              have hct := List.all_eq_true.mp hcj c hin
              have hcb : c < s.heap.length := flag_true_bound s.heap c hct
              rw [hHP.inline_eq c hcb]
              exact hct
            · rw [List.mem_singleton.mp hs]
              rw [getBox_appendChild_ne _ j _ _ hlenne, getBox_append_self]
              exact hinl
          · refine cAI_transport s.heap _ j ?_ ?_ (hcai j hj2)
            · rw [getBox_appendChild_ne _ p0 _ j hjp, getBox_append_lt s.heap _ j (hpreb j hj2)]
            · intro c hc
              exact hHP.inline_eq c hc
      have hstack4 : ({ heap := appendChild (s.heap ++ [({ node := some nid, isInline := disp.isInlineLevel, children := [] } : LBox)]) p0 s.heap.length, stack := s.heap.length :: s.stack } : BState).stack = (s.heap.length :: pre) ++ suf := by
        dsimp only
        rw [hstack]
        rfl
      have hrec := buildForest_pure_frame kids (s.heap.length :: pre) suf
        ({ heap := appendChild (s.heap ++ [({ node := some nid, isInline := disp.isInlineLevel, children := [] } : LBox)]) p0 s.heap.length, stack := s.heap.length :: s.stack } : BState)
        s5 hforest hkp hstack4 (List.cons_ne_nil _ _) hpreb4 hcai4
      constructor
      · intro k hk hknp
        have hkb : k ≠ s.heap.length := Nat.ne_of_lt hk
        have hknp4 : k ∉ s.heap.length :: pre := by
          intro hm
          rcases List.mem_cons.mp hm with h1 | h2
          · exact hkb h1
          · exact hknp h2
        have e1 : getBox s5.heap k =
            getBox (appendChild (s.heap ++ [({ node := some nid, isInline := disp.isInlineLevel, children := [] } : LBox)]) p0 s.heap.length) k :=
          hrec.1 k (by rw [length_appendChild, List.length_append, List.length_singleton]; omega) hknp4
        have hkp0 : k ≠ p0 := fun he => hknp (he ▸ hp0mem)
        have e2 : getBox (appendChild (s.heap ++ [({ node := some nid, isInline := disp.isInlineLevel, children := [] } : LBox)]) p0 s.heap.length) k =
            getBox (s.heap ++ [({ node := some nid, isInline := disp.isInlineLevel, children := [] } : LBox)]) k :=
          getBox_appendChild_ne _ p0 _ k hkp0
        have e3 : getBox (s.heap ++ [({ node := some nid, isInline := disp.isInlineLevel, children := [] } : LBox)]) k = getBox s.heap k :=
          getBox_append_lt s.heap _ k hk
        dsimp only
        rw [e1, e2, e3]
      · intro j hj
        exact hrec.2 j (List.mem_cons_of_mem _ hj)

theorem buildForest_pure_frame (f : DForest) : ∀ (pre suf : List Nat) (s s' : BState),
    buildForest s f = some s' → inlinePureForest f = true →
    s.stack = pre ++ suf → pre ≠ [] →
    (∀ j, j ∈ pre → j < s.heap.length) →
    (∀ j, j ∈ pre → childrenAreInline s.heap j = true) →
    (∀ k, k < s.heap.length → k ∉ pre → getBox s'.heap k = getBox s.heap k) ∧
    (∀ j, j ∈ pre → childrenAreInline s'.heap j = true) := by
  cases f with
  | nil =>
    intro pre suf s s' hb _ _ _ _ hcai
    unfold buildForest at hb
    cases hb
    exact ⟨fun k _ _ => rfl, hcai⟩
  | cons hd tl =>
    intro pre suf s s' hb hpure hstack hprene hpreb hcai
    have hpure2 : ((hd.disp.isNoneDisplay || inlinePure hd) && inlinePureForest tl) = true := hpure
    simp only [Bool.and_eq_true, Bool.or_eq_true] at hpure2
    obtain ⟨hhd, htl⟩ := hpure2
    unfold buildForest at hb
    cases hh : buildNode s hd with
    | none => rw [hh] at hb; exact Option.noConfusion hb
    | some s1 =>
      rw [hh] at hb
      have hnode : (∀ k, k < s.heap.length → k ∉ pre → getBox s1.heap k = getBox s.heap k) ∧
          (∀ j, j ∈ pre → childrenAreInline s1.heap j = true) := by
        rcases hhd with hnd | hpn
        · have hseq := buildNode_none_eq hd s s1 hnd hh
          subst hseq
          exact ⟨fun k _ _ => rfl, hcai⟩
        · exact buildNode_pure_frame hd pre suf s s1 hh hpn hstack hprene hpreb hcai
      have hpres := buildNode_pres hd s s1 hh
      have hstack1 : s1.stack = pre ++ suf := by rw [hpres.1, hstack]
      have hpreb1 : ∀ j, j ∈ pre → j < s1.heap.length :=
        fun j hj => Nat.lt_of_lt_of_le (hpreb j hj) hpres.2.len_le
      have h2 := buildForest_pure_frame tl pre suf s1 s' hb htl hstack1 hprene hpreb1 hnode.2
      refine ⟨?_, h2.2⟩
      intro k hk hknp
      rw [h2.1 k (Nat.lt_of_lt_of_le hk hpres.2.len_le) hknp, hnode.1 k hk hknp]
end

/-!  Evaluation of the block parent search when the container is alone on the
stack, in both the plain and the child transferring situation. -/

theorem gpb_at0_plain (s : BState) (hstack : s.stack = [0])
    (hinl : (getBox s.heap 0).isInline = false)
    (hcond : (!(getBox s.heap 0).children.isEmpty && childrenAreInline s.heap 0) = false) :
    getParentForBlock s = some (s, 0) := by
  unfold getParentForBlock
  rw [hstack]
  have hfind : List.find? (fun i => !(getBox s.heap i).isInline && canHaveChildren s.heap i) [0] = some 0 := by
    refine List.find?_cons_of_pos _ ?_
    show (!(getBox s.heap 0).isInline && canHaveChildren s.heap 0) = true
    rw [hinl]
    rfl
  rw [hfind]
  dsimp only
  rw [if_neg (by rw [hcond]; exact Bool.noConfusion)]

theorem gpb_at0_transfer (s : BState) (hstack : s.stack = [0])
    (hinl : (getBox s.heap 0).isInline = false)
    (hne : (getBox s.heap 0).children.isEmpty = false)
    (hcai : childrenAreInline s.heap 0 = true) :
    getParentForBlock s = some (⟨(s.heap ++ [({ node := none, isInline := false, children := (getBox s.heap 0).children } : LBox)]).set 0 { getBox (s.heap ++ [({ node := none, isInline := false, children := (getBox s.heap 0).children } : LBox)]) 0 with children := [s.heap.length] }, s.stack⟩, 0) := by
  unfold getParentForBlock
  rw [hstack]
  have hfind : List.find? (fun i => !(getBox s.heap i).isInline && canHaveChildren s.heap i) [0] = some 0 := by
    refine List.find?_cons_of_pos _ ?_
    show (!(getBox s.heap 0).isInline && canHaveChildren s.heap 0) = true
    rw [hinl]
    rfl
  rw [hfind]
  dsimp only
  rw [if_pos (by rw [hne, hcai]; rfl)]

/-- The shape readout of one direct child depends only on its node, its
children, and the nodes of those children. -/
theorem readChild_congr (h h2 : List LBox) (c : Nat)
    (hnode : (getBox h2 c).node = (getBox h c).node)
    (hkids : (getBox h2 c).children = (getBox h c).children)
    (hnodes : ∀ d, d ∈ (getBox h c).children → (getBox h2 d).node = (getBox h d).node) :
    readChild h2 c = readChild h c := by
  unfold readChild
  rw [hnode, hkids]
  cases hn : (getBox h c).node with
  | some nid => rfl
  | none =>
    dsimp only
    congr 1
    exact List.map_congr_left (fun d hd => by rw [hnodes d hd])

/-!  The per child step of the container invariant.  One lemma per situation:
inline child while all previous children were inline, inline child reusing or
creating a trailing anonymous block, block child with and without transfer. -/

theorem c1_step_inline_A (s : BState) (done : List (Nat × Bool)) (nid : Nat)
    (disp : Display) (kids : DForest)
    (hdisp : disp.isInlineLevel = true)
    (hkidsp : inlinePureForest kids = true)
    (hstack : s.stack = [0])
    (hlen : 1 ≤ s.heap.length)
    (hclosed : heapClosed s.heap)
    (hinl0 : (getBox s.heap 0).isInline = false)
    (hpos : ∀ c, c ∈ (getBox s.heap 0).children → 0 < c)
    (hnd : (getBox s.heap 0).children.Nodup)
    (hA1 : ∀ e, e ∈ done → e.2 = true)
    (hA2 : (getBox s.heap 0).children.map (fun c => (getBox s.heap c).node) =
      done.map (fun e => some e.1))
    (hA3 : ∀ c, c ∈ (getBox s.heap 0).children → (getBox s.heap c).isInline = true) :
    ∃ s', buildNode s (.mk nid disp kids) = some s' ∧ s'.stack = [0] ∧
      containerInv s'.heap (done ++ [(nid, true)]) := by
  have hnone : disp.isNoneDisplay = false := isInlineLevel_not_none disp hdisp
  have hlen0 : 0 < s.heap.length := hlen
  have hlenne0 : s.heap.length ≠ 0 := by omega
  have hcb : ∀ c, c ∈ (getBox s.heap 0).children → c < s.heap.length :=
    fun c hc => hclosed 0 hlen0 c hc
  have h1len : (s.heap ++ [({ node := some nid, isInline := disp.isInlineLevel, children := [] } : LBox)]).length = s.heap.length + 1 := by
    rw [List.length_append, List.length_singleton]
  have h0lt1 : 0 < (s.heap ++ [({ node := some nid, isInline := disp.isInlineLevel, children := [] } : LBox)]).length := by
    rw [h1len]
    omega
  have hg1at0 : getBox (s.heap ++ [({ node := some nid, isInline := disp.isInlineLevel, children := [] } : LBox)]) 0 = getBox s.heap 0 :=
    getBox_append_lt _ _ 0 hlen0
  have hcai1 : childrenAreInline (s.heap ++ [({ node := some nid, isInline := disp.isInlineLevel, children := [] } : LBox)]) 0 = true := by
    refine cAI_transport s.heap _ 0 (by rw [hg1at0]) ?_ ?_
    · intro c hc
      rw [getBox_append_lt s.heap _ c hc]
    · unfold childrenAreInline
      exact List.all_eq_true.mpr (fun c hc => hA3 c hc)
  have hgpi : getParentForInline { heap := s.heap ++ [({ node := some nid, isInline := disp.isInlineLevel, children := [] } : LBox)], stack := s.stack } =
      some ({ heap := s.heap ++ [({ node := some nid, isInline := disp.isInlineLevel, children := [] } : LBox)], stack := s.stack }, 0) := by
    refine gpi_direct _ 0 [] ?_ hcai1
    dsimp only
    rw [hstack]
  have h2len : (appendChild (s.heap ++ [({ node := some nid, isInline := disp.isInlineLevel, children := [] } : LBox)]) 0 s.heap.length).length = s.heap.length + 1 := by
    rw [length_appendChild, h1len]
  have hg2at0 : getBox (appendChild (s.heap ++ [({ node := some nid, isInline := disp.isInlineLevel, children := [] } : LBox)]) 0 s.heap.length) 0 =
      { getBox s.heap 0 with children := (getBox s.heap 0).children ++ [s.heap.length] } := by
    rw [getBox_appendChild_self _ 0 _ h0lt1, hg1at0]
  have hg2len : getBox (appendChild (s.heap ++ [({ node := some nid, isInline := disp.isInlineLevel, children := [] } : LBox)]) 0 s.heap.length) s.heap.length =
      ({ node := some nid, isInline := disp.isInlineLevel, children := [] } : LBox) := by
    rw [getBox_appendChild_ne _ 0 _ _ hlenne0, getBox_append_self]
  obtain ⟨s5, hforest⟩ := buildForest_total kids
    { heap := appendChild (s.heap ++ [({ node := some nid, isInline := disp.isInlineLevel, children := [] } : LBox)]) 0 s.heap.length, stack := s.heap.length :: s.stack }
    (by
      intro j hj
      dsimp only at hj ⊢
      rw [h2len]
      rw [hstack] at hj
      rcases List.mem_cons.mp hj with h1 | h2
      · omega
      · rw [List.mem_singleton.mp h2]
        omega)
    (by
      refine ⟨0, ?_, ?_⟩
      · dsimp only
        rw [hstack]
        exact List.mem_cons_of_mem _ (List.mem_singleton.mpr rfl)
      · dsimp only
        rw [hg2at0]
        exact hinl0)
  have hpres := buildForest_pres kids _ s5 hforest
  have hfr := buildForest_pure_frame kids [s.heap.length] s.stack
    { heap := appendChild (s.heap ++ [({ node := some nid, isInline := disp.isInlineLevel, children := [] } : LBox)]) 0 s.heap.length, stack := s.heap.length :: s.stack }
    s5 hforest hkidsp (by dsimp only; rfl) (List.cons_ne_nil _ _)
    (by
      intro j hj
      dsimp only
      rw [h2len, List.mem_singleton.mp hj]
      omega)
    (by
      intro j hj
      rw [List.mem_singleton.mp hj]
      unfold childrenAreInline
      rw [hg2len]
      rfl)
  have hclosed5 : heapClosed s5.heap :=
    buildForest_closed kids _ s5 hforest
      (heapClosed_appendChild _ 0 s.heap.length
        (heapClosed_append s.heap _ hclosed (fun c hcc => absurd hcc (List.not_mem_nil c)))
        (by rw [h1len]; omega))
  have h0notin : (0 : Nat) ∉ [s.heap.length] := by
    intro hm
    exact hlenne0 (List.mem_singleton.mp hm).symm
  have hbox05 : getBox s5.heap 0 =
      { getBox s.heap 0 with children := (getBox s.heap 0).children ++ [s.heap.length] } := by
    rw [hfr.1 0 (by dsimp only; rw [h2len]; omega) h0notin]
    exact hg2at0
  have hcstable : ∀ c, c ∈ (getBox s.heap 0).children → getBox s5.heap c = getBox s.heap c := by
    intro c hc
    have hclt : c < s.heap.length := hcb c hc
    have hc0 : 0 < c := hpos c hc
    have hcne : c ∉ [s.heap.length] := by
      intro hm
      rw [List.mem_singleton.mp hm] at hclt
      exact Nat.lt_irrefl _ hclt
    rw [hfr.1 c (by dsimp only; rw [h2len]; omega) hcne,
      getBox_appendChild_ne _ 0 _ c (by omega : c ≠ 0),
      getBox_append_lt s.heap _ c hclt]
  have hlenlt2 : s.heap.length < (appendChild (s.heap ++ [({ node := some nid, isInline := disp.isInlineLevel, children := [] } : LBox)]) 0 s.heap.length).length := by
    rw [h2len]
    omega
  have hnode5len : (getBox s5.heap s.heap.length).node = some nid := by
    rw [hpres.2.node_eq s.heap.length hlenlt2, hg2len]
  have hflag5len : (getBox s5.heap s.heap.length).isInline = true := by
    rw [hpres.2.inline_eq s.heap.length hlenlt2, hg2len]
    exact hdisp
  refine ⟨⟨s5.heap, s5.stack.tail⟩, ?_, ?_, ?_⟩
  · unfold buildNode
    dsimp only
    rw [if_neg (by rw [hnone]; exact Bool.noConfusion)]
    try dsimp only
    rw [if_pos hdisp, hgpi]
    try dsimp only
    rw [hforest]
  · dsimp only
    rw [hpres.1]
    exact hstack
  · have hle5 := hpres.2.len_le
    rw [h2len] at hle5
    refine ⟨by dsimp only; omega, hclosed5, ?_, ?_, ?_, Or.inl ⟨?_, ?_, ?_⟩⟩
    · dsimp only
      rw [hbox05]
      exact hinl0
    · intro c hc
      dsimp only at hc
      rw [hbox05] at hc
      dsimp only at hc
      rcases List.mem_append.mp hc with h1 | h2
      · exact hpos c h1
      · rw [List.mem_singleton.mp h2]
        omega
    · dsimp only
      rw [hbox05]
      dsimp only
      rw [← List.concat_eq_append]
      exact List.Nodup.concat (fun hm => absurd (hcb _ hm) (Nat.lt_irrefl _)) hnd
    · intro e he
      rcases List.mem_append.mp he with h1 | h2
      · exact hA1 e h1
      · rw [List.mem_singleton.mp h2]
    · dsimp only
      rw [hbox05]
      dsimp only
      rw [List.map_append, List.map_append]
      congr 1
      · rw [List.map_congr_left (fun c hc => by rw [hcstable c hc])]
        exact hA2
      · show [(getBox s5.heap s.heap.length).node] = [some nid]
        rw [hnode5len]
    · intro c hc
      dsimp only at hc
      rw [hbox05] at hc
      dsimp only at hc
      rcases List.mem_append.mp hc with h1 | h2
      · rw [hcstable c h1]
        exact hA3 c h1
      · rw [List.mem_singleton.mp h2]
        exact hflag5len

/-- Walking the subtree of a freshly attached block level child box leaves
every other existing box untouched and keeps the child box node and level. -/
theorem c1_subtree_block (s4heap : List LBox) (tailstack : List Nat) (kids : DForest) (boxId : Nat)
    (hId : boxId < s4heap.length)
    (hflag : (getBox s4heap boxId).isInline = false)
    (hkids0 : (getBox s4heap boxId).children = [])
    (htail : ∀ j, j ∈ tailstack → j < s4heap.length)
    (hclosed4 : heapClosed s4heap) :
    ∃ s5, buildForest ⟨s4heap, boxId :: tailstack⟩ kids = some s5 ∧
      s5.stack = boxId :: tailstack ∧ heapClosed s5.heap ∧
      s4heap.length ≤ s5.heap.length ∧
      (∀ k, k < s4heap.length → k ≠ boxId → getBox s5.heap k = getBox s4heap k) ∧
      (getBox s5.heap boxId).node = (getBox s4heap boxId).node ∧
      (getBox s5.heap boxId).isInline = false := by
  obtain ⟨s5, hforest⟩ := buildForest_total kids ⟨s4heap, boxId :: tailstack⟩
    (by
      intro j hj
      dsimp only at hj ⊢
      rcases List.mem_cons.mp hj with h1 | h2
      · rw [h1]
        exact hId
      · exact htail j h2)
    ⟨boxId, List.mem_cons_self _ _, hflag⟩
  have hpres := buildForest_pres kids _ s5 hforest
  have hfr := buildForest_frame kids s4heap.length [boxId] tailstack _ s5 hforest
    (by dsimp only; rfl)
    (by intro j hj; rw [List.mem_singleton.mp hj]; exact hId)
    ⟨boxId, List.mem_singleton.mpr rfl, hflag⟩
    (by
      intro j hj c hc
      rw [List.mem_singleton.mp hj, hkids0] at hc
      exact absurd hc (List.not_mem_nil c))
    (Nat.le_refl _)
  refine ⟨s5, hforest, hpres.1, buildForest_closed kids _ s5 hforest hclosed4,
    hpres.2.len_le, ?_, hpres.2.node_eq boxId hId, ?_⟩
  · intro k hk hkne
    refine hfr.1 k hk ?_
    intro hm
    exact hkne (List.mem_singleton.mp hm)
  · rw [hpres.2.inline_eq boxId hId]
    exact hflag

/-- Walking the inline pure subtree of a freshly attached inline child box
leaves every other existing box untouched and keeps the child box node and
level. -/
theorem c1_subtree_inline (s4heap : List LBox) (tailstack : List Nat) (kids : DForest) (boxId : Nat)
    (hId : boxId < s4heap.length)
    (hkids0 : (getBox s4heap boxId).children = [])
    (hkp : inlinePureForest kids = true)
    (htail : ∀ j, j ∈ tailstack → j < s4heap.length)
    (hblock : ∃ j, j ∈ tailstack ∧ (getBox s4heap j).isInline = false)
    (hclosed4 : heapClosed s4heap) :
    ∃ s5, buildForest ⟨s4heap, boxId :: tailstack⟩ kids = some s5 ∧
      s5.stack = boxId :: tailstack ∧ heapClosed s5.heap ∧
      s4heap.length ≤ s5.heap.length ∧
      (∀ k, k < s4heap.length → k ≠ boxId → getBox s5.heap k = getBox s4heap k) ∧
      (getBox s5.heap boxId).node = (getBox s4heap boxId).node ∧
      (getBox s5.heap boxId).isInline = (getBox s4heap boxId).isInline := by
  obtain ⟨s5, hforest⟩ := buildForest_total kids ⟨s4heap, boxId :: tailstack⟩
    (by
      intro j hj
      dsimp only at hj ⊢
      rcases List.mem_cons.mp hj with h1 | h2
      · rw [h1]
        exact hId
      · exact htail j h2)
    (by
      obtain ⟨j, hj, hjf⟩ := hblock
      exact ⟨j, List.mem_cons_of_mem _ hj, hjf⟩)
  have hpres := buildForest_pres kids _ s5 hforest
  have hfr := buildForest_pure_frame kids [boxId] tailstack _ s5 hforest hkp
    (by dsimp only; rfl) (List.cons_ne_nil _ _)
    (by intro j hj; rw [List.mem_singleton.mp hj]; exact hId)
    (by
      intro j hj
      rw [List.mem_singleton.mp hj]
      unfold childrenAreInline
      rw [hkids0]
      rfl)
  refine ⟨s5, hforest, hpres.1, buildForest_closed kids _ s5 hforest hclosed4,
    hpres.2.len_le, ?_, hpres.2.node_eq boxId hId, hpres.2.inline_eq boxId hId⟩
  intro k hk hkne
  refine hfr.1 k hk ?_
  intro hm
  exact hkne (List.mem_singleton.mp hm)

theorem heapClosed_set_box (h : List LBox) (p : Nat) (b : LBox)
    (hc : heapClosed h) (hb : ∀ c, c ∈ b.children → c < h.length) :
    heapClosed (h.set p b) := by
  intro k hk d hd
  rw [List.length_set] at hk ⊢
  by_cases hkp : k = p
  · subst hkp
    rw [getBox_set_self h k b hk] at hd
    exact hb d hd
  · rw [getBox_set_ne h p b k hkp] at hd
    exact hc k hk d hd

theorem c1_step_block_A (s : BState) (done : List (Nat × Bool)) (nid : Nat)
    (disp : Display) (kids : DForest)
    (hdisp : disp.isInlineLevel = false)
    (hnone : disp.isNoneDisplay = false)
    (hstack : s.stack = [0])
    (hlen : 1 ≤ s.heap.length)
    (hclosed : heapClosed s.heap)
    (hinl0 : (getBox s.heap 0).isInline = false)
    (hpos : ∀ c, c ∈ (getBox s.heap 0).children → 0 < c)
    (hnd : (getBox s.heap 0).children.Nodup)
    (hA1 : ∀ e, e ∈ done → e.2 = true)
    (hA2 : (getBox s.heap 0).children.map (fun c => (getBox s.heap c).node) =
      done.map (fun e => some e.1))
    (hA3 : ∀ c, c ∈ (getBox s.heap 0).children → (getBox s.heap c).isInline = true) :
    ∃ s', buildNode s (.mk nid disp kids) = some s' ∧ s'.stack = [0] ∧
      containerInv s'.heap (done ++ [(nid, false)]) := by
  have hlen0 : 0 < s.heap.length := hlen
  have hlz : s.heap.length ≠ 0 := by omega
  have hcb : ∀ c, c ∈ (getBox s.heap 0).children → c < s.heap.length :=
    fun c hc => hclosed 0 hlen0 c hc
  have h1len : (s.heap ++ [({ node := some nid, isInline := disp.isInlineLevel, children := [] } : LBox)]).length = s.heap.length + 1 := by
    rw [List.length_append, List.length_singleton]
  have hg1at0 : getBox (s.heap ++ [({ node := some nid, isInline := disp.isInlineLevel, children := [] } : LBox)]) 0 = getBox s.heap 0 :=
    getBox_append_lt _ _ 0 hlen0
  by_cases hcse : (getBox s.heap 0).children = []
  · -- no transfer: the container is still empty
    have hdone : done = [] := by
      rw [hcse] at hA2
      rcases done with _ | ⟨e, rest⟩
      · rfl
      · exact absurd hA2.symm (by simp)
    have hgpb : getParentForBlock ⟨s.heap ++ [({ node := some nid, isInline := disp.isInlineLevel, children := [] } : LBox)], s.stack⟩ =
        some (⟨s.heap ++ [({ node := some nid, isInline := disp.isInlineLevel, children := [] } : LBox)], s.stack⟩, 0) := by
      refine gpb_at0_plain _ hstack (by rw [hg1at0]; exact hinl0) ?_
      rw [hg1at0, hcse]
      rfl
    have h0lt1 : 0 < (s.heap ++ [({ node := some nid, isInline := disp.isInlineLevel, children := [] } : LBox)]).length := by
      rw [h1len]
      omega
    have h2len : (appendChild (s.heap ++ [({ node := some nid, isInline := disp.isInlineLevel, children := [] } : LBox)]) 0 s.heap.length).length = s.heap.length + 1 := by
      rw [length_appendChild, h1len]
    have hg2at0 : getBox (appendChild (s.heap ++ [({ node := some nid, isInline := disp.isInlineLevel, children := [] } : LBox)]) 0 s.heap.length) 0 =
        { getBox s.heap 0 with children := (getBox s.heap 0).children ++ [s.heap.length] } := by
      rw [getBox_appendChild_self _ 0 _ h0lt1, hg1at0]
    have hg2len : getBox (appendChild (s.heap ++ [({ node := some nid, isInline := disp.isInlineLevel, children := [] } : LBox)]) 0 s.heap.length) s.heap.length =
        ({ node := some nid, isInline := disp.isInlineLevel, children := [] } : LBox) := by
      rw [getBox_appendChild_ne _ 0 _ _ hlz, getBox_append_self]
    have hclosed4 : heapClosed (appendChild (s.heap ++ [({ node := some nid, isInline := disp.isInlineLevel, children := [] } : LBox)]) 0 s.heap.length) :=
      heapClosed_appendChild _ 0 s.heap.length
        (heapClosed_append s.heap _ hclosed (fun c hcc => absurd hcc (List.not_mem_nil c)))
        (by rw [h1len]; omega)
    obtain ⟨s5, hforest, hstk5, hclosed5, hlen5, hfr5, hnode5, hflag5⟩ :=
      c1_subtree_block (appendChild (s.heap ++ [({ node := some nid, isInline := disp.isInlineLevel, children := [] } : LBox)]) 0 s.heap.length) s.stack kids s.heap.length
        (by rw [h2len]; omega)
        (by rw [hg2len]; exact hdisp)
        (by rw [hg2len])
        (by
          intro j hj
          rw [hstack] at hj
          rw [List.mem_singleton.mp hj, h2len]
          omega)
        hclosed4
    have hbox05 : getBox s5.heap 0 =
        { getBox s.heap 0 with children := (getBox s.heap 0).children ++ [s.heap.length] } := by
      rw [hfr5 0 (by rw [h2len]; omega) (by omega), hg2at0]
    have hn5len : (getBox s5.heap s.heap.length).node = some nid := by
      rw [hnode5, hg2len]
    refine ⟨⟨s5.heap, s5.stack.tail⟩, ?_, ?_, ?_⟩
    · unfold buildNode
      dsimp only
      rw [if_neg (by rw [hnone]; exact Bool.noConfusion)]
      try dsimp only
      rw [if_neg (by rw [hdisp]; exact Bool.noConfusion), hgpb]
      try dsimp only
      rw [hforest]
    · dsimp only
      rw [hstk5]
      exact hstack
    · have hle5 := hlen5
      rw [h2len] at hle5
      refine ⟨by dsimp only; omega, hclosed5, ?_, ?_, ?_, Or.inr ⟨?_, ?_, ?_, ?_⟩⟩
      · dsimp only
        rw [hbox05]
        exact hinl0
      · intro c hc
        dsimp only at hc
        rw [hbox05] at hc
        dsimp only at hc
        rcases List.mem_append.mp hc with h1 | h2
        · exact hpos c h1
        · rw [List.mem_singleton.mp h2]
          omega
      · dsimp only
        rw [hbox05]
        dsimp only
        rw [← List.concat_eq_append]
        exact List.Nodup.concat (fun hm => absurd (hcb _ hm) (Nat.lt_irrefl _)) hnd
      · exact ⟨(nid, false), List.mem_append_right _ (List.mem_singleton.mpr rfl), rfl⟩
      · unfold readChildren
        rw [hbox05]
        dsimp only
        rw [hcse, hdone]
        show [readChild s5.heap s.heap.length] = groupRuns ([] ++ [(nid, false)])
        rw [groupRuns_snoc_block]
        unfold readChild
        rw [hn5len]
        rfl
      · intro c hc
        dsimp only at hc
        rw [hbox05] at hc
        dsimp only at hc
        rw [hcse] at hc
        rcases List.mem_append.mp hc with h1 | h2
        · exact absurd h1 (List.not_mem_nil c)
        · rw [List.mem_singleton.mp h2]
          exact hflag5
      · rw [hbox05]
        dsimp only
        rw [List.getLast?_concat]
        dsimp only
        have hanonf : (getBox s5.heap s.heap.length).isAnon = false := by
          unfold LBox.isAnon
          rw [hn5len]
          rfl
        rw [hanonf, Bool.false_and, hdone, groupRuns_snoc_block, endsAnon_concat_block]
  · -- transfer: the leading inline run is wrapped before the block child lands
    have hempty : (getBox s.heap 0).children.isEmpty = false := by
      cases hcc : (getBox s.heap 0).children with
      | nil => exact absurd hcc hcse
      | cons a t => rfl
    have hcai1 : childrenAreInline (s.heap ++ [({ node := some nid, isInline := disp.isInlineLevel, children := [] } : LBox)]) 0 = true := by
      refine cAI_transport s.heap _ 0 (by rw [hg1at0]) ?_ ?_
      · intro c hc
        rw [getBox_append_lt s.heap _ c hc]
      · unfold childrenAreInline
        exact List.all_eq_true.mpr (fun c hc => hA3 c hc)
    have hgpb : getParentForBlock ⟨s.heap ++ [({ node := some nid, isInline := disp.isInlineLevel, children := [] } : LBox)], s.stack⟩ =
        some (⟨((s.heap ++ [({ node := some nid, isInline := disp.isInlineLevel, children := [] } : LBox)]) ++ [({ node := none, isInline := false, children := (getBox (s.heap ++ [({ node := some nid, isInline := disp.isInlineLevel, children := [] } : LBox)]) 0).children } : LBox)]).set 0 { getBox ((s.heap ++ [({ node := some nid, isInline := disp.isInlineLevel, children := [] } : LBox)]) ++ [({ node := none, isInline := false, children := (getBox (s.heap ++ [({ node := some nid, isInline := disp.isInlineLevel, children := [] } : LBox)]) 0).children } : LBox)]) 0 with children := [(s.heap ++ [({ node := some nid, isInline := disp.isInlineLevel, children := [] } : LBox)]).length] }, s.stack⟩, 0) :=
      gpb_at0_transfer _ hstack (by rw [hg1at0]; exact hinl0) (by rw [hg1at0]; exact hempty) hcai1
    rw [hg1at0] at hgpb
    have hgB : getBox ((s.heap ++ [({ node := some nid, isInline := disp.isInlineLevel, children := [] } : LBox)]) ++ [({ node := none, isInline := false, children := (getBox s.heap 0).children } : LBox)]) 0 = getBox s.heap 0 := by
      rw [getBox_append_lt _ _ 0 (by rw [h1len]; omega), hg1at0]
    rw [hgB, h1len] at hgpb
    have h3len : (((s.heap ++ [({ node := some nid, isInline := disp.isInlineLevel, children := [] } : LBox)]) ++ [({ node := none, isInline := false, children := (getBox s.heap 0).children } : LBox)]).set 0 { getBox s.heap 0 with children := [s.heap.length + 1] }).length = s.heap.length + 2 := by
      rw [List.length_set, List.length_append, h1len, List.length_singleton]
    have h0lt3 : 0 < (((s.heap ++ [({ node := some nid, isInline := disp.isInlineLevel, children := [] } : LBox)]) ++ [({ node := none, isInline := false, children := (getBox s.heap 0).children } : LBox)]).set 0 { getBox s.heap 0 with children := [s.heap.length + 1] }).length := by
      rw [h3len]
      omega
    have h4len : (appendChild (((s.heap ++ [({ node := some nid, isInline := disp.isInlineLevel, children := [] } : LBox)]) ++ [({ node := none, isInline := false, children := (getBox s.heap 0).children } : LBox)]).set 0 { getBox s.heap 0 with children := [s.heap.length + 1] }) 0 s.heap.length).length = s.heap.length + 2 := by
      rw [length_appendChild, h3len]
    have hg30 : getBox (((s.heap ++ [({ node := some nid, isInline := disp.isInlineLevel, children := [] } : LBox)]) ++ [({ node := none, isInline := false, children := (getBox s.heap 0).children } : LBox)]).set 0 { getBox s.heap 0 with children := [s.heap.length + 1] }) 0 = { getBox s.heap 0 with children := [s.heap.length + 1] } :=
      getBox_set_self _ 0 _ (by rw [List.length_append, h1len, List.length_singleton]; omega)
    have hg40 : getBox (appendChild (((s.heap ++ [({ node := some nid, isInline := disp.isInlineLevel, children := [] } : LBox)]) ++ [({ node := none, isInline := false, children := (getBox s.heap 0).children } : LBox)]).set 0 { getBox s.heap 0 with children := [s.heap.length + 1] }) 0 s.heap.length) 0 = { getBox s.heap 0 with children := [s.heap.length + 1] ++ [s.heap.length] } := by
      rw [getBox_appendChild_self _ 0 _ h0lt3, hg30]
    have hone : s.heap.length + 1 ≠ 0 := by omega
    have hg4anon : getBox (appendChild (((s.heap ++ [({ node := some nid, isInline := disp.isInlineLevel, children := [] } : LBox)]) ++ [({ node := none, isInline := false, children := (getBox s.heap 0).children } : LBox)]).set 0 { getBox s.heap 0 with children := [s.heap.length + 1] }) 0 s.heap.length) (s.heap.length + 1) = ({ node := none, isInline := false, children := (getBox s.heap 0).children } : LBox) := by
      rw [getBox_appendChild_ne _ 0 _ _ hone, getBox_set_ne _ 0 _ _ hone]
      have hself := getBox_append_self (s.heap ++ [({ node := some nid, isInline := disp.isInlineLevel, children := [] } : LBox)]) ({ node := none, isInline := false, children := (getBox s.heap 0).children } : LBox)
      rw [h1len] at hself
      exact hself
    have hg4len : getBox (appendChild (((s.heap ++ [({ node := some nid, isInline := disp.isInlineLevel, children := [] } : LBox)]) ++ [({ node := none, isInline := false, children := (getBox s.heap 0).children } : LBox)]).set 0 { getBox s.heap 0 with children := [s.heap.length + 1] }) 0 s.heap.length) s.heap.length = ({ node := some nid, isInline := disp.isInlineLevel, children := [] } : LBox) := by
      rw [getBox_appendChild_ne _ 0 _ _ hlz, getBox_set_ne _ 0 _ _ hlz,
        getBox_append_lt _ _ _ (by rw [h1len]; omega)]
      exact getBox_append_self s.heap _
    have hg4c : ∀ c, c ∈ (getBox s.heap 0).children →
        getBox (appendChild (((s.heap ++ [({ node := some nid, isInline := disp.isInlineLevel, children := [] } : LBox)]) ++ [({ node := none, isInline := false, children := (getBox s.heap 0).children } : LBox)]).set 0 { getBox s.heap 0 with children := [s.heap.length + 1] }) 0 s.heap.length) c = getBox s.heap c := by
      intro c hc
      have hclt := hcb c hc
      have hc0 := hpos c hc
      rw [getBox_appendChild_ne _ 0 _ c (by omega), getBox_set_ne _ 0 _ c (by omega),
        getBox_append_lt _ _ c (by rw [h1len]; omega), getBox_append_lt s.heap _ c hclt]
    have hclosed4 : heapClosed (appendChild (((s.heap ++ [({ node := some nid, isInline := disp.isInlineLevel, children := [] } : LBox)]) ++ [({ node := none, isInline := false, children := (getBox s.heap 0).children } : LBox)]).set 0 { getBox s.heap 0 with children := [s.heap.length + 1] }) 0 s.heap.length) := by
      refine heapClosed_appendChild _ 0 s.heap.length ?_ (by rw [h3len]; omega)
      refine heapClosed_set_box _ 0 _ ?_ ?_
      · refine heapClosed_append _ _ (heapClosed_append s.heap _ hclosed (fun c hcc => absurd hcc (List.not_mem_nil c))) ?_
        intro c hcc
        have := hcb c hcc
        rw [h1len]
        omega
      · intro c hcc
        rw [List.mem_singleton.mp hcc, List.length_append, h1len, List.length_singleton]
        omega
    obtain ⟨s5, hforest, hstk5, hclosed5, hlen5, hfr5, hnode5, hflag5⟩ :=
      c1_subtree_block (appendChild (((s.heap ++ [({ node := some nid, isInline := disp.isInlineLevel, children := [] } : LBox)]) ++ [({ node := none, isInline := false, children := (getBox s.heap 0).children } : LBox)]).set 0 { getBox s.heap 0 with children := [s.heap.length + 1] }) 0 s.heap.length) s.stack kids s.heap.length
        (by rw [h4len]; omega)
        (by rw [hg4len]; exact hdisp)
        (by rw [hg4len])
        (by
          intro j hj
          rw [hstack] at hj
          rw [List.mem_singleton.mp hj, h4len]
          omega)
        hclosed4
    have hbox05 : getBox s5.heap 0 = { getBox s.heap 0 with children := [s.heap.length + 1] ++ [s.heap.length] } := by
      rw [hfr5 0 (by rw [h4len]; omega) (by omega), hg40]
    have hanon5 : getBox s5.heap (s.heap.length + 1) = ({ node := none, isInline := false, children := (getBox s.heap 0).children } : LBox) := by
      rw [hfr5 _ (by rw [h4len]; omega) (by omega), hg4anon]
    have hc5 : ∀ c, c ∈ (getBox s.heap 0).children → getBox s5.heap c = getBox s.heap c := by
      intro c hc
      have hclt := hcb c hc
      rw [hfr5 c (by rw [h4len]; omega) (by omega), hg4c c hc]
    have hn5len : (getBox s5.heap s.heap.length).node = some nid := by
      rw [hnode5, hg4len]
    have hdonene : done ≠ [] := by
      intro he
      rw [he] at hA2
      rw [List.map_nil] at hA2
      exact hcse (List.map_eq_nil_iff.mp hA2)
    have hmap : (getBox s.heap 0).children.map (fun c => ((getBox s.heap c).node).getD 0) = done.map Prod.fst := by
      have h := congrArg (List.map (fun o : Option Nat => o.getD 0)) hA2
      rw [List.map_map, List.map_map] at h
      exact h
    have hread : readChildren s5.heap 0 = [.anonRun (done.map Prod.fst), .blockChild nid] := by
      unfold readChildren
      rw [hbox05]
      dsimp only
      rw [List.map_append]
      show List.map (readChild s5.heap) [s.heap.length + 1] ++ List.map (readChild s5.heap) [s.heap.length] =
        [GChild.anonRun (done.map Prod.fst)] ++ [GChild.blockChild nid]
      congr 1
      · show [readChild s5.heap (s.heap.length + 1)] = [GChild.anonRun (done.map Prod.fst)]
        congr 1
        unfold readChild
        rw [hanon5]
        dsimp only
        rw [← hmap]
        congr 1
        refine List.map_congr_left ?_
        intro d hd
        rw [hc5 d hd]
      · show [readChild s5.heap s.heap.length] = [GChild.blockChild nid]
        congr 1
        unfold readChild
        rw [hn5len]
    have hgr : groupRuns (done ++ [(nid, false)]) = [.anonRun (done.map Prod.fst), .blockChild nid] := by
      rw [groupRuns_snoc_block, groupRuns_all_inline done hdonene hA1]
      rfl
    refine ⟨⟨s5.heap, s5.stack.tail⟩, ?_, ?_, ?_⟩
    · unfold buildNode
      dsimp only
      rw [if_neg (by rw [hnone]; exact Bool.noConfusion)]
      try dsimp only
      rw [if_neg (by rw [hdisp]; exact Bool.noConfusion), hgpb]
      try dsimp only
      rw [hforest]
    · dsimp only
      rw [hstk5]
      exact hstack
    · have hle5 := hlen5
      rw [h4len] at hle5
      refine ⟨by dsimp only; omega, hclosed5, ?_, ?_, ?_, Or.inr ⟨?_, ?_, ?_, ?_⟩⟩
      · dsimp only
        rw [hbox05]
        exact hinl0
      · intro c hc
        dsimp only at hc
        rw [hbox05] at hc
        dsimp only at hc
        rcases List.mem_append.mp hc with h1 | h2
        · rw [List.mem_singleton.mp h1]
          omega
        · rw [List.mem_singleton.mp h2]
          omega
      · dsimp only
        rw [hbox05]
        dsimp only
        refine List.nodup_cons.mpr ⟨?_, List.nodup_singleton _⟩
        intro hm
        have := List.mem_singleton.mp hm
        omega
      · exact ⟨(nid, false), List.mem_append_right _ (List.mem_singleton.mpr rfl), rfl⟩
      · dsimp only
        rw [hread, hgr]
      · intro c hc
        dsimp only at hc
        rw [hbox05] at hc
        dsimp only at hc
        rcases List.mem_append.mp hc with h1 | h2
        · rw [List.mem_singleton.mp h1, hanon5]
        · rw [List.mem_singleton.mp h2]
          exact hflag5
      · rw [hbox05]
        dsimp only
        rw [List.getLast?_concat]
        dsimp only
        have hanonf : (getBox s5.heap s.heap.length).isAnon = false := by
          unfold LBox.isAnon
          rw [hn5len]
          rfl
        rw [hanonf, Bool.false_and, groupRuns_snoc_block, endsAnon_concat_block]

theorem c1_step_block_B (s : BState) (done : List (Nat × Bool)) (nid : Nat)
    (disp : Display) (kids : DForest)
    (hdisp : disp.isInlineLevel = false)
    (hnone : disp.isNoneDisplay = false)
    (hstack : s.stack = [0])
    (hlen : 1 ≤ s.heap.length)
    (hclosed : heapClosed s.heap)
    (hinl0 : (getBox s.heap 0).isInline = false)
    (hpos : ∀ c, c ∈ (getBox s.heap 0).children → 0 < c)
    (hnd : (getBox s.heap 0).children.Nodup)
    (hB1 : ∃ e, e ∈ done ∧ e.2 = false)
    (hB2 : readChildren s.heap 0 = groupRuns done)
    (hB3 : ∀ c, c ∈ (getBox s.heap 0).children → (getBox s.heap c).isInline = false)
    (hcsne : (getBox s.heap 0).children ≠ []) :
    ∃ s', buildNode s (.mk nid disp kids) = some s' ∧ s'.stack = [0] ∧
      containerInv s'.heap (done ++ [(nid, false)]) := by
  have hlen0 : 0 < s.heap.length := hlen
  have hlz : s.heap.length ≠ 0 := by omega
  have hcb : ∀ c, c ∈ (getBox s.heap 0).children → c < s.heap.length :=
    fun c hc => hclosed 0 hlen0 c hc
  have h1len : (s.heap ++ [({ node := some nid, isInline := disp.isInlineLevel, children := [] } : LBox)]).length = s.heap.length + 1 := by
    rw [List.length_append, List.length_singleton]
  have hg1at0 : getBox (s.heap ++ [({ node := some nid, isInline := disp.isInlineLevel, children := [] } : LBox)]) 0 = getBox s.heap 0 :=
    getBox_append_lt _ _ 0 hlen0
  obtain ⟨c0, cs2, hcs⟩ : ∃ c0 cs2, (getBox s.heap 0).children = c0 :: cs2 := by
    cases hcc : (getBox s.heap 0).children with
    | nil => exact absurd hcc hcsne
    | cons a t => exact ⟨a, t, rfl⟩
  have hc0mem : c0 ∈ (getBox s.heap 0).children := by
    rw [hcs]
    exact List.mem_cons_self _ _
  have hcai1 : childrenAreInline (s.heap ++ [({ node := some nid, isInline := disp.isInlineLevel, children := [] } : LBox)]) 0 = false := by
    unfold childrenAreInline
    rw [hg1at0]
    refine all_false_of_mem _ _ c0 hc0mem ?_
    rw [getBox_append_lt s.heap _ c0 (hcb c0 hc0mem)]
    exact hB3 c0 hc0mem
  have hgpb : getParentForBlock ⟨s.heap ++ [({ node := some nid, isInline := disp.isInlineLevel, children := [] } : LBox)], s.stack⟩ =
      some (⟨s.heap ++ [({ node := some nid, isInline := disp.isInlineLevel, children := [] } : LBox)], s.stack⟩, 0) := by
    refine gpb_at0_plain _ hstack (by rw [hg1at0]; exact hinl0) ?_
    rw [hcai1, Bool.and_false]
  have h0lt1 : 0 < (s.heap ++ [({ node := some nid, isInline := disp.isInlineLevel, children := [] } : LBox)]).length := by
    rw [h1len]
    omega
  have h2len : (appendChild (s.heap ++ [({ node := some nid, isInline := disp.isInlineLevel, children := [] } : LBox)]) 0 s.heap.length).length = s.heap.length + 1 := by
    rw [length_appendChild, h1len]
  have hg2at0 : getBox (appendChild (s.heap ++ [({ node := some nid, isInline := disp.isInlineLevel, children := [] } : LBox)]) 0 s.heap.length) 0 =
      { getBox s.heap 0 with children := (getBox s.heap 0).children ++ [s.heap.length] } := by
    rw [getBox_appendChild_self _ 0 _ h0lt1, hg1at0]
  have hg2len : getBox (appendChild (s.heap ++ [({ node := some nid, isInline := disp.isInlineLevel, children := [] } : LBox)]) 0 s.heap.length) s.heap.length =
      ({ node := some nid, isInline := disp.isInlineLevel, children := [] } : LBox) := by
    rw [getBox_appendChild_ne _ 0 _ _ hlz, getBox_append_self]
  have hg2c : ∀ c, c < s.heap.length → c ≠ 0 →
      getBox (appendChild (s.heap ++ [({ node := some nid, isInline := disp.isInlineLevel, children := [] } : LBox)]) 0 s.heap.length) c = getBox s.heap c := by
    intro c hclt hc0
    rw [getBox_appendChild_ne _ 0 _ c hc0, getBox_append_lt s.heap _ c hclt]
  have hclosed4 : heapClosed (appendChild (s.heap ++ [({ node := some nid, isInline := disp.isInlineLevel, children := [] } : LBox)]) 0 s.heap.length) :=
    heapClosed_appendChild _ 0 s.heap.length
      (heapClosed_append s.heap _ hclosed (fun c hcc => absurd hcc (List.not_mem_nil c)))
      (by rw [h1len]; omega)
  obtain ⟨s5, hforest, hstk5, hclosed5, hlen5, hfr5, hnode5, hflag5⟩ :=
    c1_subtree_block (appendChild (s.heap ++ [({ node := some nid, isInline := disp.isInlineLevel, children := [] } : LBox)]) 0 s.heap.length) s.stack kids s.heap.length
      (by rw [h2len]; omega)
      (by rw [hg2len]; exact hdisp)
      (by rw [hg2len])
      (by
        intro j hj
        rw [hstack] at hj
        rw [List.mem_singleton.mp hj, h2len]
        omega)
      hclosed4
  have hbox05 : getBox s5.heap 0 =
      { getBox s.heap 0 with children := (getBox s.heap 0).children ++ [s.heap.length] } := by
    rw [hfr5 0 (by rw [h2len]; omega) (by omega), hg2at0]
  have hc5 : ∀ k, k < s.heap.length → k ≠ 0 → getBox s5.heap k = getBox s.heap k := by
    intro k hk hk0
    rw [hfr5 k (by rw [h2len]; omega) (by omega), hg2c k hk hk0]
  have hnode5all : ∀ k, k < s.heap.length → (getBox s5.heap k).node = (getBox s.heap k).node := by
    intro k hk
    by_cases hk0 : k = 0
    · subst hk0
      rw [hbox05]
    · rw [hc5 k hk hk0]
  have hn5len : (getBox s5.heap s.heap.length).node = some nid := by
    rw [hnode5, hg2len]
  have hrc : ∀ c, c ∈ (getBox s.heap 0).children → readChild s5.heap c = readChild s.heap c := by
    intro c hc
    have hclt := hcb c hc
    have hc0 := hpos c hc
    have hbc := hc5 c hclt (by omega)
    refine readChild_congr s.heap s5.heap c (by rw [hbc]) (by rw [hbc]) ?_
    intro d hd
    exact hnode5all d (hclosed c hclt d hd)
  have hread : readChildren s5.heap 0 = groupRuns done ++ [.blockChild nid] := by
    unfold readChildren
    rw [hbox05]
    dsimp only
    rw [List.map_append, ← hB2]
    unfold readChildren
    congr 1
    · exact List.map_congr_left (fun c hc => hrc c hc)
    · show [readChild s5.heap s.heap.length] = [GChild.blockChild nid]
      congr 1
      unfold readChild
      rw [hn5len]
  refine ⟨⟨s5.heap, s5.stack.tail⟩, ?_, ?_, ?_⟩
  · unfold buildNode
    dsimp only
    rw [if_neg (by rw [hnone]; exact Bool.noConfusion)]
    try dsimp only
    rw [if_neg (by rw [hdisp]; exact Bool.noConfusion), hgpb]
    try dsimp only
    rw [hforest]
  · dsimp only
    rw [hstk5]
    exact hstack
  · have hle5 := hlen5
    rw [h2len] at hle5
    refine ⟨by dsimp only; omega, hclosed5, ?_, ?_, ?_, Or.inr ⟨?_, ?_, ?_, ?_⟩⟩
    · dsimp only
      rw [hbox05]
      exact hinl0
    · intro c hc
      dsimp only at hc
      rw [hbox05] at hc
      dsimp only at hc
      rcases List.mem_append.mp hc with h1 | h2
      · exact hpos c h1
      · rw [List.mem_singleton.mp h2]
        omega
    · dsimp only
      rw [hbox05]
      dsimp only
      rw [← List.concat_eq_append]
      exact List.Nodup.concat (fun hm => absurd (hcb _ hm) (Nat.lt_irrefl _)) hnd
    · obtain ⟨e, he, hef⟩ := hB1
      exact ⟨e, List.mem_append_left _ he, hef⟩
    · dsimp only
      rw [hread, groupRuns_snoc_block]
    · intro c hc
      dsimp only at hc
      rw [hbox05] at hc
      dsimp only at hc
      rcases List.mem_append.mp hc with h1 | h2
      · have hclt := hcb c h1
        have hc0 := hpos c h1
        rw [hc5 c hclt (by omega)]
        exact hB3 c h1
      · rw [List.mem_singleton.mp h2]
        exact hflag5
    · rw [hbox05]
      dsimp only
      rw [List.getLast?_concat]
      dsimp only
      have hanonf : (getBox s5.heap s.heap.length).isAnon = false := by
        unfold LBox.isAnon
        rw [hn5len]
        rfl
      rw [hanonf, Bool.false_and, groupRuns_snoc_block, endsAnon_concat_block]

theorem c1_step_inline_B_reuse (s : BState) (done : List (Nat × Bool)) (nid : Nat)
    (disp : Display) (kids : DForest) (l : Nat)
    (hdisp : disp.isInlineLevel = true)
    (hkidsp : inlinePureForest kids = true)
    (hstack : s.stack = [0])
    (hlen : 1 ≤ s.heap.length)
    (hclosed : heapClosed s.heap)
    (hinl0 : (getBox s.heap 0).isInline = false)
    (hpos : ∀ c, c ∈ (getBox s.heap 0).children → 0 < c)
    (hnd : (getBox s.heap 0).children.Nodup)
    (hB1 : ∃ e, e ∈ done ∧ e.2 = false)
    (hB2 : readChildren s.heap 0 = groupRuns done)
    (hB3 : ∀ c, c ∈ (getBox s.heap 0).children → (getBox s.heap c).isInline = false)
    (hl : (getBox s.heap 0).children.getLast? = some l)
    (hanonl : (getBox s.heap l).isAnon = true)
    (hcail : childrenAreInline s.heap l = true)
    (hend : endsAnon (groupRuns done) = true) :
    ∃ s', buildNode s (.mk nid disp kids) = some s' ∧ s'.stack = [0] ∧
      containerInv s'.heap (done ++ [(nid, true)]) := by
  have hnone : disp.isNoneDisplay = false := isInlineLevel_not_none disp hdisp
  have hlen0 : 0 < s.heap.length := hlen
  have hcb : ∀ c, c ∈ (getBox s.heap 0).children → c < s.heap.length :=
    fun c hc => hclosed 0 hlen0 c hc
  have hlmem : l ∈ (getBox s.heap 0).children := mem_of_getLast?_eq _ _ hl
  have hllen : l < s.heap.length := hcb l hlmem
  have hl0 : 0 < l := hpos l hlmem
  have h1len : (s.heap ++ [({ node := some nid, isInline := disp.isInlineLevel, children := [] } : LBox)]).length = s.heap.length + 1 := by
    rw [List.length_append, List.length_singleton]
  have hg1at0 : getBox (s.heap ++ [({ node := some nid, isInline := disp.isInlineLevel, children := [] } : LBox)]) 0 = getBox s.heap 0 :=
    getBox_append_lt _ _ 0 hlen0
  have hg1atl : getBox (s.heap ++ [({ node := some nid, isInline := disp.isInlineLevel, children := [] } : LBox)]) l = getBox s.heap l :=
    getBox_append_lt _ _ l hllen
  have hcai1 : childrenAreInline (s.heap ++ [({ node := some nid, isInline := disp.isInlineLevel, children := [] } : LBox)]) 0 = false := by
    unfold childrenAreInline
    rw [hg1at0]
    refine all_false_of_mem _ _ l hlmem ?_
    rw [hg1atl]
    exact hB3 l hlmem
  have hcail1 : childrenAreInline (s.heap ++ [({ node := some nid, isInline := disp.isInlineLevel, children := [] } : LBox)]) l = true := by
    refine cAI_transport s.heap _ l (by rw [hg1atl]) ?_ hcail
    intro c hc
    rw [getBox_append_lt s.heap _ c hc]
  have hgpi : getParentForInline ⟨s.heap ++ [({ node := some nid, isInline := disp.isInlineLevel, children := [] } : LBox)], s.stack⟩ =
      some (⟨s.heap ++ [({ node := some nid, isInline := disp.isInlineLevel, children := [] } : LBox)], s.stack⟩, l) := by
    refine gpi_reuse _ 0 [] l (by dsimp only; rw [hstack]) hcai1 ?_ (by rw [hg1atl]; exact hanonl) hcail1
    rw [hg1at0]
    exact hl
  have hlne0 : l ≠ 0 := by omega
  have hlnelen : l ≠ s.heap.length := by omega
  have hlenne0 : s.heap.length ≠ 0 := by omega
  have hllt1 : l < (s.heap ++ [({ node := some nid, isInline := disp.isInlineLevel, children := [] } : LBox)]).length := by
    rw [h1len]
    omega
  have h2len : (appendChild (s.heap ++ [({ node := some nid, isInline := disp.isInlineLevel, children := [] } : LBox)]) l s.heap.length).length = s.heap.length + 1 := by
    rw [length_appendChild, h1len]
  have hg2at0 : getBox (appendChild (s.heap ++ [({ node := some nid, isInline := disp.isInlineLevel, children := [] } : LBox)]) l s.heap.length) 0 = getBox s.heap 0 := by
    rw [getBox_appendChild_ne _ l _ 0 (by omega), hg1at0]
  have hg2atl : getBox (appendChild (s.heap ++ [({ node := some nid, isInline := disp.isInlineLevel, children := [] } : LBox)]) l s.heap.length) l =
      { getBox s.heap l with children := (getBox s.heap l).children ++ [s.heap.length] } := by
    rw [getBox_appendChild_self _ l _ hllt1, hg1atl]
  have hg2len : getBox (appendChild (s.heap ++ [({ node := some nid, isInline := disp.isInlineLevel, children := [] } : LBox)]) l s.heap.length) s.heap.length =
      ({ node := some nid, isInline := disp.isInlineLevel, children := [] } : LBox) := by
    rw [getBox_appendChild_ne _ l _ _ (by omega), getBox_append_self]
  have hg2c : ∀ k, k < s.heap.length → k ≠ l →
      getBox (appendChild (s.heap ++ [({ node := some nid, isInline := disp.isInlineLevel, children := [] } : LBox)]) l s.heap.length) k = getBox s.heap k := by
    intro k hk hkl
    rw [getBox_appendChild_ne _ l _ k hkl, getBox_append_lt s.heap _ k hk]
  have hclosed4 : heapClosed (appendChild (s.heap ++ [({ node := some nid, isInline := disp.isInlineLevel, children := [] } : LBox)]) l s.heap.length) :=
    heapClosed_appendChild _ l s.heap.length
      (heapClosed_append s.heap _ hclosed (fun c hcc => absurd hcc (List.not_mem_nil c)))
      (by rw [h1len]; omega)
  obtain ⟨s5, hforest, hstk5, hclosed5, hlen5, hfr5, hnode5, hflag5⟩ :=
    c1_subtree_inline (appendChild (s.heap ++ [({ node := some nid, isInline := disp.isInlineLevel, children := [] } : LBox)]) l s.heap.length) s.stack kids s.heap.length
      (by rw [h2len]; omega)
      (by rw [hg2len])
      hkidsp
      (by
        intro j hj
        rw [hstack] at hj
        rw [List.mem_singleton.mp hj, h2len]
        omega)
      (by
        refine ⟨0, ?_, ?_⟩
        · rw [hstack]
          exact List.mem_singleton.mpr rfl
        · rw [hg2at0]
          exact hinl0)
      hclosed4
  have hbox05 : getBox s5.heap 0 = getBox s.heap 0 := by
    rw [hfr5 0 (by rw [h2len]; omega) (by omega), hg2at0]
  have hbox5l : getBox s5.heap l =
      { getBox s.heap l with children := (getBox s.heap l).children ++ [s.heap.length] } := by
    rw [hfr5 l (by rw [h2len]; omega) hlnelen, hg2atl]
  have hc5 : ∀ k, k < s.heap.length → k ≠ l → getBox s5.heap k = getBox s.heap k := by
    intro k hk hkl
    rw [hfr5 k (by rw [h2len]; omega) (by omega), hg2c k hk hkl]
  have hnode5all : ∀ k, k < s.heap.length → (getBox s5.heap k).node = (getBox s.heap k).node := by
    intro k hk
    by_cases hkl : k = l
    · subst hkl
      rw [hbox5l]
    · rw [hc5 k hk hkl]
  have hfl5 : ∀ k, k < s.heap.length → (getBox s5.heap k).isInline = (getBox s.heap k).isInline := by
    intro k hk
    by_cases hkl : k = l
    · subst hkl
      rw [hbox5l]
    · rw [hc5 k hk hkl]
  have hn5len : (getBox s5.heap s.heap.length).node = some nid := by
    rw [hnode5, hg2len]
  have hf5len : (getBox s5.heap s.heap.length).isInline = true := by
    rw [hflag5, hg2len]
    exact hdisp
  have hnodel : (getBox s.heap l).node = none := by
    have := hanonl
    unfold LBox.isAnon at this
    exact Option.isNone_iff_eq_none.mp this
  have hdecomp : (getBox s.heap 0).children =
      (getBox s.heap 0).children.dropLast ++ [l] :=
    (List.dropLast_append_getLast? l hl).symm
  obtain ⟨init, r, hshape⟩ := endsAnon_true_shape _ hend
  have hsplit : ((getBox s.heap 0).children.dropLast.map (readChild s.heap) = init) ∧
      readChild s.heap l = GChild.anonRun r := by
    have hmapped : (getBox s.heap 0).children.dropLast.map (readChild s.heap) ++
        [readChild s.heap l] = init ++ [GChild.anonRun r] := by
      show (getBox s.heap 0).children.dropLast.map (readChild s.heap) ++
        List.map (readChild s.heap) [l] = init ++ [GChild.anonRun r]
      rw [← List.map_append, ← hdecomp]
      rw [← hshape, ← hB2]
      rfl
    have := List.append_inj' hmapped rfl
    exact ⟨this.1, by
      have h2 := this.2
      exact (List.cons.injEq _ _ _ _).mp h2 |>.1⟩
  have hrcl : readChild s.heap l = GChild.anonRun ((getBox s.heap l).children.map (fun j => ((getBox s.heap j).node).getD 0)) := by
    unfold readChild
    rw [hnodel]
  have hreq : (getBox s.heap l).children.map (fun j => ((getBox s.heap j).node).getD 0) = r := by
    have := hsplit.2
    rw [hrcl] at this
    exact (GChild.anonRun.injEq _ _).mp this
  have hdsb : ∀ d, d ∈ (getBox s.heap l).children → d < s.heap.length :=
    fun d hd => hclosed l hllen d hd
  have hrc5l : readChild s5.heap l = GChild.anonRun (r ++ [nid]) := by
    unfold readChild
    rw [hbox5l]
    dsimp only
    rw [hnodel]
    dsimp only
    have hmds : ((getBox s.heap l).children ++ [s.heap.length]).map (fun j => ((getBox s5.heap j).node).getD 0) = r ++ [nid] := by
      rw [List.map_append]
      have h1 : (getBox s.heap l).children.map (fun j => ((getBox s5.heap j).node).getD 0) = r := by
        rw [← hreq]
        exact List.map_congr_left (fun d hd => by rw [hnode5all d (hdsb d hd)])
      have h2 : List.map (fun j => ((getBox s5.heap j).node).getD 0) [s.heap.length] = [nid] := by
        show [((getBox s5.heap s.heap.length).node).getD 0] = [nid]
        rw [hn5len]
        rfl
      rw [h1, h2]
    rw [hmds]
  have hlnotdrop : l ∉ (getBox s.heap 0).children.dropLast := by
    have hnd2 := hnd
    rw [hdecomp] at hnd2
    intro hm
    exact (List.nodup_append.mp hnd2).2.2 hm (List.mem_singleton.mpr rfl)
  have hrc : ∀ c, c ∈ (getBox s.heap 0).children.dropLast →
      readChild s5.heap c = readChild s.heap c := by
    intro c hc
    have hcm : c ∈ (getBox s.heap 0).children := by
      rw [hdecomp]
      exact List.mem_append_left _ hc
    have hclt := hcb c hcm
    have hcnl : c ≠ l := fun he => hlnotdrop (he ▸ hc)
    have hbc := hc5 c hclt hcnl
    refine readChild_congr s.heap s5.heap c (by rw [hbc]) (by rw [hbc]) ?_
    intro d hd
    exact hnode5all d (hclosed c hclt d hd)
  have hread : readChildren s5.heap 0 = init ++ [GChild.anonRun (r ++ [nid])] := by
    unfold readChildren
    rw [hbox05, hdecomp, List.map_append]
    congr 1
    · rw [← hsplit.1]
      exact List.map_congr_left (fun c hc => hrc c hc)
    · show [readChild s5.heap l] = [GChild.anonRun (r ++ [nid])]
      rw [hrc5l]
  have hgr : groupRuns (done ++ [(nid, true)]) = init ++ [GChild.anonRun (r ++ [nid])] := by
    rw [groupRuns_snoc_inline, hshape, snocInline_anon_end]
  refine ⟨⟨s5.heap, s5.stack.tail⟩, ?_, ?_, ?_⟩
  · unfold buildNode
    dsimp only
    rw [if_neg (by rw [hnone]; exact Bool.noConfusion)]
    try dsimp only
    rw [if_pos hdisp, hgpi]
    try dsimp only
    rw [hforest]
  · dsimp only
    rw [hstk5]
    exact hstack
  · have hle5 := hlen5
    rw [h2len] at hle5
    refine ⟨by dsimp only; omega, hclosed5, ?_, ?_, ?_, Or.inr ⟨?_, ?_, ?_, ?_⟩⟩
    · dsimp only
      rw [hbox05]
      exact hinl0
    · intro c hc
      dsimp only at hc
      rw [hbox05] at hc
      exact hpos c hc
    · dsimp only
      rw [hbox05]
      exact hnd
    · obtain ⟨e, he, hef⟩ := hB1
      exact ⟨e, List.mem_append_left _ he, hef⟩
    · dsimp only
      rw [hread, hgr]
    · intro c hc
      dsimp only at hc
      rw [hbox05] at hc
      rw [hfl5 c (hcb c hc)]
      exact hB3 c hc
    · rw [hbox05, hl]
      dsimp only
      have hanon5 : (getBox s5.heap l).isAnon = true := by
        unfold LBox.isAnon
        rw [hnode5all l hllen, hnodel]
        rfl
      have hcai5 : childrenAreInline s5.heap l = true := by
        unfold childrenAreInline
        rw [hbox5l]
        dsimp only
        refine List.all_eq_true.mpr ?_
        intro c hc
        rcases List.mem_append.mp hc with h1 | h2
        · have hcj := hcail
          unfold childrenAreInline at hcj
          have hct := List.all_eq_true.mp hcj c h1
          rw [hfl5 c (flag_true_bound s.heap c hct)]
          exact hct
        · rw [List.mem_singleton.mp h2]
          exact hf5len
      rw [hanon5, hcai5, hgr, ← snocInline_anon_end, ← hshape, endsAnon_snocInline]
      rfl

theorem c1_step_inline_B_create (s : BState) (done : List (Nat × Bool)) (nid : Nat)
    (disp : Display) (kids : DForest) (l : Nat)
    (hdisp : disp.isInlineLevel = true)
    (hkidsp : inlinePureForest kids = true)
    (hstack : s.stack = [0])
    (hlen : 1 ≤ s.heap.length)
    (hclosed : heapClosed s.heap)
    (hinl0 : (getBox s.heap 0).isInline = false)
    (hpos : ∀ c, c ∈ (getBox s.heap 0).children → 0 < c)
    (hnd : (getBox s.heap 0).children.Nodup)
    (hB1 : ∃ e, e ∈ done ∧ e.2 = false)
    (hB2 : readChildren s.heap 0 = groupRuns done)
    (hB3 : ∀ c, c ∈ (getBox s.heap 0).children → (getBox s.heap c).isInline = false)
    (hl : (getBox s.heap 0).children.getLast? = some l)
    (hreqf : ((getBox s.heap l).isAnon && childrenAreInline s.heap l) = false)
    (hend : endsAnon (groupRuns done) = false) :
    ∃ s', buildNode s (.mk nid disp kids) = some s' ∧ s'.stack = [0] ∧
      containerInv s'.heap (done ++ [(nid, true)]) := by
  have hnone : disp.isNoneDisplay = false := isInlineLevel_not_none disp hdisp
  have hlen0 : 0 < s.heap.length := hlen
  have hcb : ∀ c, c ∈ (getBox s.heap 0).children → c < s.heap.length :=
    fun c hc => hclosed 0 hlen0 c hc
  have hlmem : l ∈ (getBox s.heap 0).children := mem_of_getLast?_eq _ _ hl
  have hllen : l < s.heap.length := hcb l hlmem
  have h1len : (s.heap ++ [({ node := some nid, isInline := disp.isInlineLevel, children := [] } : LBox)]).length = s.heap.length + 1 := by
    rw [List.length_append, List.length_singleton]
  have hg1at0 : getBox (s.heap ++ [({ node := some nid, isInline := disp.isInlineLevel, children := [] } : LBox)]) 0 = getBox s.heap 0 :=
    getBox_append_lt _ _ 0 hlen0
  have hg1atl : getBox (s.heap ++ [({ node := some nid, isInline := disp.isInlineLevel, children := [] } : LBox)]) l = getBox s.heap l :=
    getBox_append_lt _ _ l hllen
  have hcai1 : childrenAreInline (s.heap ++ [({ node := some nid, isInline := disp.isInlineLevel, children := [] } : LBox)]) 0 = false := by
    unfold childrenAreInline
    rw [hg1at0]
    refine all_false_of_mem _ _ l hlmem ?_
    rw [hg1atl]
    exact hB3 l hlmem
  have hra : requireAnonFor (s.heap ++ [({ node := some nid, isInline := disp.isInlineLevel, children := [] } : LBox)]) 0 = true := by
    unfold requireAnonFor
    rw [hg1at0, hl]
    dsimp only
    have hcaieq : childrenAreInline (s.heap ++ [({ node := some nid, isInline := disp.isInlineLevel, children := [] } : LBox)]) l = childrenAreInline s.heap l := by
      unfold childrenAreInline
      rw [hg1atl]
      exact all_congr_mem _ _ _ (fun c hc => by
        rw [getBox_append_lt s.heap _ c (hclosed l hllen c hc)])
    rw [hg1atl, hcaieq, hreqf]
    rfl
  have hgpi : getParentForInline ⟨s.heap ++ [({ node := some nid, isInline := disp.isInlineLevel, children := [] } : LBox)], s.stack⟩ =
      some (⟨appendChild ((s.heap ++ [({ node := some nid, isInline := disp.isInlineLevel, children := [] } : LBox)]) ++ [({ node := none, isInline := false, children := [] } : LBox)]) 0 (s.heap.length + 1), s.stack⟩, s.heap.length + 1) := by
    have h := gpi_create ⟨s.heap ++ [({ node := some nid, isInline := disp.isInlineLevel, children := [] } : LBox)], s.stack⟩ 0 []
      (by dsimp only; rw [hstack]) (by dsimp only; rw [h1len]; omega) hcai1 hra
    have h2 : getParentForInline ⟨s.heap ++ [({ node := some nid, isInline := disp.isInlineLevel, children := [] } : LBox)], s.stack⟩ =
        some (⟨appendChild ((s.heap ++ [({ node := some nid, isInline := disp.isInlineLevel, children := [] } : LBox)]) ++ [({ node := none, isInline := false, children := [] } : LBox)]) 0 ((s.heap ++ [({ node := some nid, isInline := disp.isInlineLevel, children := [] } : LBox)]).length), s.stack⟩, (s.heap ++ [({ node := some nid, isInline := disp.isInlineLevel, children := [] } : LBox)]).length) := h
    rw [h1len] at h2
    exact h2
  have h1alen : ((s.heap ++ [({ node := some nid, isInline := disp.isInlineLevel, children := [] } : LBox)]) ++ [({ node := none, isInline := false, children := [] } : LBox)]).length = s.heap.length + 2 := by
    rw [List.length_append, h1len, List.length_singleton]
  have hg1a0 : getBox ((s.heap ++ [({ node := some nid, isInline := disp.isInlineLevel, children := [] } : LBox)]) ++ [({ node := none, isInline := false, children := [] } : LBox)]) 0 = getBox s.heap 0 := by
    rw [getBox_append_lt _ _ 0 (by rw [h1len]; omega), hg1at0]
  have h2alen : (appendChild ((s.heap ++ [({ node := some nid, isInline := disp.isInlineLevel, children := [] } : LBox)]) ++ [({ node := none, isInline := false, children := [] } : LBox)]) 0 (s.heap.length + 1)).length = s.heap.length + 2 := by
    rw [length_appendChild, h1alen]
  have hg2a0 : getBox (appendChild ((s.heap ++ [({ node := some nid, isInline := disp.isInlineLevel, children := [] } : LBox)]) ++ [({ node := none, isInline := false, children := [] } : LBox)]) 0 (s.heap.length + 1)) 0 =
      { getBox s.heap 0 with children := (getBox s.heap 0).children ++ [s.heap.length + 1] } := by
    rw [getBox_appendChild_self _ 0 _ (by rw [h1alen]; omega), hg1a0]
  have hone : s.heap.length + 1 ≠ 0 := by omega
  have hg2aanon : getBox (appendChild ((s.heap ++ [({ node := some nid, isInline := disp.isInlineLevel, children := [] } : LBox)]) ++ [({ node := none, isInline := false, children := [] } : LBox)]) 0 (s.heap.length + 1)) (s.heap.length + 1) =
      ({ node := none, isInline := false, children := [] } : LBox) := by
    rw [getBox_appendChild_ne _ 0 _ _ hone]
    have hself := getBox_append_self (s.heap ++ [({ node := some nid, isInline := disp.isInlineLevel, children := [] } : LBox)]) ({ node := none, isInline := false, children := [] } : LBox)
    rw [h1len] at hself
    exact hself
  have hg30 : getBox (appendChild (appendChild ((s.heap ++ [({ node := some nid, isInline := disp.isInlineLevel, children := [] } : LBox)]) ++ [({ node := none, isInline := false, children := [] } : LBox)]) 0 (s.heap.length + 1)) (s.heap.length + 1) s.heap.length) 0 =
      { getBox s.heap 0 with children := (getBox s.heap 0).children ++ [s.heap.length + 1] } := by
    rw [getBox_appendChild_ne _ _ _ 0 (by omega), hg2a0]
  have hg3anon : getBox (appendChild (appendChild ((s.heap ++ [({ node := some nid, isInline := disp.isInlineLevel, children := [] } : LBox)]) ++ [({ node := none, isInline := false, children := [] } : LBox)]) 0 (s.heap.length + 1)) (s.heap.length + 1) s.heap.length) (s.heap.length + 1) =
      ({ node := none, isInline := false, children := [s.heap.length] } : LBox) := by
    rw [getBox_appendChild_self _ _ _ (by rw [h2alen]; omega), hg2aanon]
    rfl
  have hlz : s.heap.length ≠ 0 := by omega
  have hg3len : getBox (appendChild (appendChild ((s.heap ++ [({ node := some nid, isInline := disp.isInlineLevel, children := [] } : LBox)]) ++ [({ node := none, isInline := false, children := [] } : LBox)]) 0 (s.heap.length + 1)) (s.heap.length + 1) s.heap.length) s.heap.length =
      ({ node := some nid, isInline := disp.isInlineLevel, children := [] } : LBox) := by
    rw [getBox_appendChild_ne _ _ _ _ (by omega), getBox_appendChild_ne _ 0 _ _ hlz,
      getBox_append_lt _ _ _ (by rw [h1len]; omega)]
    exact getBox_append_self s.heap _
  have hg3c : ∀ k, k < s.heap.length → k ≠ 0 →
      getBox (appendChild (appendChild ((s.heap ++ [({ node := some nid, isInline := disp.isInlineLevel, children := [] } : LBox)]) ++ [({ node := none, isInline := false, children := [] } : LBox)]) 0 (s.heap.length + 1)) (s.heap.length + 1) s.heap.length) k = getBox s.heap k := by
    intro k hk hk0
    rw [getBox_appendChild_ne _ _ _ k (by omega), getBox_appendChild_ne _ 0 _ k hk0,
      getBox_append_lt _ _ k (by rw [h1len]; omega), getBox_append_lt s.heap _ k hk]
  have h3len : (appendChild (appendChild ((s.heap ++ [({ node := some nid, isInline := disp.isInlineLevel, children := [] } : LBox)]) ++ [({ node := none, isInline := false, children := [] } : LBox)]) 0 (s.heap.length + 1)) (s.heap.length + 1) s.heap.length).length = s.heap.length + 2 := by
    rw [length_appendChild, h2alen]
  have hclosed4 : heapClosed (appendChild (appendChild ((s.heap ++ [({ node := some nid, isInline := disp.isInlineLevel, children := [] } : LBox)]) ++ [({ node := none, isInline := false, children := [] } : LBox)]) 0 (s.heap.length + 1)) (s.heap.length + 1) s.heap.length) := by
    refine heapClosed_appendChild _ _ s.heap.length ?_ (by rw [h2alen]; omega)
    refine heapClosed_appendChild _ 0 (s.heap.length + 1) ?_ (by rw [h1alen]; omega)
    refine heapClosed_append _ _ ?_ (fun c hcc => absurd hcc (List.not_mem_nil c))
    exact heapClosed_append s.heap _ hclosed (fun c hcc => absurd hcc (List.not_mem_nil c))
  obtain ⟨s5, hforest, hstk5, hclosed5, hlen5, hfr5, hnode5, hflag5⟩ :=
    c1_subtree_inline (appendChild (appendChild ((s.heap ++ [({ node := some nid, isInline := disp.isInlineLevel, children := [] } : LBox)]) ++ [({ node := none, isInline := false, children := [] } : LBox)]) 0 (s.heap.length + 1)) (s.heap.length + 1) s.heap.length) s.stack kids s.heap.length
      (by rw [h3len]; omega)
      (by rw [hg3len])
      hkidsp
      (by
        intro j hj
        rw [hstack] at hj
        rw [List.mem_singleton.mp hj, h3len]
        omega)
      (by
        refine ⟨0, ?_, ?_⟩
        · rw [hstack]
          exact List.mem_singleton.mpr rfl
        · rw [hg30]
          exact hinl0)
      hclosed4
  have hbox05 : getBox s5.heap 0 =
      { getBox s.heap 0 with children := (getBox s.heap 0).children ++ [s.heap.length + 1] } := by
    rw [hfr5 0 (by rw [h3len]; omega) (by omega), hg30]
  have hbox5anon : getBox s5.heap (s.heap.length + 1) =
      ({ node := none, isInline := false, children := [s.heap.length] } : LBox) := by
    rw [hfr5 _ (by rw [h3len]; omega) (by omega), hg3anon]
  have hc5 : ∀ k, k < s.heap.length → k ≠ 0 → getBox s5.heap k = getBox s.heap k := by
    intro k hk hk0
    rw [hfr5 k (by rw [h3len]; omega) (by omega), hg3c k hk hk0]
  have hnode5all : ∀ k, k < s.heap.length → (getBox s5.heap k).node = (getBox s.heap k).node := by
    intro k hk
    by_cases hk0 : k = 0
    · subst hk0
      rw [hbox05]
    · rw [hc5 k hk hk0]
  have hn5len : (getBox s5.heap s.heap.length).node = some nid := by
    rw [hnode5, hg3len]
  have hf5len : (getBox s5.heap s.heap.length).isInline = true := by
    rw [hflag5, hg3len]
    exact hdisp
  have hrc : ∀ c, c ∈ (getBox s.heap 0).children → readChild s5.heap c = readChild s.heap c := by
    intro c hc
    have hclt := hcb c hc
    have hc0 := hpos c hc
    have hbc := hc5 c hclt (by omega)
    refine readChild_congr s.heap s5.heap c (by rw [hbc]) (by rw [hbc]) ?_
    intro d hd
    exact hnode5all d (hclosed c hclt d hd)
  have hread : readChildren s5.heap 0 = groupRuns done ++ [GChild.anonRun [nid]] := by
    unfold readChildren
    rw [hbox05]
    dsimp only
    rw [List.map_append, ← hB2]
    unfold readChildren
    congr 1
    · exact List.map_congr_left (fun c hc => hrc c hc)
    · show [readChild s5.heap (s.heap.length + 1)] = [GChild.anonRun [nid]]
      congr 1
      unfold readChild
      rw [hbox5anon]
      dsimp only
      show GChild.anonRun (List.map (fun j => ((getBox s5.heap j).node).getD 0) [s.heap.length]) = GChild.anonRun [nid]
      congr 1
      show [((getBox s5.heap s.heap.length).node).getD 0] = [nid]
      rw [hn5len]
      rfl
  refine ⟨⟨s5.heap, s5.stack.tail⟩, ?_, ?_, ?_⟩
  · unfold buildNode
    dsimp only
    rw [if_neg (by rw [hnone]; exact Bool.noConfusion)]
    try dsimp only
    rw [if_pos hdisp, hgpi]
    try dsimp only
    rw [hforest]
  · dsimp only
    rw [hstk5]
    exact hstack
  · have hle5 := hlen5
    rw [h3len] at hle5
    refine ⟨by dsimp only; omega, hclosed5, ?_, ?_, ?_, Or.inr ⟨?_, ?_, ?_, ?_⟩⟩
    · dsimp only
      rw [hbox05]
      exact hinl0
    · intro c hc
      dsimp only at hc
      rw [hbox05] at hc
      dsimp only at hc
      rcases List.mem_append.mp hc with h1 | h2
      · exact hpos c h1
      · rw [List.mem_singleton.mp h2]
        omega
    · dsimp only
      rw [hbox05]
      dsimp only
      rw [← List.concat_eq_append]
      refine List.Nodup.concat ?_ hnd
      intro hm
      have := hcb _ hm
      omega
    · obtain ⟨e, he, hef⟩ := hB1
      exact ⟨e, List.mem_append_left _ he, hef⟩
    · dsimp only
      rw [hread, groupRuns_snoc_inline, snocInline_of_ends_false _ _ hend]
    · intro c hc
      dsimp only at hc
      rw [hbox05] at hc
      dsimp only at hc
      rcases List.mem_append.mp hc with h1 | h2
      · have hclt := hcb c h1
        have hc0 := hpos c h1
        rw [hc5 c hclt (by omega)]
        exact hB3 c h1
      · rw [List.mem_singleton.mp h2, hbox5anon]
    · rw [hbox05]
      dsimp only
      rw [List.getLast?_concat]
      dsimp only
      have hanon5 : (getBox s5.heap (s.heap.length + 1)).isAnon = true := by
        unfold LBox.isAnon
        rw [hbox5anon]
        rfl
      have hcai5 : childrenAreInline s5.heap (s.heap.length + 1) = true := by
        unfold childrenAreInline
        rw [hbox5anon]
        dsimp only
        refine List.all_eq_true.mpr ?_
        intro c hc
        rw [List.mem_singleton.mp hc]
        exact hf5len
      rw [hanon5, hcai5, groupRuns_snoc_inline, endsAnon_snocInline]
      rfl

theorem cssList_cons (hd : DNode) (tl : DForest) :
    cssList (.cons hd tl) = cssEntry hd ++ cssList tl := by
  have h : cssList (.cons hd tl) =
      if hd.disp.isNoneDisplay then cssList tl
      else (hd.nid, hd.disp.isInlineLevel) :: cssList tl := rfl
  rw [h]
  unfold cssEntry
  by_cases hn : hd.disp.isNoneDisplay = true
  · rw [if_pos hn, if_pos hn]
    rfl
  · rw [if_neg hn, if_neg hn]
    rfl

/-- One full step of the container invariant: processing any document child of
the container, whose inline level children have inline pure subtrees, extends
the processed prefix by the entries of that child. -/
theorem c1_step (n : DNode) (done : List (Nat × Bool)) (s : BState)
    (hpure : (!n.disp.isInlineLevel || inlinePure n) = true)
    (hstack : s.stack = [0]) (hinv : containerInv s.heap done) :
    ∃ s', buildNode s n = some s' ∧ s'.stack = [0] ∧
      containerInv s'.heap (done ++ cssEntry n) := by
  obtain ⟨hlen, hclosed, hinl0, hpos, hnd, hphase⟩ := hinv
  cases n with
  | mk nid disp kids =>
    by_cases hnone : disp.isNoneDisplay = true
    · refine ⟨s, ?_, hstack, ?_⟩
      · unfold buildNode
        dsimp only
        rw [if_pos hnone]
      · have hentry : cssEntry (.mk nid disp kids) = [] := by
          unfold cssEntry
          rw [if_pos (show (DNode.mk nid disp kids).disp.isNoneDisplay = true from hnone)]
        rw [hentry, List.append_nil]
        exact ⟨hlen, hclosed, hinl0, hpos, hnd, hphase⟩
    · have hnone' : disp.isNoneDisplay = false := by
        cases h : disp.isNoneDisplay
        · rfl
        · exact absurd h hnone
      have hentry : cssEntry (.mk nid disp kids) = [(nid, disp.isInlineLevel)] := by
        unfold cssEntry
        rw [if_neg (show ¬((DNode.mk nid disp kids).disp.isNoneDisplay = true) from hnone)]
        rfl
      by_cases hinl : disp.isInlineLevel = true
      · have hpureN : inlinePure (DNode.mk nid disp kids) = true := by
          have hp : (!disp.isInlineLevel || inlinePure (DNode.mk nid disp kids)) = true := hpure
          rw [hinl] at hp
          exact hp
        have hkidsp : inlinePureForest kids = true := by
          have h2 : (disp.isInlineLevel && inlinePureForest kids) = true := hpureN
          rw [hinl] at h2
          exact h2
        rcases hphase with ⟨hA1, hA2, hA3⟩ | ⟨hB1, hB2, hB3, hBlast⟩
        · obtain ⟨s', h1, h2, h3⟩ := c1_step_inline_A s done nid disp kids hinl hkidsp
            hstack hlen hclosed hinl0 hpos hnd hA1 hA2 hA3
          refine ⟨s', h1, h2, ?_⟩
          rw [hentry, hinl]
          exact h3
        · cases hlast : (getBox s.heap 0).children.getLast? with
          | none =>
            rw [hlast] at hBlast
            exact hBlast.elim
          | some l =>
            rw [hlast] at hBlast
            dsimp only at hBlast
            cases hend : endsAnon (groupRuns done) with
            | true =>
              rw [hend] at hBlast
              simp only [Bool.and_eq_true] at hBlast
              obtain ⟨s', h1, h2, h3⟩ := c1_step_inline_B_reuse s done nid disp kids l
                hinl hkidsp hstack hlen hclosed hinl0 hpos hnd hB1 hB2 hB3 hlast
                hBlast.1 hBlast.2 hend
              refine ⟨s', h1, h2, ?_⟩
              rw [hentry, hinl]
              exact h3
            | false =>
              rw [hend] at hBlast
              obtain ⟨s', h1, h2, h3⟩ := c1_step_inline_B_create s done nid disp kids l
                hinl hkidsp hstack hlen hclosed hinl0 hpos hnd hB1 hB2 hB3 hlast hBlast hend
              refine ⟨s', h1, h2, ?_⟩
              rw [hentry, hinl]
              exact h3
      · have hdispf : disp.isInlineLevel = false := by
          cases h : disp.isInlineLevel
          · rfl
          · exact absurd h hinl
        rcases hphase with ⟨hA1, hA2, hA3⟩ | ⟨hB1, hB2, hB3, hBlast⟩
        · obtain ⟨s', h1, h2, h3⟩ := c1_step_block_A s done nid disp kids hdispf hnone'
            hstack hlen hclosed hinl0 hpos hnd hA1 hA2 hA3
          refine ⟨s', h1, h2, ?_⟩
          rw [hentry, hdispf]
          exact h3
        · have hcsne : (getBox s.heap 0).children ≠ [] := by
            intro he
            rw [he] at hBlast
            exact hBlast
          obtain ⟨s', h1, h2, h3⟩ := c1_step_block_B s done nid disp kids hdispf hnone'
            hstack hlen hclosed hinl0 hpos hnd hB1 hB2 hB3 hcsne
          refine ⟨s', h1, h2, ?_⟩
          rw [hentry, hdispf]
          exact h3

/-- Folding the container step over all document children of the container. -/
theorem c1_fold (f : DForest) (done : List (Nat × Bool)) (s : BState)
    (hkp : inlineKidsPure f = true) (hstack : s.stack = [0])
    (hinv : containerInv s.heap done) :
    ∃ s', buildForest s f = some s' ∧ s'.stack = [0] ∧
      containerInv s'.heap (done ++ cssList f) := by
  match f, hkp with
  | .nil, _ =>
    refine ⟨s, rfl, hstack, ?_⟩
    rw [show cssList .nil = [] from rfl, List.append_nil]
    exact hinv
  | .cons hd tl, hkp =>
    have hkp2 : ((!hd.disp.isInlineLevel || inlinePure hd) && inlineKidsPure tl) = true := hkp
    simp only [Bool.and_eq_true] at hkp2
    obtain ⟨hhd, htl⟩ := hkp2
    obtain ⟨s1, h1, hstk1, hinv1⟩ := c1_step hd done s hhd hstack hinv
    obtain ⟨s', h2, hstk2, hinv2⟩ := c1_fold tl (done ++ cssEntry hd) s1 htl hstk1 hinv1
    refine ⟨s', ?_, hstk2, ?_⟩
    · unfold buildForest
      rw [h1]
      dsimp only
      exact h2
    · rw [cssList_cons, ← List.append_assoc]
      exact hinv2

/-- C1 amended: for a block container whose inline level children have inline
pure subtrees, and whose box generating children include at least one block
level node, the direct children after the tree builder runs are exactly the
claimed run grouping: every maximal run of consecutive inline level children
sits in exactly one anonymous block, wrapping that run in document order, and
every direct child is block level. -/
theorem C1_anonymous_run_grouping (cid : Nat) (kids : DForest)
    (hpure : inlineKidsPure kids = true)
    (hmix : ∃ e, e ∈ cssList kids ∧ e.2 = false) :
    ∃ h, TreeBuilder.build (.element (.mk cid dBlock kids)) = .tree h 0 ∧
      readChildren h 0 = groupRuns (cssList kids) ∧
      ∀ c, c ∈ (getBox h 0).children → (getBox h c).isInline = false := by
  have hb0 : getBox [({ node := some cid, isInline := false, children := [] } : LBox)] 0 =
      ({ node := some cid, isInline := false, children := [] } : LBox) := rfl
  have hinv0 : containerInv [({ node := some cid, isInline := false, children := [] } : LBox)] [] := by
    refine ⟨by simp, ?_, by rw [hb0], ?_, ?_, Or.inl ⟨?_, ?_, ?_⟩⟩
    · intro k hk c hc
      have hk0 : k = 0 := by
        rw [List.length_singleton] at hk
        omega
      subst hk0
      rw [hb0] at hc
      exact absurd hc (List.not_mem_nil c)
    · intro c hc
      rw [hb0] at hc
      exact absurd hc (List.not_mem_nil c)
    · rw [hb0]
      exact List.nodup_nil
    · intro e he
      exact absurd he (List.not_mem_nil e)
    · rw [hb0]
      rfl
    · intro c hc
      rw [hb0] at hc
      exact absurd hc (List.not_mem_nil c)
  obtain ⟨s1, hf, hstk1, hinv1⟩ := c1_fold kids []
    ⟨[({ node := some cid, isInline := false, children := [] } : LBox)], [0]⟩ hpure rfl hinv0
  have hph := hinv1.2.2.2.2.2
  have hBcase : readChildren s1.heap 0 = groupRuns ([] ++ cssList kids) ∧
      (∀ c, c ∈ (getBox s1.heap 0).children → (getBox s1.heap c).isInline = false) := by
    rcases hph with ⟨hA1, hA2, hA3⟩ | ⟨hB1, hB2, hB3, hB4⟩
    · obtain ⟨e, he, hef⟩ := hmix
      have h := hA1 e (List.mem_append_right [] he)
      rw [hef] at h
      exact Bool.noConfusion h
    · exact ⟨hB2, hB3⟩
  rw [List.nil_append] at hBcase
  refine ⟨s1.heap, ?_, hBcase.1, hBcase.2⟩
  unfold TreeBuilder.build
  dsimp only [DNode.disp, DNode.kids, DNode.nid]
  rw [if_neg (show ¬(Display.isNoneDisplay dBlock = true) by decide)]
  rw [show Display.isInlineLevel dBlock = false by decide]
  rw [hf]

/-- Witness for the amended grouping theorem on a concrete mixed container:
two leading inline children, one block child and one trailing inline child. -/
theorem C1_witness :
    ∃ h, TreeBuilder.build (.element (.mk 0 dBlock c1okKids)) = .tree h 0 ∧
      readChildren h 0 = groupRuns (cssList c1okKids) ∧
      ∀ c, c ∈ (getBox h 0).children → (getBox h c).isInline = false :=
  C1_anonymous_run_grouping 0 c1okKids (by decide) (by decide)

end MoonSpec
